import Mathlib

/-!
# Wave Interference: a shallow embedding of `main.go`

The simulation core of the game (the per-tick `Update`, `calcSurfaceHeight`
and the session re-initialisation) is embedded as pure functions.

Modelling conventions.

* `float64` values are elements of an arbitrary linearly ordered field `K`
  (exact arithmetic: rounding, infinities and NaN are not modelled), with one
  exception: the charge height `nextWaveHeight`, which the program builds by
  repeated `+= 0.8`, keeps its rounding. It is a natural number of units of
  `2 ^ -53` (`f64` gives its value in `K`), and the addition is rounded to the
  nearest `float64`, ties to even (`roundF64`).
* The functions of Go's `math` package that the program calls come in a record
  `MathOps K`; `math.Pow(a, 2)` is `a ^ 2` and `math.Abs` is `|.|`.
  `realMath` is the record of the real functions.
* `uint64` and `uint` counters are naturals reduced modulo `2 ^ 64`; the score
  (`int`, 64 bits on the platforms the game is built for) is an integer that
  every addition wraps to the range of `int64` (`wrapInt64`).
* The touch context and the random source are inputs of a tick (`TickInput`).
* Audio, logging and drawing do not write the session state and are left out.
-/

set_option linter.unusedSectionVars false

namespace WaveInterference

/-- The functions of Go's `math` package used by the program. -/
structure MathOps (K : Type) where
  pi : K
  sin : K → K
  cos : K → K
  atan2 : K → K → K
  log : K → K

/-- The real-number reading of the `math` package: `atan2 y x` is the argument
of the complex number `x + y i`. -/
noncomputable def realMath : MathOps ℝ where
  pi := Real.pi
  sin := Real.sin
  cos := Real.cos
  atan2 := fun y x => Complex.arg (⟨x, y⟩ : ℂ)
  log := Real.log

/-! ## Data model -/

structure wave (K : Type) where
  x : K
  vx : K
  height : K
  length : K

structure coin (K : Type) where
  x : K
  y : K
  vx : K
  r : K

structure coinEffect (K : Type) where
  x : K
  y : K
  plus : Int
  ticks : Nat

structure shark (K : Type) where
  x : K
  y : K
  vx : K
  vy : K
  r : K
  attacking : Bool

structure splashEffect (K : Type) where
  x : K
  y : K
  vx : K
  vy : K
  ticks : Nat

inductive gameMode where
  | gameModeTitle
  | gameModePlaying
  | gameModeGameOver
deriving DecidableEq, Repr

/-- The fields of `Game` that the simulation reads and writes (`playID` and the
touch context are not part of the simulated state). -/
structure Game (K : Type) where
  mode : gameMode
  hold : Bool
  ticksFromModeStart : Nat
  score : Int
  waves : List (wave K)
  coins : List (coin K)
  sharks : List (shark K)
  coinEffects : List (coinEffect K)
  splashEffects : List (splashEffect K)
  nextWaveHeight : Nat
  humanHeight : K

/-- What one call of `Update` reads from outside the session: the two edge
signals of the touch context and the draws of the random source, in the order
the code makes them. -/
structure TickInput (K : Type) where
  justTouched : Bool
  justReleased : Bool
  coinRandInt : Nat
  coinRandFloat : K
  sharkRandInt : Nat
  splashRandFloat : Nat → K

section Defs

variable {K : Type} [LinearOrderedField K]

/-! ## Constants -/

def screenWidth : K := 640
def screenHeight : K := 480
def screenCenterX : K := screenWidth / 2
def screenCenterY : K := screenHeight / 2
def surfaceBaseHeight : K := screenHeight / 3 * 2
def waveSpeed : K := 2
def coinSpeed : K := 1
def sharkSpeed : K := 1 / 2
def humanR : K := 10
def coinR : K := 15
def sharkR : K := 10

/-! ## Wave field -/

/-- One iteration of the loop of `calcSurfaceHeight`: the new value of `h`. -/
def waveContribution (m : MathOps K) (x : K) (h : K) (w : wave K) : K :=
  if |x - w.x| < w.length / 2 then
    h + w.height * m.sin (m.pi * (x - (w.x - w.length / 2)) / w.length)
  else h

/-- The method `calcSurfaceHeight`, on the wave list of the session. -/
def calcSurfaceHeight (m : MathOps K) (waves : List (wave K)) (x : K) : K :=
  waves.foldl (waveContribution m x) 0

/-! ## Session re-initialisation -/

/-- The three pulses that `Game.initialize` installs for the title screen. -/
def titleWaves : List (wave K) :=
  [ { x := 200, vx := 0, height := 60, length := 100 },
    { x := 320, vx := 0, height := 90, length := 100 },
    { x := 440, vx := 0, height := 60, length := 100 } ]

/-- The method `Game.initialize`. -/
def initGame (m : MathOps K) (g : Game K) : Game K :=
  let g1 : Game K :=
    { g with
      mode := gameMode.gameModeTitle
      ticksFromModeStart := 0
      hold := false
      score := 0
      waves := []
      coins := []
      sharks := []
      coinEffects := []
      splashEffects := []
      humanHeight := 0
      nextWaveHeight := 0 }
  let g2 : Game K := { g1 with waves := titleWaves }
  { g2 with humanHeight := calcSurfaceHeight m g2.waves screenCenterX }

/-- The zero value `&Game{...}` that `main` builds before calling
`initialize`. -/
def newGame : Game K :=
  { mode := gameMode.gameModeTitle
    hold := false
    ticksFromModeStart := 0
    score := 0
    waves := []
    coins := []
    sharks := []
    coinEffects := []
    splashEffects := []
    nextWaveHeight := 0
    humanHeight := 0 }

/-! ## The Playing tick, block by block -/

/-- The number of low bits of `k` that a `float64` cannot keep: the least `j`
with `k / 2 ^ j < 2 ^ 53` (a `float64` has 53 significant bits). The first
argument bounds the search; 1024 halvings cover every finite `float64`. -/
def ulpShift : Nat → Nat → Nat
  | 0, _ => 0
  | f + 1, k => if k < 2 ^ 53 then 0 else ulpShift f (k / 2) + 1

/-- The rounding of a `float64` operation whose exact result is `k` units of
`2 ^ -53`: the nearest number with 53 significant bits, a tie going to the even
one. The result is again in units of `2 ^ -53`. -/
def roundF64 (k : Nat) : Nat :=
  let j := ulpShift 1024 k
  let q := k / 2 ^ j
  let r := k % 2 ^ j
  if 2 * r < 2 ^ j then q * 2 ^ j
  else if 2 ^ j < 2 * r then (q + 1) * 2 ^ j
  else (q + q % 2) * 2 ^ j

/-- The value of the `float64` that is `k` units of `2 ^ -53`. -/
def f64 (k : Nat) : K := (k : K) / 2 ^ 53

/-- Lines 214-217 on the value `k` of the field:
`nextWaveHeight += 0.8; if nextWaveHeight > 300 { nextWaveHeight = 300 }`. The
constant `0.8` is the `float64` of 7205759403792794 units of `2 ^ -53` (the
nearest to 4/5), and 300 is `300 * 2 ^ 53 = 2702159776422297600` units. -/
def chargeAdd (k : Nat) : Nat :=
  let k1 := roundF64 (k + 7205759403792794)
  if k1 > 2702159776422297600 then 2702159776422297600 else k1

/-- Lines 213-218: `if g.hold { g.nextWaveHeight += 0.8; cap at 300 }`. -/
def chargeHold (g : Game K) : Game K :=
  if g.hold then { g with nextWaveHeight := chargeAdd g.nextWaveHeight } else g

/-- The charge height after `n` ticks of holding since the press: `n` times
lines 214-217, from the 0 that the press sets. -/
def heldCharge : Nat → Nat
  | 0 => 0
  | n + 1 => chargeAdd (heldCharge n)

/-- Lines 220-223: `if IsJustTouched() { hold = true; nextWaveHeight = 0 }`. -/
def chargeTouch (inp : TickInput K) (g : Game K) : Game K :=
  if inp.justTouched then { g with hold := true, nextWaveHeight := 0 } else g

/-- Lines 224-241: the release block. -/
def chargeRelease (inp : TickInput K) (g : Game K) : Game K :=
  if inp.justReleased then
    let g1 : Game K :=
      if g.hold then
        { g with waves := g.waves ++
            [{ x := -100, vx := waveSpeed, height := f64 g.nextWaveHeight, length := 200 }] }
      else g
    { g1 with hold := false, nextWaveHeight := 0 }
  else g

/-- Lines 213-241: charge, press and release. -/
def chargeStep (inp : TickInput K) (g : Game K) : Game K :=
  chargeRelease inp (chargeTouch inp (chargeHold g))

/-- Lines 243-252: `Wave enter`. -/
def waveEnter (g : Game K) : Game K :=
  if g.ticksFromModeStart % 180 = 0 then
    { g with waves := g.waves ++
        [{ x := screenWidth + 75, vx := -waveSpeed, height := 50, length := 150 }] }
  else g

/-- Lines 254-271: `Coin enter`. -/
def coinEnter (inp : TickInput K) (g : Game K) : Game K :=
  if g.ticksFromModeStart % 180 = 0 then
    let xv : K × K :=
      if inp.coinRandInt % 2 = 0 then (-50, coinSpeed) else (screenWidth + 50, -coinSpeed)
    { g with coins := g.coins ++
        [{ x := xv.1, y := (surfaceBaseHeight - 200) * inp.coinRandFloat + 50,
           vx := xv.2, r := coinR }] }
  else g

/-- Lines 273-291: `Shark enter`. -/
def sharkEnter (inp : TickInput K) (g : Game K) : Game K :=
  if g.ticksFromModeStart % 630 = 0 then
    let xv : K × K :=
      if inp.sharkRandInt % 2 = 0 then (-50, sharkSpeed) else (screenWidth + 50, -sharkSpeed)
    { g with sharks := g.sharks ++
        [{ x := xv.1, y := surfaceBaseHeight + 100, vx := xv.2, vy := 0, r := sharkR,
           attacking := false }] }
  else g

/-- Lines 296-297: one wave advanced by its velocity. -/
def waveAdvance (w : wave K) : wave K := { w with x := w.x + w.vx }

/-- Lines 293-303: `Wave move`, the loop that fills `newWaves`. -/
def waveMoveLoop : List (wave K) → List (wave K) → List (wave K)
  | [], newWaves => newWaves
  | w :: rest, newWaves =>
    let w1 := waveAdvance w
    if w1.x > -w1.length ∧ w1.x < screenWidth + w1.length then
      waveMoveLoop rest (newWaves ++ [w1])
    else waveMoveLoop rest newWaves

def waveMove (g : Game K) : Game K := { g with waves := waveMoveLoop g.waves [] }

/-- Lines 308-309: one coin advanced by its velocity. -/
def coinAdvance (c : coin K) : coin K := { c with x := c.x + c.vx }

/-- Lines 305-315: `Coin move`, the loop that fills `newCoins`. -/
def coinMoveLoop : List (coin K) → List (coin K) → List (coin K)
  | [], newCoins => newCoins
  | c :: rest, newCoins =>
    let c1 := coinAdvance c
    if c1.x > -50 ∧ c1.x < screenWidth + 50 then coinMoveLoop rest (newCoins ++ [c1])
    else coinMoveLoop rest newCoins

def coinMove (g : Game K) : Game K := { g with coins := coinMoveLoop g.coins [] }

/-- Line 322: the squared distance `d2` of a shark to the point
`(screenCenterX, surfaceBaseHeight)`. -/
def sharkD2 (s : shark K) : K := (screenCenterX - s.x) ^ 2 + (surfaceBaseHeight - s.y) ^ 2

/-- Lines 323-327: the attack trigger. -/
def sharkTrigger (s : shark K) : shark K :=
  if sharkD2 s < 150 ^ 2 then
    if (s.vx > 0 ∧ s.x < screenCenterX) ∨ (s.vx < 0 ∧ s.x > screenCenterX) then
      { s with attacking := true }
    else s
  else s

/-- Lines 328-336: the reset to cruising; `d2` is the value computed on line 322,
before the trigger block (which does not move the shark). -/
def sharkReset (d2 : K) (s : shark K) : shark K :=
  if d2 < s.r ^ 2 then
    let s1 : shark K := { s with attacking := false, vy := 0 }
    if s1.vx > 0 then { s1 with vx := sharkSpeed } else { s1 with vx := -sharkSpeed }
  else s

/-- Lines 338-342: the velocity of an attacking shark. -/
def sharkAim (m : MathOps K) (s : shark K) : shark K :=
  if s.attacking then
    let t := m.atan2 (surfaceBaseHeight - s.y) (screenCenterX - s.x)
    { s with vx := sharkSpeed * (5 / 2) * m.cos t, vy := sharkSpeed * (5 / 2) * m.sin t }
  else s

/-- Lines 344-345: the move itself. -/
def sharkAdvance (s : shark K) : shark K := { s with x := s.x + s.vx, y := s.y + s.vy }

/-- Lines 320-345: the body of the `Shark move` loop for one shark. -/
def sharkStep (m : MathOps K) (s : shark K) : shark K :=
  sharkAdvance (sharkAim m (sharkReset (sharkD2 s) (sharkTrigger s)))

/-- Lines 317-351: `Shark move`, the loop that fills `newSharks`. -/
def sharkMoveLoop (m : MathOps K) : List (shark K) → List (shark K) → List (shark K)
  | [], newSharks => newSharks
  | s :: rest, newSharks =>
    let s1 := sharkStep m s
    if s1.x > -100 ∧ s1.x < screenWidth + 100 then sharkMoveLoop m rest (newSharks ++ [s1])
    else sharkMoveLoop m rest newSharks

def sharkMove (m : MathOps K) (g : Game K) : Game K :=
  { g with sharks := sharkMoveLoop m g.sharks [] }

/-- Line 354: `g.humanHeight = g.calcSurfaceHeight(screenCenterX)`. -/
def humanStep (m : MathOps K) (g : Game K) : Game K :=
  { g with humanHeight := calcSurfaceHeight m g.waves screenCenterX }

/-- Lines 359-366: the `i`-th splash particle. -/
def newSplash (m : MathOps K) (inp : TickInput K) (prevHumanHeight : K) (i : Nat) :
    splashEffect K :=
  let t := (m.pi / 4 + m.pi / 2 * inp.splashRandFloat i) * (-1)
  let v := 4 * m.log prevHumanHeight
  { x := screenCenterX, y := surfaceBaseHeight, vx := v * m.cos t, vy := v * m.sin t, ticks := 0 }

/-- Lines 356-368: `Splash effect enter`. -/
def splashEnter (m : MathOps K) (inp : TickInput K) (prevHumanHeight : K) (g : Game K) :
    Game K :=
  if g.humanHeight = 0 ∧ prevHumanHeight > 0 then
    { g with splashEffects :=
        g.splashEffects ++ (List.range 10).map (newSplash m inp prevHumanHeight) }
  else g

/-- Lines 370-379: `Coin effect move`. -/
def coinEffectMoveLoop : List (coinEffect K) → List (coinEffect K) → List (coinEffect K)
  | [], acc => acc
  | e :: rest, acc =>
    let e1 : coinEffect K := { e with ticks := (e.ticks + 1) % 2 ^ 64 }
    if e1.ticks < 60 then coinEffectMoveLoop rest (acc ++ [e1])
    else coinEffectMoveLoop rest acc

def coinEffectMove (g : Game K) : Game K :=
  { g with coinEffects := coinEffectMoveLoop g.coinEffects [] }

/-- Lines 381-393: `Splash effect move`. -/
def splashMoveLoop : List (splashEffect K) → List (splashEffect K) → List (splashEffect K)
  | [], acc => acc
  | e :: rest, acc =>
    let e1 : splashEffect K := { e with ticks := (e.ticks + 1) % 2 ^ 64 }
    let e2 : splashEffect K := { e1 with vy := e1.vy + 1 / 10 }
    let e3 : splashEffect K := { e2 with x := e2.x + e2.vx }
    let e4 : splashEffect K := { e3 with y := e3.y + e3.vy }
    if e4.y < surfaceBaseHeight then splashMoveLoop rest (acc ++ [e4])
    else splashMoveLoop rest acc

def splashMove (g : Game K) : Game K :=
  { g with splashEffects := splashMoveLoop g.splashEffects [] }

/-- Line 399: the test of the coin collision. -/
def coinHit (humanHeight : K) (c : coin K) : Prop :=
  (c.x - screenCenterX) ^ 2 + (c.y - (surfaceBaseHeight - humanHeight)) ^ 2 < (c.r + humanR) ^ 2

instance (humanHeight : K) (c : coin K) : Decidable (coinHit humanHeight c) := by
  unfold coinHit; infer_instance

/-- Lines 400-409: the points of one collected coin. -/
def coinPlus (humanHeight : K) : Int :=
  if humanHeight > 300 then 4
  else if humanHeight > 250 then 3
  else if humanHeight > 200 then 2
  else 1

/-- The Go `int` (64 bits, two's complement) that results from an operation
whose exact value is `x`: arithmetic on `int` wraps around. -/
def wrapInt64 (x : Int) : Int := (x + 2 ^ 63) % 2 ^ 64 - 2 ^ 63

/-- Lines 397-423: the loop of `Coins and human collision`; `newCoins` is the
list of the coins kept so far, and the session carries score and effects. -/
def coinCollisionLoop : List (coin K) → List (coin K) → Game K → Game K
  | [], newCoins, g => { g with coins := newCoins }
  | c :: rest, newCoins, g =>
    if coinHit g.humanHeight c then
      let plus := coinPlus g.humanHeight
      let g1 : Game K := { g with score := wrapInt64 (g.score + plus) }
      let g2 : Game K :=
        { g1 with coinEffects := g1.coinEffects ++ [{ x := c.x, y := c.y, plus := plus, ticks := 0 }] }
      coinCollisionLoop rest newCoins g2
    else coinCollisionLoop rest (newCoins ++ [c]) g

/-- Lines 395-424: `Coins and human collision`. -/
def coinCollision (g : Game K) : Game K := coinCollisionLoop g.coins [] g

/-- Line 429: the test of the shark collision. -/
def sharkHit (humanHeight : K) (s : shark K) : Prop :=
  (s.x - screenCenterX) ^ 2 + (s.y - (surfaceBaseHeight - humanHeight)) ^ 2 < (s.r + humanR) ^ 2

instance (humanHeight : K) (s : shark K) : Decidable (sharkHit humanHeight s) := by
  unfold sharkHit; infer_instance

/-- Lines 427-442: the loop of `Sharks and human collision`. -/
def sharkCollisionLoop : List (shark K) → Game K → Game K
  | [], g => g
  | s :: rest, g =>
    if sharkHit g.humanHeight s then
      sharkCollisionLoop rest
        { g with mode := gameMode.gameModeGameOver, ticksFromModeStart := 0 }
    else sharkCollisionLoop rest g

/-- Lines 426-442: `Sharks and human collision`. -/
def sharkCollision (g : Game K) : Game K := sharkCollisionLoop g.sharks g

/-- Lines 243-351: the spawn timers and the three move loops, run on the state
that the charge block leaves. -/
def spawnAndMove (m : MathOps K) (inp : TickInput K) (g : Game K) : Game K :=
  sharkMove m (coinMove (waveMove (sharkEnter inp (coinEnter inp (waveEnter g)))))

/-- Lines 353-393: the new player height, the splash trigger and the two effect
loops, run on the state after the move loops. -/
def heightAndEffects (m : MathOps K) (inp : TickInput K) (g : Game K) : Game K :=
  splashMove (coinEffectMove (splashEnter m inp g.humanHeight (humanStep m g)))

/-- The state on which the two collision passes of a Playing tick run. -/
def beforeCollisions (m : MathOps K) (inp : TickInput K) (g : Game K) : Game K :=
  heightAndEffects m inp (spawnAndMove m inp (chargeStep inp g))

/-- The `gameModePlaying` case of `Update` (lines 203-442), on a state whose
tick counter has already been incremented. -/
def playingTick (m : MathOps K) (inp : TickInput K) (g : Game K) : Game K :=
  sharkCollision (coinCollision (beforeCollisions m inp g))

/-- Line 183: `g.ticksFromModeStart++` on a `uint64`. -/
def tickInc (g : Game K) : Game K :=
  { g with ticksFromModeStart := (g.ticksFromModeStart + 1) % 2 ^ 64 }

/-- The `gameModeTitle` case of `Update` (lines 186-202). -/
def titleTick (inp : TickInput K) (g : Game K) : Game K :=
  if inp.justTouched then
    { g with mode := gameMode.gameModePlaying, ticksFromModeStart := 0, waves := [],
             humanHeight := 0 }
  else g

/-- The `gameModeGameOver` case of `Update` (lines 443-447). -/
def gameOverTick (m : MathOps K) (inp : TickInput K) (g : Game K) : Game K :=
  if g.ticksFromModeStart > 15 ∧ inp.justTouched = true then initGame m g else g

/-- The method `Game.Update`. -/
def Update (m : MathOps K) (inp : TickInput K) (g : Game K) : Game K :=
  let g1 := tickInc g
  match g1.mode with
  | gameMode.gameModeTitle => titleTick inp g1
  | gameMode.gameModePlaying => playingTick m inp g1
  | gameMode.gameModeGameOver => gameOverTick m inp g1

/-- The session after a sequence of `Update` calls, one input per call. -/
def run (m : MathOps K) : List (TickInput K) → Game K → Game K
  | [], g => g
  | inp :: rest, g => run m rest (Update m inp g)

/-- The states that a running program can be in: `main` initialises the zero
`Game`, then the engine calls `Update` once per tick. -/
inductive Reachable (m : MathOps K) : Game K → Prop
  | init : Reachable m (initGame m newGame)
  | step (inp : TickInput K) (g : Game K) : Reachable m g → Reachable m (Update m inp g)

/-! ## Sample inputs and sessions -/

/-- A tick with no touch event; every random draw is 0. -/
def quietInput : TickInput K :=
  { justTouched := false, justReleased := false, coinRandInt := 0, coinRandFloat := 0,
    sharkRandInt := 0, splashRandFloat := fun _ => 0 }

/-- A tick on which the touch begins. -/
def pressInput : TickInput K := { (quietInput : TickInput K) with justTouched := true }

/-- A tick on which the touch ends. -/
def releaseInput : TickInput K := { (quietInput : TickInput K) with justReleased := true }

/-- The mode is Playing before every tick of the input sequence and after the
last one. -/
def playingThroughout (m : MathOps K) : List (TickInput K) → Game K → Prop
  | [], g => g.mode = gameMode.gameModePlaying
  | inp :: rest, g =>
    g.mode = gameMode.gameModePlaying ∧ playingThroughout m rest (Update m inp g)

/-- A Playing session with nothing on screen. -/
def emptyGame : Game K :=
  { (newGame : Game K) with mode := gameMode.gameModePlaying }

/-- A Playing session with score 5, no waves and no sharks, and two coins: one
that reaches the player position `(320, 320)` on the next tick, one far away. -/
def coinGame : Game K :=
  { (emptyGame : Game K) with
    score := 5
    coins := [{ x := 319, y := 320, vx := 1, r := 15 }, { x := 100, y := 100, vx := 1, r := 15 }] }

/-- A Playing session without waves and coins whose only shark, cruising to
the right just left of the screen centre on the baseline, reaches the player
position `(320, 320)` on the next tick. -/
def biteGame : Game K :=
  { (emptyGame : Game K) with
    sharks := [{ x := 639 / 2, y := 320, vx := 1 / 2, vy := 0, r := 10, attacking := false }] }

/-- The draws of `rand.Float64` lie in `[0, 1)`. -/
def validDraws (inp : TickInput K) : Prop :=
  (0 ≤ inp.coinRandFloat ∧ inp.coinRandFloat < 1) ∧
  ∀ i : Nat, 0 ≤ inp.splashRandFloat i ∧ inp.splashRandFloat i < 1

/-- The states that a running program can be in when the random source
behaves as documented (`validDraws` on every tick). -/
inductive ReachableValid (m : MathOps K) : Game K → Prop
  | init : ReachableValid m (initGame m newGame)
  | step (inp : TickInput K) (g : Game K) :
      validDraws inp → ReachableValid m g → ReachableValid m (Update m inp g)

/-- A Playing session whose only pulse, a player pulse of height 80, reaches
`x = screenWidth + length = 840` on the next tick. -/
def edgeWaveGame : Game K :=
  { (emptyGame : Game K) with
    waves := [{ x := 838, vx := 2, height := 80, length := 200 }] }

/-- A Playing session with nothing on screen, one tick before the 180-tick
timers fire. -/
def timerGame : Game K :=
  { (emptyGame : Game K) with ticksFromModeStart := 179 }

/-- The session right after the touch that leaves the title screen. -/
def startGame (m : MathOps K) : Game K := Update m pressInput (initGame m newGame)

/-! ## Invariants of the run in which a charge is held until a shark bites -/

/-- Every pulse is an ambient pulse, spawned on a multiple of 180 and advanced
on every tick up to tick `n`. -/
def ambientInv (n : Nat) (ws : List (wave K)) : Prop :=
  ∀ w ∈ ws, w.vx = -2 ∧ w.length = 150 ∧ w.height = 50 ∧
    ∃ k : Int, w.x = 713 + 360 * (k : K) - 2 * (n : K)

/-- The shark is on the segment from `(208.5, 420)`, where the attack starts,
to the baseline point `(320, 320)`, at the fraction `mu` of its length from
the end, swimming right. -/
def onAttackLine (mu : K) (s : shark K) : Prop :=
  s.r = 10 ∧ 0 < s.vx ∧ 320 - s.x = mu * (223 / 2) ∧ 320 - s.y = mu * (-100)

/-- The shark spawned on tick 1260 from the left, after tick `n`: cruising up
to tick 1776, then on the attack line, `1.25` nearer on every tick (`d` is the
length of the line). -/
def huntInv (d : K) (n : Nat) (ss : List (shark K)) : Prop :=
  (1260 ≤ n → n ≤ 1776 →
    ({ x := -50 + ((n : K) - 1259) / 2, y := 420, vx := 1 / 2, vy := 0, r := 10,
       attacking := false } : shark K) ∈ ss) ∧
  (1777 ≤ n → n ≤ 1880 →
    ∃ s ∈ ss, onAttackLine (1 - 5 / 4 * ((n : K) - 1776) / d) s)

/-- The session after `n` Playing ticks with the touch held since tick 1: the
game is over with a positive charge, or it goes on with the charge held. -/
def holdInv (d : K) (n : Nat) (g : Game K) : Prop :=
  (g.mode = gameMode.gameModeGameOver ∧ 0 < g.nextWaveHeight) ∨
  (g.mode = gameMode.gameModePlaying ∧ g.ticksFromModeStart = n ∧ g.hold = true ∧
    0 ≤ g.nextWaveHeight ∧ (2 ≤ n → 0 < g.nextWaveHeight) ∧
    ambientInv n g.waves ∧ huntInv d n g.sharks)

/-- The session after `n` ticks of play from start-up, the input of tick `k`
being `script k`. -/
def runScript (m : MathOps K) (script : Nat → TickInput K) : Nat → Game K
  | 0 => startGame m
  | n + 1 => Update m (script (n + 1)) (runScript m script n)

/-- The inputs of a player who taps once, with a press on tick 936 and the
release on tick 937, and never touches otherwise; the random draws are those
of `quietInput`. -/
def lureScript (n : Nat) : TickInput K :=
  if n = 936 then pressInput else if n = 937 then releaseInput else quietInput

/-- The shark that enters from the left on tick 630, after tick `n` of its
cruise at depth 420. -/
def cruiseShark (n : Nat) : shark K :=
  { x := -50 + ((n : K) - 629) / 2, y := 420, vx := 1 / 2, vy := 0, r := 10, attacking := false }

/-- The pulse released on tick 937 with the charge of one tick, after tick
`n`. -/
def lurePulse (n : Nat) : wave K :=
  { x := -98 + 2 * ((n : K) - 937), vx := 2, height := f64 (heldCharge 1), length := 200 }

/-- The state of the `lureScript` session after tick `n`, up to the tick before
the shark of tick 630 starts its attack. -/
def lureInv (m : MathOps K) (n : Nat) (g : Game K) : Prop :=
  Reachable m g ∧ g.mode = gameMode.gameModePlaying ∧ g.ticksFromModeStart = n ∧
  (n < 630 → g.sharks = []) ∧ (630 ≤ n → g.sharks = [cruiseShark n]) ∧
  (n = 936 → g.hold = true ∧ g.nextWaveHeight = 0) ∧
  (937 ≤ n → lurePulse n ∈ g.waves)

/-- A tick with no touch event on which the coin timer draws `3 / 32` for the
height of the coin. -/
def coinInput : TickInput K := { (quietInput : TickInput K) with coinRandFloat := 3 / 32 }

/-- The inputs of a player who presses on tick 1 and releases on tick 316; the
coin of tick 180 enters from the left at `y = 120 * (3 / 32) + 50 = 61.25`. -/
def surfScript (n : Nat) : TickInput K :=
  if n = 1 then pressInput
  else if n = 180 then coinInput
  else if n = 316 then releaseInput
  else quietInput

/-- The pulses of the `surfScript` session after tick `n`, up to tick 525: the
ambient pulse of tick 180, the pulse released on tick 316 with the charge of
315 ticks, and the ambient pulse of tick 360. -/
def surfWaves (n : Nat) : List (wave K) :=
  (if 180 ≤ n then [(⟨713 - 2 * ((n : K) - 180), -2, 50, 150⟩ : wave K)] else []) ++
  ((if 316 ≤ n then [(⟨-98 + 2 * ((n : K) - 316), 2, f64 (heldCharge 315), 200⟩ : wave K)]
    else []) ++
   (if 360 ≤ n then [(⟨713 - 2 * ((n : K) - 360), -2, 50, 150⟩ : wave K)] else []))

/-- The coin of tick 180 of the `surfScript` session, after tick `n`. -/
def surfCoin (n : Nat) : coin K := ⟨-50 + ((n : K) - 179), 245 / 4, 1, 15⟩

/-- The state of the `surfScript` session after tick `n`. -/
def surfInv (m : MathOps K) (n : Nat) (g : Game K) : Prop :=
  ReachableValid m g ∧ g.mode = gameMode.gameModePlaying ∧ g.ticksFromModeStart = n ∧
  g.sharks = [] ∧ g.waves = surfWaves n ∧
  (1 ≤ n → n ≤ 315 → g.hold = true ∧ g.nextWaveHeight = heldCharge (n - 1)) ∧
  (180 ≤ n → surfCoin n ∈ g.coins)

end Defs

section WaveField

variable {K : Type} [LinearOrderedField K]

/-! ## Wave field: superposition -/

theorem waveContribution_acc (m : MathOps K) (x h : K) (w : wave K) :
    waveContribution m x h w = h + waveContribution m x 0 w := by
  unfold waveContribution
  split_ifs <;> simp

theorem foldl_waveContribution (m : MathOps K) (x : K) (ws : List (wave K)) (h : K) :
    ws.foldl (waveContribution m x) h = h + calcSurfaceHeight m ws x := by
  unfold calcSurfaceHeight
  induction ws generalizing h with
  | nil => simp
  | cons w ws ih =>
    simp only [List.foldl_cons]
    rw [ih (waveContribution m x h w), ih (waveContribution m x 0 w),
      waveContribution_acc m x h w]
    ring

theorem calcSurfaceHeight_nil (m : MathOps K) (x : K) :
    calcSurfaceHeight m ([] : List (wave K)) x = 0 := rfl

theorem calcSurfaceHeight_cons (m : MathOps K) (w : wave K) (ws : List (wave K)) (x : K) :
    calcSurfaceHeight m (w :: ws) x
      = waveContribution m x 0 w + calcSurfaceHeight m ws x := by
  show (w :: ws).foldl (waveContribution m x) 0 = _
  rw [List.foldl_cons, foldl_waveContribution]

theorem calcSurfaceHeight_app (m : MathOps K) (A B : List (wave K)) (x : K) :
    calcSurfaceHeight m (A ++ B) x
      = calcSurfaceHeight m A x + calcSurfaceHeight m B x := by
  show (A ++ B).foldl (waveContribution m x) 0 = _
  rw [List.foldl_append, foldl_waveContribution]
  rfl

/-- At the centre of a pulse of positive length the loop adds
`height * sin (pi / 2)`. -/
theorem waveContribution_centre (m : MathOps K) (w : wave K) (hw : 0 < w.length) :
    waveContribution m w.x 0 w = w.height * m.sin (m.pi / 2) := by
  have hne : w.length ≠ 0 := ne_of_gt hw
  have harg : m.pi * (w.x - (w.x - w.length / 2)) / w.length = m.pi / 2 := by
    field_simp
    ring
  unfold waveContribution
  rw [if_pos (by simpa using half_pos hw), harg]
  simp

/-- A pulse whose window does not cover `x` leaves the sum unchanged. -/
theorem waveContribution_outside (m : MathOps K) (x h : K) (w : wave K)
    (hx : w.length / 2 ≤ |x - w.x|) : waveContribution m x h w = h := by
  unfold waveContribution
  rw [if_neg (not_lt.mpr hx)]

/-- C1. Superposition is additive: the surface height over `A ++ B` is the sum
of the heights over `A` and over `B`, at every `x` and for all pulse lists; and
when `sin (pi / 2) = 1`, two pulses of positive width centred at the same `p`
with amplitudes 60 and 90 give height 150 at `p`. -/
theorem calcSurfaceHeight_superposition (m : MathOps K) :
    (∀ (A B : List (wave K)) (x : K),
        calcSurfaceHeight m (A ++ B) x
          = calcSurfaceHeight m A x + calcSurfaceHeight m B x) ∧
    (m.sin (m.pi / 2) = 1 → ∀ (p v1 v2 l1 l2 : K), 0 < l1 → 0 < l2 →
        calcSurfaceHeight m
          [{ x := p, vx := v1, height := 60, length := l1 },
           { x := p, vx := v2, height := 90, length := l2 }] p = 150) := by
  refine ⟨calcSurfaceHeight_app m, ?_⟩
  intro hsin p v1 v2 l1 l2 h1 h2
  rw [calcSurfaceHeight_cons, calcSurfaceHeight_cons, calcSurfaceHeight_nil]
  have e1 := waveContribution_centre m { x := p, vx := v1, height := 60, length := l1 } h1
  have e2 := waveContribution_centre m { x := p, vx := v2, height := 90, length := l2 } h2
  simp only at e1 e2
  rw [e1, e2, hsin]
  norm_num

/-- C1, at the real functions: two pulses at `x = 320` of lengths 100 and 200,
amplitudes 60 and 90. -/
theorem calcSurfaceHeight_superposition_witness :
    realMath.sin (realMath.pi / 2) = 1 ∧ (0 : ℝ) < 100 ∧ (0 : ℝ) < 200 ∧
    calcSurfaceHeight realMath
      [{ x := 320, vx := 2, height := 60, length := 100 },
       { x := 320, vx := -2, height := 90, length := 200 }] 320 = 150 :=
  ⟨Real.sin_pi_div_two, by norm_num, by norm_num,
    (calcSurfaceHeight_superposition realMath).2 Real.sin_pi_div_two 320 2 (-2) 100 200
      (by norm_num) (by norm_num)⟩

/-- C2. For a single pulse of positive width, the surface height at the pulse
position is the amplitude (given `sin (pi / 2) = 1`), and the height at both
window edges `position - width / 2` and `position + width / 2` is 0. -/
theorem calcSurfaceHeight_single (m : MathOps K) (hsin : m.sin (m.pi / 2) = 1)
    (w : wave K) (hw : 0 < w.length) :
    calcSurfaceHeight m [w] w.x = w.height ∧
    calcSurfaceHeight m [w] (w.x - w.length / 2) = 0 ∧
    calcSurfaceHeight m [w] (w.x + w.length / 2) = 0 := by
  have hh : (0 : K) ≤ w.length / 2 := le_of_lt (half_pos hw)
  refine ⟨?_, ?_, ?_⟩
  · rw [calcSurfaceHeight_cons, calcSurfaceHeight_nil, waveContribution_centre m w hw, hsin]
    simp
  · rw [calcSurfaceHeight_cons, calcSurfaceHeight_nil, waveContribution_outside]
    · simp
    · have e : w.x - w.length / 2 - w.x = -(w.length / 2) := by ring
      rw [e, abs_neg, abs_of_nonneg hh]
  · rw [calcSurfaceHeight_cons, calcSurfaceHeight_nil, waveContribution_outside]
    · simp
    · have e : w.x + w.length / 2 - w.x = w.length / 2 := by ring
      rw [e, abs_of_nonneg hh]

/-- C2, at the real functions, for the ambient pulse of the game. -/
theorem calcSurfaceHeight_single_witness :
    realMath.sin (realMath.pi / 2) = 1 ∧ (0 : ℝ) < 150 ∧
    calcSurfaceHeight realMath [{ x := 715, vx := -2, height := 50, length := 150 }] 715 = 50 ∧
    calcSurfaceHeight realMath [{ x := 715, vx := -2, height := 50, length := 150 }]
      (715 - 150 / 2) = 0 ∧
    calcSurfaceHeight realMath [{ x := 715, vx := -2, height := 50, length := 150 }]
      (715 + 150 / 2) = 0 :=
  ⟨Real.sin_pi_div_two, by norm_num,
    calcSurfaceHeight_single realMath Real.sin_pi_div_two
      { x := 715, vx := -2, height := 50, length := 150 } (by norm_num)⟩

/-- C3. If `x` is outside the half-width window of every pulse of the list
(`|x - position| >= width / 2` for each of them; in particular if the list is
empty), the surface height at `x` is 0. -/
theorem calcSurfaceHeight_outside (m : MathOps K) (ws : List (wave K)) (x : K)
    (hx : ∀ w ∈ ws, w.length / 2 ≤ |x - w.x|) : calcSurfaceHeight m ws x = 0 := by
  induction ws with
  | nil => rfl
  | cons w ws ih =>
    rw [calcSurfaceHeight_cons, waveContribution_outside m x 0 w (hx w (List.mem_cons_self w ws)),
      ih (fun v hv => hx v (List.mem_cons_of_mem w hv))]
    simp

/-- C3, at the real functions: the three title pulses do not reach `x = 100`. -/
theorem calcSurfaceHeight_outside_witness :
    (∀ w ∈ (titleWaves : List (wave ℝ)), w.length / 2 ≤ |100 - w.x|) ∧
    calcSurfaceHeight realMath (titleWaves : List (wave ℝ)) 100 = 0 :=
  have h : ∀ w ∈ (titleWaves : List (wave ℝ)), w.length / 2 ≤ |100 - w.x| := by
    intro w hw
    simp only [titleWaves, List.mem_cons, List.mem_singleton, List.not_mem_nil, or_false] at hw
    rcases hw with rfl | rfl | rfl <;> norm_num [abs_le, le_abs]
  ⟨h, calcSurfaceHeight_outside realMath titleWaves 100 h⟩

end WaveField

section Collisions

variable {K : Type} [LinearOrderedField K]

theorem coinCollisionLoop_eq (cs acc : List (coin K)) (g : Game K) :
    coinCollisionLoop cs acc g =
      { g with
        coins := acc ++ cs.filter (fun c => decide (¬ coinHit g.humanHeight c))
        score := (fun s => wrapInt64 (s + coinPlus g.humanHeight))^[
          (cs.filter (fun c => decide (coinHit g.humanHeight c))).length] g.score
        coinEffects := g.coinEffects ++
          (cs.filter (fun c => decide (coinHit g.humanHeight c))).map
            (fun c => { x := c.x, y := c.y, plus := coinPlus g.humanHeight, ticks := 0 }) } := by
  induction cs generalizing acc g with
  | nil => simp [coinCollisionLoop]
  | cons c cs ih =>
    by_cases h : coinHit g.humanHeight c
    · simp only [coinCollisionLoop, if_pos h, ih]
      simp [h, List.filter_cons]
    · simp only [coinCollisionLoop, if_neg h, ih]
      simp [h, List.filter_cons]

theorem sharkCollisionLoop_eq (ss : List (shark K)) (g : Game K) :
    sharkCollisionLoop ss g =
      if ∃ s ∈ ss, sharkHit g.humanHeight s then
        { g with mode := gameMode.gameModeGameOver, ticksFromModeStart := 0 }
      else g := by
  induction ss generalizing g with
  | nil => simp [sharkCollisionLoop]
  | cons s ss ih =>
    by_cases h : sharkHit g.humanHeight s
    · simp only [sharkCollisionLoop, if_pos h, ih]
      have : ∃ t ∈ s :: ss, sharkHit g.humanHeight t := ⟨s, List.mem_cons_self s ss, h⟩
      rw [if_pos this]
      split_ifs <;> rfl
    · simp only [sharkCollisionLoop, if_neg h, ih]
      simp [h]

@[simp]
theorem tickInc_frame (g : Game K) :
    (tickInc g).mode = g.mode ∧
    (tickInc g).hold = g.hold ∧
    (tickInc g).score = g.score ∧
    (tickInc g).waves = g.waves ∧
    (tickInc g).coins = g.coins ∧
    (tickInc g).sharks = g.sharks ∧
    (tickInc g).coinEffects = g.coinEffects ∧
    (tickInc g).splashEffects = g.splashEffects ∧
    (tickInc g).nextWaveHeight = g.nextWaveHeight ∧
    (tickInc g).humanHeight = g.humanHeight := by
  unfold tickInc; simp

@[simp]
theorem chargeHold_frame (g : Game K) :
    (chargeHold g).mode = g.mode ∧
    (chargeHold g).hold = g.hold ∧
    (chargeHold g).ticksFromModeStart = g.ticksFromModeStart ∧
    (chargeHold g).score = g.score ∧
    (chargeHold g).waves = g.waves ∧
    (chargeHold g).coins = g.coins ∧
    (chargeHold g).sharks = g.sharks ∧
    (chargeHold g).coinEffects = g.coinEffects ∧
    (chargeHold g).splashEffects = g.splashEffects ∧
    (chargeHold g).humanHeight = g.humanHeight := by
  unfold chargeHold; split_ifs <;> simp

@[simp]
theorem chargeTouch_frame (inp : TickInput K) (g : Game K) :
    (chargeTouch inp g).mode = g.mode ∧
    (chargeTouch inp g).ticksFromModeStart = g.ticksFromModeStart ∧
    (chargeTouch inp g).score = g.score ∧
    (chargeTouch inp g).waves = g.waves ∧
    (chargeTouch inp g).coins = g.coins ∧
    (chargeTouch inp g).sharks = g.sharks ∧
    (chargeTouch inp g).coinEffects = g.coinEffects ∧
    (chargeTouch inp g).splashEffects = g.splashEffects ∧
    (chargeTouch inp g).humanHeight = g.humanHeight := by
  unfold chargeTouch; split_ifs <;> simp

@[simp]
theorem chargeRelease_frame (inp : TickInput K) (g : Game K) :
    (chargeRelease inp g).mode = g.mode ∧
    (chargeRelease inp g).ticksFromModeStart = g.ticksFromModeStart ∧
    (chargeRelease inp g).score = g.score ∧
    (chargeRelease inp g).coins = g.coins ∧
    (chargeRelease inp g).sharks = g.sharks ∧
    (chargeRelease inp g).coinEffects = g.coinEffects ∧
    (chargeRelease inp g).splashEffects = g.splashEffects ∧
    (chargeRelease inp g).humanHeight = g.humanHeight := by
  unfold chargeRelease; dsimp only; split_ifs <;> simp

@[simp]
theorem waveEnter_frame (g : Game K) :
    (waveEnter g).mode = g.mode ∧
    (waveEnter g).hold = g.hold ∧
    (waveEnter g).ticksFromModeStart = g.ticksFromModeStart ∧
    (waveEnter g).score = g.score ∧
    (waveEnter g).coins = g.coins ∧
    (waveEnter g).sharks = g.sharks ∧
    (waveEnter g).coinEffects = g.coinEffects ∧
    (waveEnter g).splashEffects = g.splashEffects ∧
    (waveEnter g).nextWaveHeight = g.nextWaveHeight ∧
    (waveEnter g).humanHeight = g.humanHeight := by
  unfold waveEnter; split_ifs <;> simp

@[simp]
theorem coinEnter_frame (inp : TickInput K) (g : Game K) :
    (coinEnter inp g).mode = g.mode ∧
    (coinEnter inp g).hold = g.hold ∧
    (coinEnter inp g).ticksFromModeStart = g.ticksFromModeStart ∧
    (coinEnter inp g).score = g.score ∧
    (coinEnter inp g).waves = g.waves ∧
    (coinEnter inp g).sharks = g.sharks ∧
    (coinEnter inp g).coinEffects = g.coinEffects ∧
    (coinEnter inp g).splashEffects = g.splashEffects ∧
    (coinEnter inp g).nextWaveHeight = g.nextWaveHeight ∧
    (coinEnter inp g).humanHeight = g.humanHeight := by
  unfold coinEnter; dsimp only; split_ifs <;> simp

@[simp]
theorem sharkEnter_frame (inp : TickInput K) (g : Game K) :
    (sharkEnter inp g).mode = g.mode ∧
    (sharkEnter inp g).hold = g.hold ∧
    (sharkEnter inp g).ticksFromModeStart = g.ticksFromModeStart ∧
    (sharkEnter inp g).score = g.score ∧
    (sharkEnter inp g).waves = g.waves ∧
    (sharkEnter inp g).coins = g.coins ∧
    (sharkEnter inp g).coinEffects = g.coinEffects ∧
    (sharkEnter inp g).splashEffects = g.splashEffects ∧
    (sharkEnter inp g).nextWaveHeight = g.nextWaveHeight ∧
    (sharkEnter inp g).humanHeight = g.humanHeight := by
  unfold sharkEnter; dsimp only; split_ifs <;> simp

@[simp]
theorem waveMove_frame (g : Game K) :
    (waveMove g).mode = g.mode ∧
    (waveMove g).hold = g.hold ∧
    (waveMove g).ticksFromModeStart = g.ticksFromModeStart ∧
    (waveMove g).score = g.score ∧
    (waveMove g).coins = g.coins ∧
    (waveMove g).sharks = g.sharks ∧
    (waveMove g).coinEffects = g.coinEffects ∧
    (waveMove g).splashEffects = g.splashEffects ∧
    (waveMove g).nextWaveHeight = g.nextWaveHeight ∧
    (waveMove g).humanHeight = g.humanHeight := by
  unfold waveMove; simp

@[simp]
theorem coinMove_frame (g : Game K) :
    (coinMove g).mode = g.mode ∧
    (coinMove g).hold = g.hold ∧
    (coinMove g).ticksFromModeStart = g.ticksFromModeStart ∧
    (coinMove g).score = g.score ∧
    (coinMove g).waves = g.waves ∧
    (coinMove g).sharks = g.sharks ∧
    (coinMove g).coinEffects = g.coinEffects ∧
    (coinMove g).splashEffects = g.splashEffects ∧
    (coinMove g).nextWaveHeight = g.nextWaveHeight ∧
    (coinMove g).humanHeight = g.humanHeight := by
  unfold coinMove; simp

@[simp]
theorem sharkMove_frame (m : MathOps K) (g : Game K) :
    (sharkMove m g).mode = g.mode ∧
    (sharkMove m g).hold = g.hold ∧
    (sharkMove m g).ticksFromModeStart = g.ticksFromModeStart ∧
    (sharkMove m g).score = g.score ∧
    (sharkMove m g).waves = g.waves ∧
    (sharkMove m g).coins = g.coins ∧
    (sharkMove m g).coinEffects = g.coinEffects ∧
    (sharkMove m g).splashEffects = g.splashEffects ∧
    (sharkMove m g).nextWaveHeight = g.nextWaveHeight ∧
    (sharkMove m g).humanHeight = g.humanHeight := by
  unfold sharkMove; simp

@[simp]
theorem humanStep_frame (m : MathOps K) (g : Game K) :
    (humanStep m g).mode = g.mode ∧
    (humanStep m g).hold = g.hold ∧
    (humanStep m g).ticksFromModeStart = g.ticksFromModeStart ∧
    (humanStep m g).score = g.score ∧
    (humanStep m g).waves = g.waves ∧
    (humanStep m g).coins = g.coins ∧
    (humanStep m g).sharks = g.sharks ∧
    (humanStep m g).coinEffects = g.coinEffects ∧
    (humanStep m g).splashEffects = g.splashEffects ∧
    (humanStep m g).nextWaveHeight = g.nextWaveHeight := by
  unfold humanStep; simp

@[simp]
theorem splashEnter_frame (m : MathOps K) (inp : TickInput K) (p : K) (g : Game K) :
    (splashEnter m inp p g).mode = g.mode ∧
    (splashEnter m inp p g).hold = g.hold ∧
    (splashEnter m inp p g).ticksFromModeStart = g.ticksFromModeStart ∧
    (splashEnter m inp p g).score = g.score ∧
    (splashEnter m inp p g).waves = g.waves ∧
    (splashEnter m inp p g).coins = g.coins ∧
    (splashEnter m inp p g).sharks = g.sharks ∧
    (splashEnter m inp p g).coinEffects = g.coinEffects ∧
    (splashEnter m inp p g).nextWaveHeight = g.nextWaveHeight ∧
    (splashEnter m inp p g).humanHeight = g.humanHeight := by
  unfold splashEnter; split_ifs <;> simp

@[simp]
theorem coinEffectMove_frame (g : Game K) :
    (coinEffectMove g).mode = g.mode ∧
    (coinEffectMove g).hold = g.hold ∧
    (coinEffectMove g).ticksFromModeStart = g.ticksFromModeStart ∧
    (coinEffectMove g).score = g.score ∧
    (coinEffectMove g).waves = g.waves ∧
    (coinEffectMove g).coins = g.coins ∧
    (coinEffectMove g).sharks = g.sharks ∧
    (coinEffectMove g).splashEffects = g.splashEffects ∧
    (coinEffectMove g).nextWaveHeight = g.nextWaveHeight ∧
    (coinEffectMove g).humanHeight = g.humanHeight := by
  unfold coinEffectMove; simp

@[simp]
theorem splashMove_frame (g : Game K) :
    (splashMove g).mode = g.mode ∧
    (splashMove g).hold = g.hold ∧
    (splashMove g).ticksFromModeStart = g.ticksFromModeStart ∧
    (splashMove g).score = g.score ∧
    (splashMove g).waves = g.waves ∧
    (splashMove g).coins = g.coins ∧
    (splashMove g).sharks = g.sharks ∧
    (splashMove g).coinEffects = g.coinEffects ∧
    (splashMove g).nextWaveHeight = g.nextWaveHeight ∧
    (splashMove g).humanHeight = g.humanHeight := by
  unfold splashMove; simp

@[simp]
theorem coinCollision_frame (g : Game K) :
    (coinCollision g).mode = g.mode ∧
    (coinCollision g).hold = g.hold ∧
    (coinCollision g).ticksFromModeStart = g.ticksFromModeStart ∧
    (coinCollision g).waves = g.waves ∧
    (coinCollision g).sharks = g.sharks ∧
    (coinCollision g).splashEffects = g.splashEffects ∧
    (coinCollision g).nextWaveHeight = g.nextWaveHeight ∧
    (coinCollision g).humanHeight = g.humanHeight := by
  rw [coinCollision, coinCollisionLoop_eq]; simp

@[simp]
theorem sharkCollision_frame (g : Game K) :
    (sharkCollision g).hold = g.hold ∧
    (sharkCollision g).score = g.score ∧
    (sharkCollision g).waves = g.waves ∧
    (sharkCollision g).coins = g.coins ∧
    (sharkCollision g).sharks = g.sharks ∧
    (sharkCollision g).coinEffects = g.coinEffects ∧
    (sharkCollision g).splashEffects = g.splashEffects ∧
    (sharkCollision g).nextWaveHeight = g.nextWaveHeight ∧
    (sharkCollision g).humanHeight = g.humanHeight := by
  rw [sharkCollision, sharkCollisionLoop_eq]; split_ifs <;> simp

theorem Update_playing (m : MathOps K) (inp : TickInput K) (g : Game K)
    (hg : g.mode = gameMode.gameModePlaying) :
    Update m inp g = playingTick m inp (tickInc g) := by
  have h : (tickInc g).mode = gameMode.gameModePlaying := by simp [hg]
  simp only [Update, h]

@[simp]
theorem chargeStep_frame (inp : TickInput K) (g : Game K) :
    (chargeStep inp g).mode = g.mode ∧
    (chargeStep inp g).ticksFromModeStart = g.ticksFromModeStart ∧
    (chargeStep inp g).score = g.score ∧
    (chargeStep inp g).coins = g.coins ∧
    (chargeStep inp g).sharks = g.sharks ∧
    (chargeStep inp g).coinEffects = g.coinEffects ∧
    (chargeStep inp g).splashEffects = g.splashEffects ∧
    (chargeStep inp g).humanHeight = g.humanHeight := by
  simp [chargeStep]

@[simp]
theorem spawnAndMove_frame (m : MathOps K) (inp : TickInput K) (g : Game K) :
    (spawnAndMove m inp g).mode = g.mode ∧
    (spawnAndMove m inp g).hold = g.hold ∧
    (spawnAndMove m inp g).ticksFromModeStart = g.ticksFromModeStart ∧
    (spawnAndMove m inp g).score = g.score ∧
    (spawnAndMove m inp g).coinEffects = g.coinEffects ∧
    (spawnAndMove m inp g).splashEffects = g.splashEffects ∧
    (spawnAndMove m inp g).nextWaveHeight = g.nextWaveHeight ∧
    (spawnAndMove m inp g).humanHeight = g.humanHeight := by
  simp [spawnAndMove]

@[simp]
theorem heightAndEffects_frame (m : MathOps K) (inp : TickInput K) (g : Game K) :
    (heightAndEffects m inp g).mode = g.mode ∧
    (heightAndEffects m inp g).hold = g.hold ∧
    (heightAndEffects m inp g).ticksFromModeStart = g.ticksFromModeStart ∧
    (heightAndEffects m inp g).score = g.score ∧
    (heightAndEffects m inp g).waves = g.waves ∧
    (heightAndEffects m inp g).coins = g.coins ∧
    (heightAndEffects m inp g).sharks = g.sharks ∧
    (heightAndEffects m inp g).nextWaveHeight = g.nextWaveHeight := by
  simp [heightAndEffects]

@[simp]
theorem beforeCollisions_frame (m : MathOps K) (inp : TickInput K) (g : Game K) :
    (beforeCollisions m inp g).mode = g.mode ∧
    (beforeCollisions m inp g).ticksFromModeStart = g.ticksFromModeStart ∧
    (beforeCollisions m inp g).score = g.score ∧
    (beforeCollisions m inp g).hold = (chargeStep inp g).hold ∧
    (beforeCollisions m inp g).nextWaveHeight = (chargeStep inp g).nextWaveHeight ∧
    (beforeCollisions m inp g).sharks = (spawnAndMove m inp (chargeStep inp g)).sharks ∧
    (beforeCollisions m inp g).coins = (spawnAndMove m inp (chargeStep inp g)).coins ∧
    (beforeCollisions m inp g).waves = (spawnAndMove m inp (chargeStep inp g)).waves := by
  simp [beforeCollisions]

@[simp]
theorem playingTick_frame (m : MathOps K) (inp : TickInput K) (g : Game K) :
    (playingTick m inp g).hold = (chargeStep inp g).hold ∧
    (playingTick m inp g).nextWaveHeight = (chargeStep inp g).nextWaveHeight ∧
    (playingTick m inp g).humanHeight = (beforeCollisions m inp g).humanHeight ∧
    (playingTick m inp g).sharks = (spawnAndMove m inp (chargeStep inp g)).sharks ∧
    (playingTick m inp g).waves = (spawnAndMove m inp (chargeStep inp g)).waves ∧
    (playingTick m inp g).splashEffects = (beforeCollisions m inp g).splashEffects := by
  simp [playingTick]

theorem coinPlus_mono (h1 h2 : K) (h : h1 ≤ h2) : coinPlus h1 ≤ coinPlus h2 := by
  unfold coinPlus
  split_ifs <;> first | decide | (exfalso; linarith)

theorem filter_hit_length (h : K) (cs : List (coin K)) :
    cs.length = (cs.filter (fun c => decide (¬ coinHit h c))).length
      + (cs.filter (fun c => decide (coinHit h c))).length := by
  induction cs with
  | nil => rfl
  | cons c cs ih =>
    by_cases hc : coinHit h c <;> simp [List.filter_cons, hc, ih] <;> omega

theorem wrapInt64_eq (x : Int) (h0 : -2 ^ 63 ≤ x) (h1 : x < 2 ^ 63) : wrapInt64 x = x := by
  unfold wrapInt64
  omega

theorem coinPlus_pos (h : K) : 0 < coinPlus h := by
  unfold coinPlus
  split_ifs <;> decide

theorem iterate_wrapInt64 (p : Int) (hp : 0 ≤ p) (n : Nat) (s : Int) (h0 : -2 ^ 63 ≤ s)
    (h1 : s + p * (n : Int) < 2 ^ 63) :
    (fun t => wrapInt64 (t + p))^[n] s = s + p * (n : Int) := by
  induction n generalizing s with
  | zero => simp
  | succ n ih =>
    have hn : ((n + 1 : Nat) : Int) = (n : Int) + 1 := by push_cast; ring
    rw [hn] at h1
    have hpn : 0 ≤ p * (n : Int) := mul_nonneg hp (Int.ofNat_nonneg n)
    have hs : wrapInt64 (s + p) = s + p := by
      apply wrapInt64_eq
      · linarith
      · nlinarith
    rw [Function.iterate_succ_apply, hs, ih (s + p) (by linarith) (by nlinarith), hn]
    ring

/-- C4. Coin scoring in a Playing tick is threshold-based with strict
comparisons: the points of a coin are 4 above 300, 3 in (250, 300], 2 in
(200, 250] and 1 up to 200 (so 301 gives 4, 300 gives 3, 250 gives 2, 200
gives 1), they are monotone in the player height, and every coin collected in
the tick adds the points at the new player height to the score, in the `int`
arithmetic of Go: the score after the tick is the score before with the points
added once per collected coin, which is the score before plus the points times
the number of coins collected whenever that sum is in the range of `int`. The
number of coins collected is the number of coins lost by the collision pass. -/
theorem coin_scoring (m : MathOps K) (inp : TickInput K) (g : Game K)
    (hg : g.mode = gameMode.gameModePlaying) :
    (coinPlus (301 : K) = 4 ∧ coinPlus (300 : K) = 3 ∧
      coinPlus (250 : K) = 2 ∧ coinPlus (200 : K) = 1) ∧
    (∀ h : K, (300 < h → coinPlus h = 4) ∧ (250 < h ∧ h ≤ 300 → coinPlus h = 3) ∧
      (200 < h ∧ h ≤ 250 → coinPlus h = 2) ∧ (h ≤ 200 → coinPlus h = 1)) ∧
    (∀ h1 h2 : K, h1 ≤ h2 → coinPlus h1 ≤ coinPlus h2) ∧
    (Update m inp g).score
      = (fun s => wrapInt64 (s + coinPlus (Update m inp g).humanHeight))^[
          ((beforeCollisions m inp (tickInc g)).coins.filter
            (fun c => decide ((c.x - screenCenterX) ^ 2
                + (c.y - (surfaceBaseHeight - (Update m inp g).humanHeight)) ^ 2
              < (c.r + humanR) ^ 2))).length] g.score ∧
    (-2 ^ 63 ≤ g.score →
      g.score + coinPlus (Update m inp g).humanHeight *
        (((beforeCollisions m inp (tickInc g)).coins.filter
          (fun c => decide ((c.x - screenCenterX) ^ 2
              + (c.y - (surfaceBaseHeight - (Update m inp g).humanHeight)) ^ 2
            < (c.r + humanR) ^ 2))).length : Int) < 2 ^ 63 →
      (Update m inp g).score = g.score + coinPlus (Update m inp g).humanHeight *
        (((beforeCollisions m inp (tickInc g)).coins.filter
          (fun c => decide ((c.x - screenCenterX) ^ 2
              + (c.y - (surfaceBaseHeight - (Update m inp g).humanHeight)) ^ 2
            < (c.r + humanR) ^ 2))).length : Int)) ∧
    (beforeCollisions m inp (tickInc g)).coins.length = (Update m inp g).coins.length +
      ((beforeCollisions m inp (tickInc g)).coins.filter
        (fun c => decide ((c.x - screenCenterX) ^ 2
            + (c.y - (surfaceBaseHeight - (Update m inp g).humanHeight)) ^ 2
          < (c.r + humanR) ^ 2))).length := by
  have hscore : (Update m inp g).score
      = (fun s => wrapInt64 (s + coinPlus (Update m inp g).humanHeight))^[
          ((beforeCollisions m inp (tickInc g)).coins.filter
            (fun c => decide ((c.x - screenCenterX) ^ 2
                + (c.y - (surfaceBaseHeight - (Update m inp g).humanHeight)) ^ 2
              < (c.r + humanR) ^ 2))).length] g.score := by
    rw [Update_playing m inp g hg]
    simp only [playingTick_frame]
    simp only [playingTick, sharkCollision_frame]
    rw [coinCollision, coinCollisionLoop_eq]
    simp [coinHit]
  refine ⟨⟨?_, ?_, ?_, ?_⟩, ?_, coinPlus_mono, hscore, ?_, ?_⟩
  · norm_num [coinPlus]
  · norm_num [coinPlus]
  · norm_num [coinPlus]
  · norm_num [coinPlus]
  · intro h
    refine ⟨?_, ?_, ?_, ?_⟩
    · intro h1; simp [coinPlus, h1]
    · rintro ⟨h1, h2⟩; simp [coinPlus, h1, not_lt.mpr h2]
    · rintro ⟨h1, h2⟩
      have h3 : ¬ 300 < h := by intro h4; linarith
      simp [coinPlus, h1, not_lt.mpr h2, h3]
    · intro h1
      have h2 : ¬ 300 < h := by intro h4; linarith
      have h3 : ¬ 250 < h := by intro h4; linarith
      simp [coinPlus, not_lt.mpr h1, h2, h3]
  · intro h0 h1
    rw [hscore]
    exact iterate_wrapInt64 _ (le_of_lt (coinPlus_pos _)) _ _ h0 h1
  · rw [Update_playing m inp g hg]
    simp only [playingTick_frame]
    simp only [playingTick, sharkCollision_frame]
    rw [coinCollision, coinCollisionLoop_eq]
    simpa [coinHit] using filter_hit_length (beforeCollisions m inp (tickInc g)).humanHeight
      (spawnAndMove m inp (chargeStep inp (tickInc g))).coins

/-- C5. In the coin collision pass of a Playing tick the coin list becomes the
list of the coins whose squared distance to the player position
`(screenCenterX, surfaceBaseHeight - humanHeight)` is not strictly less than
`(r + humanR) ^ 2`, unchanged and in their original order: a coin is removed
if and only if that strict inequality holds, so a coin at squared distance
exactly `(r + humanR) ^ 2` is kept. -/
theorem coin_collision_filter (m : MathOps K) (inp : TickInput K) (g : Game K)
    (hg : g.mode = gameMode.gameModePlaying) :
    (Update m inp g).coins = (beforeCollisions m inp (tickInc g)).coins.filter
      (fun c => decide (¬ ((c.x - screenCenterX) ^ 2
          + (c.y - (surfaceBaseHeight - (Update m inp g).humanHeight)) ^ 2
        < (c.r + humanR) ^ 2))) ∧
    (∀ c ∈ (beforeCollisions m inp (tickInc g)).coins,
      (c ∉ (Update m inp g).coins ↔
        (c.x - screenCenterX) ^ 2
            + (c.y - (surfaceBaseHeight - (Update m inp g).humanHeight)) ^ 2
          < (c.r + humanR) ^ 2)) ∧
    (∀ c ∈ (beforeCollisions m inp (tickInc g)).coins,
      (c.x - screenCenterX) ^ 2
          + (c.y - (surfaceBaseHeight - (Update m inp g).humanHeight)) ^ 2
        = (c.r + humanR) ^ 2 → c ∈ (Update m inp g).coins) := by
  have hcoins : (Update m inp g).coins = (beforeCollisions m inp (tickInc g)).coins.filter
      (fun c => decide (¬ ((c.x - screenCenterX) ^ 2
          + (c.y - (surfaceBaseHeight - (Update m inp g).humanHeight)) ^ 2
        < (c.r + humanR) ^ 2))) := by
    rw [Update_playing m inp g hg]
    simp only [playingTick_frame]
    simp only [playingTick, sharkCollision_frame]
    rw [coinCollision, coinCollisionLoop_eq]
    simp [coinHit]
  refine ⟨hcoins, ?_, ?_⟩
  · intro c hc
    rw [hcoins, List.mem_filter, decide_eq_true_eq]
    constructor
    · intro h
      by_contra hn
      exact h ⟨hc, hn⟩
    · intro h hn
      exact hn.2 h
  · intro c hc heq
    rw [hcoins, List.mem_filter, decide_eq_true_eq]
    exact ⟨hc, not_lt.mpr (le_of_eq heq.symm)⟩

/-- C6. At the end of a Playing tick the mode is GameOver with tick counter 0
if and only if some shark of the post-movement shark list has squared distance
to the player position `(screenCenterX, surfaceBaseHeight - humanHeight)`
strictly less than `(r + humanR) ^ 2`; otherwise the mode remains Playing. The
shark list at the end of the tick is the post-movement list: the check does
not change it. -/
theorem shark_collision_gameover (m : MathOps K) (inp : TickInput K) (g : Game K)
    (hg : g.mode = gameMode.gameModePlaying) :
    (((Update m inp g).mode = gameMode.gameModeGameOver ∧
        (Update m inp g).ticksFromModeStart = 0) ↔
      ∃ s ∈ (sharkMove m (coinMove (waveMove (sharkEnter inp (coinEnter inp
          (waveEnter (chargeStep inp (tickInc g)))))))).sharks,
        (s.x - screenCenterX) ^ 2
            + (s.y - (surfaceBaseHeight - (Update m inp g).humanHeight)) ^ 2
          < (s.r + humanR) ^ 2) ∧
    ((¬ ∃ s ∈ (sharkMove m (coinMove (waveMove (sharkEnter inp (coinEnter inp
          (waveEnter (chargeStep inp (tickInc g)))))))).sharks,
        (s.x - screenCenterX) ^ 2
            + (s.y - (surfaceBaseHeight - (Update m inp g).humanHeight)) ^ 2
          < (s.r + humanR) ^ 2) →
      (Update m inp g).mode = gameMode.gameModePlaying) ∧
    (Update m inp g).sharks = (sharkMove m (coinMove (waveMove (sharkEnter inp (coinEnter inp
          (waveEnter (chargeStep inp (tickInc g)))))))).sharks ∧
    (∀ x : Game K, (sharkCollision x).sharks = x.sharks) := by
  have hs : (Update m inp g).sharks = (sharkMove m (coinMove (waveMove (sharkEnter inp
      (coinEnter inp (waveEnter (chargeStep inp (tickInc g)))))))).sharks := by
    rw [Update_playing m inp g hg]
    simp only [playingTick_frame]
    rfl
  have hh : (Update m inp g).humanHeight
      = (coinCollision (beforeCollisions m inp (tickInc g))).humanHeight := by
    rw [Update_playing m inp g hg]
    simp
  have hsh : (coinCollision (beforeCollisions m inp (tickInc g))).sharks
      = (sharkMove m (coinMove (waveMove (sharkEnter inp
      (coinEnter inp (waveEnter (chargeStep inp (tickInc g)))))))).sharks := by
    simp [spawnAndMove]
  have hm : (coinCollision (beforeCollisions m inp (tickInc g))).mode
      = gameMode.gameModePlaying := by
    simp [hg]
  have hU : Update m inp g = sharkCollisionLoop
      (coinCollision (beforeCollisions m inp (tickInc g))).sharks
      (coinCollision (beforeCollisions m inp (tickInc g))) := by
    rw [Update_playing m inp g hg]
    rfl
  rw [hh]
  rw [sharkCollisionLoop_eq, hsh] at hU
  refine ⟨?_, ?_, hs, fun x => (sharkCollision_frame x).2.2.2.2.1⟩
  · constructor
    · rintro ⟨hmode, -⟩
      by_contra hne
      rw [hU, if_neg (by simpa [sharkHit] using hne), hm] at hmode
      cases hmode
    · intro hex
      rw [hU, if_pos (by simpa [sharkHit] using hex)]
      exact ⟨rfl, rfl⟩
  · intro hne
    rw [hU, if_neg (by simpa [sharkHit] using hne), hm]

end Collisions

section Session

variable {K : Type} [LinearOrderedField K]

theorem sharkMoveLoop_eq (m : MathOps K) (ss acc : List (shark K)) :
    sharkMoveLoop m ss acc = acc ++ (ss.map (sharkStep m)).filter
      (fun s => decide (s.x > -100 ∧ s.x < screenWidth + 100)) := by
  induction ss generalizing acc with
  | nil => simp [sharkMoveLoop]
  | cons s ss ih =>
    by_cases h : (sharkStep m s).x > -100 ∧ (sharkStep m s).x < screenWidth + 100
    · simp only [sharkMoveLoop, if_pos h, ih]
      simp [List.filter_cons, h]
    · simp only [sharkMoveLoop, if_neg h, ih]
      simp [List.filter_cons, h]

theorem sharkTrigger_pos (s : shark K) :
    (sharkTrigger s).x = s.x ∧ (sharkTrigger s).y = s.y := by
  unfold sharkTrigger
  split_ifs <;> simp

theorem sharkReset_pos (d2 : K) (s : shark K) :
    (sharkReset d2 s).x = s.x ∧ (sharkReset d2 s).y = s.y := by
  unfold sharkReset
  dsimp only
  split_ifs <;> simp

theorem sharkEnter_sharks_congr (inp : TickInput K) (g1 g2 : Game K)
    (ht : g1.ticksFromModeStart = g2.ticksFromModeStart) (hs : g1.sharks = g2.sharks) :
    (sharkEnter inp g1).sharks = (sharkEnter inp g2).sharks := by
  unfold sharkEnter
  dsimp only
  rw [ht]
  split_ifs <;> simp [hs]

theorem spawnAndMove_sharks (m : MathOps K) (inp : TickInput K) (g : Game K) :
    (spawnAndMove m inp g).sharks = sharkMoveLoop m (sharkEnter inp g).sharks [] := by
  have h := sharkEnter_sharks_congr inp (coinEnter inp (waveEnter g)) g (by simp) (by simp)
  simp only [spawnAndMove, sharkMove, coinMove_frame, waveMove_frame, h]

/-- The shark list after `Update` does not read the player height. -/
theorem Update_sharks_humanHeight (m : MathOps K) (inp : TickInput K) (g : Game K) (h : K) :
    (Update m inp { g with humanHeight := h }).sharks = (Update m inp g).sharks := by
  have key : ∀ md : gameMode, g.mode = md →
      (Update m inp { g with humanHeight := h }).sharks = (Update m inp g).sharks := by
    intro md hmode
    cases md with
    | gameModeTitle =>
      simp only [Update, tickInc, hmode, titleTick]
      split_ifs <;> rfl
    | gameModePlaying =>
      rw [Update_playing m inp g hmode, Update_playing m inp { g with humanHeight := h } hmode]
      simp only [playingTick_frame, spawnAndMove_sharks]
      rw [sharkEnter_sharks_congr inp (chargeStep inp (tickInc { g with humanHeight := h }))
        (chargeStep inp (tickInc g)) (by simp [tickInc]) (by simp [tickInc])]
    | gameModeGameOver =>
      simp only [Update, tickInc, hmode, gameOverTick]
      split_ifs <;> simp [initGame]
  exact key g.mode rfl

/-- C7, as amended. For every session state, `Game.initialize` yields score 0,
mode Title and empty coins, sharks, coin effects and splash effects; the wave
collection is not emptied: it holds the three pulses of the title screen. -/
theorem initGame_resets (m : MathOps K) (g : Game K) :
    (initGame m g).score = 0 ∧
    (initGame m g).mode = gameMode.gameModeTitle ∧
    (initGame m g).coins = [] ∧
    (initGame m g).sharks = [] ∧
    (initGame m g).coinEffects = [] ∧
    (initGame m g).splashEffects = [] ∧
    (initGame m g).waves =
      [ { x := 200, vx := 0, height := 60, length := 100 },
        { x := 320, vx := 0, height := 90, length := 100 },
        { x := 440, vx := 0, height := 60, length := 100 } ] := by
  simp [initGame, titleWaves]

/-- C7 fails as stated: after `Game.initialize` on the zero session the wave
collection has three elements. -/
theorem initGame_waves_not_empty :
    (initGame realMath (newGame : Game ℝ)).waves ≠ [] ∧
    (initGame realMath (newGame : Game ℝ)).waves.length = 3 := by
  simp [initGame, titleWaves]

end Session

section Charge

variable {K : Type} [LinearOrderedField K]

theorem waveMoveLoop_eq (ws acc : List (wave K)) :
    waveMoveLoop ws acc = acc ++ (ws.map waveAdvance).filter
      (fun w => decide (w.x > -w.length ∧ w.x < screenWidth + w.length)) := by
  induction ws generalizing acc with
  | nil => simp [waveMoveLoop]
  | cons w ws ih =>
    by_cases h : (waveAdvance w).x > -(waveAdvance w).length ∧
        (waveAdvance w).x < screenWidth + (waveAdvance w).length
    · simp only [waveMoveLoop, if_pos h, ih]
      simp [List.filter_cons, h]
    · simp only [waveMoveLoop, if_neg h, ih]
      simp [List.filter_cons, h]

theorem spawnAndMove_waves (m : MathOps K) (inp : TickInput K) (g : Game K) :
    (spawnAndMove m inp g).waves = waveMoveLoop (waveEnter g).waves [] := by
  simp [spawnAndMove, waveMove]

theorem mem_waveEnter_waves (g : Game K) (w : wave K) (hw : w ∈ g.waves) :
    w ∈ (waveEnter g).waves := by
  unfold waveEnter
  split_ifs
  · exact List.mem_append_left _ hw
  · exact hw

theorem ulpShift_pow_le (f k : Nat) (hk : 0 < k) : 2 ^ ulpShift f k ≤ k := by
  induction f generalizing k with
  | zero => simpa [ulpShift] using hk
  | succ f ih =>
    unfold ulpShift
    split_ifs with h
    · simpa using hk
    · have h1 : 2 ^ 53 ≤ k := not_lt.mp h
      have h2 : 0 < k / 2 := Nat.div_pos (le_trans (by norm_num) h1) (by norm_num)
      have h3 := ih (k / 2) h2
      rw [pow_succ]
      exact le_trans (Nat.mul_le_mul_right 2 h3) (Nat.div_mul_le_self k 2)

/-- Rounding keeps a positive number positive. -/
theorem roundF64_pos (k : Nat) (hk : 0 < k) : 0 < roundF64 k := by
  have h := ulpShift_pow_le 1024 k hk
  have hp : 0 < 2 ^ ulpShift 1024 k := pow_pos (by norm_num) _
  have hq : 0 < k / 2 ^ ulpShift 1024 k := Nat.div_pos h hp
  unfold roundF64
  dsimp only
  split_ifs
  · exact Nat.mul_pos hq hp
  · exact Nat.mul_pos (by omega) hp
  · exact Nat.mul_pos (by omega) hp

theorem chargeAdd_le (k : Nat) : chargeAdd k ≤ 2702159776422297600 := by
  unfold chargeAdd
  dsimp only
  split_ifs with h
  · exact le_refl _
  · exact not_lt.mp h

theorem chargeAdd_pos (k : Nat) : 0 < chargeAdd k := by
  unfold chargeAdd
  dsimp only
  split_ifs with h
  · norm_num
  · exact roundF64_pos _ (Nat.add_pos_right _ (by norm_num))

theorem chargeAdd_cap : chargeAdd (2702159776422297600) = 2702159776422297600 := by decide!

theorem heldCharge_succ (n : Nat) : heldCharge (n + 1) = chargeAdd (heldCharge n) := rfl

theorem heldCharge_le (n : Nat) : heldCharge n ≤ 2702159776422297600 := by
  cases n with
  | zero => exact Nat.zero_le _
  | succ n => exact chargeAdd_le _

theorem heldCharge_100 : heldCharge 100 = 720575940379277952 := by decide!

theorem heldCharge_375 : heldCharge 375 = 2702159776422297600 := by decide!

theorem heldCharge_capped (n : Nat) (hn : 375 ≤ n) : heldCharge n = 2702159776422297600 := by
  induction n with
  | zero => omega
  | succ n ih =>
    rcases Nat.eq_or_lt_of_le hn with h | h
    · rw [← h]
      exact heldCharge_375
    · rw [heldCharge_succ, ih (by omega)]
      exact chargeAdd_cap

theorem heldCharge_near_units :
    ∀ n < 376, 4 * n * 2 ^ 53 ≤ 5 * heldCharge n + 100000 ∧
      5 * heldCharge n ≤ 4 * n * 2 ^ 53 + 100000 := by decide!

theorem f64_cap : (f64 (2702159776422297600) : K) = 300 := by
  unfold f64
  norm_num

theorem f64_nonneg (k : Nat) : (0 : K) ≤ f64 k := by
  unfold f64
  positivity

theorem f64_le (k : Nat) (h : k ≤ 2702159776422297600) : (f64 k : K) ≤ 300 := by
  unfold f64
  rw [div_le_iff₀ (by positivity)]
  exact_mod_cast h

/-- The held charge is the exact sum `0.8 * n`, capped at 300, up to
`10 ^ -11`. -/
theorem heldCharge_near (n : Nat) :
    |(f64 (heldCharge n) : K) - min (8 / 10 * (n : K)) 300| ≤ 1 / 10 ^ 11 := by
  rcases Nat.lt_or_ge n 376 with hn | hn
  · obtain ⟨h1, h2⟩ := heldCharge_near_units n hn
    have h1k : (4 : K) * (n : K) * 2 ^ 53 ≤ 5 * (heldCharge n : K) + 100000 := by
      exact_mod_cast h1
    have h2k : (5 : K) * (heldCharge n : K) ≤ 4 * (n : K) * 2 ^ 53 + 100000 := by
      exact_mod_cast h2
    have hn2 : (n : K) ≤ 375 := by
      have : n ≤ 375 := by omega
      exact_mod_cast this
    have hmin : min (8 / 10 * (n : K)) 300 = 8 / 10 * (n : K) := min_eq_left (by linarith)
    have hdiv : (f64 (heldCharge n) : K) * 2 ^ 53 = (heldCharge n : K) := by
      unfold f64
      field_simp
    have hp : (0 : K) < 2 ^ 53 := by positivity
    have hsmall : (100000 : K) ≤ 5 * (1 / 10 ^ 11) * 2 ^ 53 := by norm_num
    rw [hmin, abs_le]
    constructor
    · by_contra hcon
      rw [not_le] at hcon
      have := mul_lt_mul_of_pos_right hcon hp
      nlinarith
    · by_contra hcon
      rw [not_le] at hcon
      have := mul_lt_mul_of_pos_right hcon hp
      nlinarith
  · have hcap := heldCharge_capped n (by omega)
    have hn2 : (375 : K) ≤ (n : K) := by
      have : 375 ≤ n := by omega
      exact_mod_cast this
    have hmin : min (8 / 10 * (n : K)) 300 = 300 := min_eq_right (by linarith)
    have h300 : (f64 (heldCharge n) : K) = 300 := by
      rw [hcap]
      exact f64_cap
    rw [hmin, h300]
    norm_num

theorem chargeHold_height (g : Game K) (hh : g.hold = true) :
    (chargeHold g).nextWaveHeight = chargeAdd g.nextWaveHeight := by
  unfold chargeHold
  rw [if_pos hh]

/-- On the tick of the press the charge restarts at 0 with the hold flag set. -/
theorem Update_press (m : MathOps K) (inp : TickInput K) (g : Game K)
    (hg : g.mode = gameMode.gameModePlaying)
    (hin : inp.justTouched = true ∧ inp.justReleased = false) :
    (Update m inp g).hold = true ∧ (Update m inp g).nextWaveHeight = 0 := by
  rw [Update_playing m inp g hg]
  simp [chargeStep, chargeRelease, chargeTouch, hin.1, hin.2]

/-- On a tick without touch events a held charge makes one more step of
`heldCharge`. -/
theorem Update_quiet (m : MathOps K) (inp : TickInput K) (g : Game K) (n : Nat)
    (hg : g.mode = gameMode.gameModePlaying)
    (hin : inp.justTouched = false ∧ inp.justReleased = false)
    (hh : g.hold = true) (hc : g.nextWaveHeight = heldCharge n) :
    (Update m inp g).hold = true ∧
    (Update m inp g).nextWaveHeight = heldCharge (n + 1) := by
  rw [Update_playing m inp g hg]
  have h1 : (tickInc g).hold = true := by simp [hh]
  have h2 := chargeHold_height (tickInc g) h1
  simp only [tickInc_frame, hc, ← heldCharge_succ] at h2
  simp [chargeStep, chargeRelease, chargeTouch, hin.1, hin.2, h2, hh]

theorem run_quiet (m : MathOps K) (mid : List (TickInput K)) (g : Game K) (n : Nat)
    (hplay : playingThroughout m mid g)
    (hmid : ∀ i ∈ mid, i.justTouched = false ∧ i.justReleased = false)
    (hh : g.hold = true) (hc : g.nextWaveHeight = heldCharge n) :
    (run m mid g).mode = gameMode.gameModePlaying ∧
    (run m mid g).hold = true ∧
    (run m mid g).nextWaveHeight = heldCharge (n + mid.length) := by
  induction mid generalizing g n with
  | nil => exact ⟨hplay, hh, by simpa using hc⟩
  | cons i rest ih =>
    obtain ⟨hg, hrest⟩ := hplay
    have hq := Update_quiet m i g n hg (hmid i (List.mem_cons_self i rest)) hh hc
    have := ih (Update m i g) (n + 1) hrest
      (fun j hj => hmid j (List.mem_cons_of_mem i hj)) hq.1 hq.2
    refine ⟨this.1, this.2.1, ?_⟩
    rw [run, this.2.2, List.length_cons]
    congr 1
    omega

/-- The release block on a held charge: one pulse is appended, the charge and
the hold flag are cleared. -/
theorem chargeStep_release (inp : TickInput K) (g : Game K) (n : Nat)
    (hin : inp.justTouched = false ∧ inp.justReleased = true)
    (hh : g.hold = true) (hc : g.nextWaveHeight = heldCharge n) :
    (chargeStep inp (tickInc g)).waves = g.waves ++
      [{ x := -100, vx := waveSpeed, height := f64 (heldCharge (n + 1)), length := 200 }] ∧
    (chargeStep inp (tickInc g)).hold = false ∧
    (chargeStep inp (tickInc g)).nextWaveHeight = 0 := by
  have h1 : (tickInc g).hold = true := by simp [hh]
  have h2 := chargeHold_height (tickInc g) h1
  simp only [tickInc_frame, hc, ← heldCharge_succ] at h2
  simp [chargeStep, chargeRelease, chargeTouch, hin.1, hin.2, h2, hh]

/-- A press, `mid` ticks without touch events and a release, in Playing mode
throughout: the release block appends one pulse whose amplitude is the held
charge, and clears the charge and the hold flag. -/
theorem release_after_press (m : MathOps K) (g : Game K)
    (press rel : TickInput K) (mid : List (TickInput K))
    (hpress : press.justTouched = true ∧ press.justReleased = false)
    (hmid : ∀ i ∈ mid, i.justTouched = false ∧ i.justReleased = false)
    (hrel : rel.justTouched = false ∧ rel.justReleased = true)
    (hplay : playingThroughout m (press :: mid) g) :
    (run m (press :: mid) g).mode = gameMode.gameModePlaying ∧
    (chargeStep rel (tickInc (run m (press :: mid) g))).waves
      = (run m (press :: mid) g).waves ++
        [{ x := -100, vx := waveSpeed, height := f64 (heldCharge (mid.length + 1)),
           length := 200 }] ∧
    (chargeStep rel (tickInc (run m (press :: mid) g))).hold = false ∧
    (chargeStep rel (tickInc (run m (press :: mid) g))).nextWaveHeight = 0 := by
  obtain ⟨hg, hrest⟩ := hplay
  have hp := Update_press m press g hg hpress
  have hq := run_quiet m mid (Update m press g) 0 hrest hmid hp.1 (by simpa [heldCharge] using hp.2)
  have hrun : run m (press :: mid) g = run m mid (Update m press g) := rfl
  have hr := chargeStep_release rel (run m mid (Update m press g)) (0 + mid.length) hrel
    hq.2.1 hq.2.2
  rw [Nat.zero_add] at hr
  rw [hrun]
  exact ⟨hq.1, hr⟩

/-- C9, as amended. In Playing mode, a press on one tick followed by a release
exactly `n` ticks later (`n >= 1`; the `n - 1` ticks in between carry no touch
event and the mode is Playing before each of these ticks) spawns, in the
release block of the release tick, exactly one pulse at `x = -100` with
velocity `waveSpeed = 2`, width 200 and amplitude the captured charge height:
the `float64` that `n` rounded additions of 0.8, each capped at 300, build from
0 (`heldCharge n`). That amplitude is between 0 and 300, differs from
`min (0.8 * n) 300` by at most `10 ^ -11`, is 300 from `n = 375` on, and for
`n = 100` it is `5629499534213109 / 2 ^ 46 = 80 - 11 / 2 ^ 46`
(79.99999999999984), not 80. The pulse is live after that tick, advanced once
to `x = -98`; and after the release tick the charge is 0 and the hold flag is
false. -/
theorem charge_release (m : MathOps K) (n : Nat) (g : Game K)
    (press rel : TickInput K) (mid : List (TickInput K))
    (hlen : mid.length + 1 = n)
    (hpress : press.justTouched = true ∧ press.justReleased = false)
    (hmid : ∀ i ∈ mid, i.justTouched = false ∧ i.justReleased = false)
    (hrel : rel.justTouched = false ∧ rel.justReleased = true)
    (hplay : playingThroughout m (press :: mid) g) :
    (chargeStep rel (tickInc (run m (press :: mid) g))).waves
      = (run m (press :: mid) g).waves ++
        [{ x := -100, vx := waveSpeed, height := f64 (heldCharge n), length := 200 }] ∧
    (waveSpeed : K) = 2 ∧
    ((0 : K) ≤ f64 (heldCharge n) ∧ (f64 (heldCharge n) : K) ≤ 300) ∧
    |(f64 (heldCharge n) : K) - min (8 / 10 * (n : K)) 300| ≤ 1 / 10 ^ 11 ∧
    (375 ≤ n → (f64 (heldCharge n) : K) = 300) ∧
    (n = 100 → (f64 (heldCharge n) : K) = 5629499534213109 / 2 ^ 46 ∧
      (f64 (heldCharge n) : K) = 80 - 11 / 2 ^ 46) ∧
    ({ x := -98, vx := waveSpeed, height := f64 (heldCharge n), length := 200 } : wave K)
      ∈ (Update m rel (run m (press :: mid) g)).waves ∧
    (Update m rel (run m (press :: mid) g)).nextWaveHeight = 0 ∧
    (Update m rel (run m (press :: mid) g)).hold = false := by
  have hr := release_after_press m g press rel mid hpress hmid hrel hplay
  rw [hlen] at hr
  refine ⟨hr.2.1, rfl, ⟨f64_nonneg _, f64_le _ (heldCharge_le n)⟩, heldCharge_near n,
    ?_, ?_, ?_, ?_, ?_⟩
  · intro h375
    rw [heldCharge_capped n h375]
    exact f64_cap
  · intro h100
    rw [h100, heldCharge_100]
    unfold f64
    constructor <;> norm_num
  · rw [Update_playing m rel _ hr.1]
    simp only [playingTick_frame, spawnAndMove_waves, waveMoveLoop_eq, List.nil_append]
    have hmem :
        ({ x := -100, vx := waveSpeed, height := f64 (heldCharge n), length := 200 } : wave K)
        ∈ (waveEnter (chargeStep rel (tickInc (run m (press :: mid) g)))).waves :=
      mem_waveEnter_waves _ _ (by rw [hr.2.1]; simp)
    rw [List.mem_filter, decide_eq_true_eq]
    constructor
    · refine List.mem_map.mpr ⟨_, hmem, ?_⟩
      simp only [waveAdvance, waveSpeed]
      norm_num
    · constructor <;> norm_num [screenWidth]
  · rw [Update_playing m rel _ hr.1]
    simp only [playingTick_frame]
    exact hr.2.2.2
  · rw [Update_playing m rel _ hr.1]
    simp only [playingTick_frame]
    exact hr.2.2.1

theorem chargeTouch_nextWaveHeight_le (inp : TickInput K) (g : Game K)
    (h1 : g.nextWaveHeight ≤ 2702159776422297600) :
    (chargeTouch inp (chargeHold g)).nextWaveHeight ≤ 2702159776422297600 := by
  have hH : (chargeHold g).nextWaveHeight ≤ 2702159776422297600 := by
    by_cases hh : g.hold = true
    · rw [chargeHold_height g hh]
      exact chargeAdd_le _
    · unfold chargeHold
      rw [if_neg hh]
      exact h1
  unfold chargeTouch
  by_cases ht : inp.justTouched = true
  · rw [if_pos ht]
    exact Nat.zero_le _
  · rw [if_neg ht]
    exact hH

theorem chargeStep_nextWaveHeight_le (inp : TickInput K) (g : Game K)
    (h1 : g.nextWaveHeight ≤ 2702159776422297600) :
    (chargeStep inp g).nextWaveHeight ≤ 2702159776422297600 := by
  unfold chargeStep chargeRelease
  by_cases hr : inp.justReleased = true
  · rw [if_pos hr]
    exact Nat.zero_le _
  · rw [if_neg hr]
    exact chargeTouch_nextWaveHeight_le inp g h1

/-- A pulse in the list after the charge block was there before, or is the
pulse of the release, whose amplitude is a charge height of at most 300. -/
theorem mem_chargeStep_waves (inp : TickInput K) (g : Game K) (u : wave K)
    (h1 : g.nextWaveHeight ≤ 2702159776422297600)
    (hu : u ∈ (chargeStep inp g).waves) :
    u ∈ g.waves ∨ ∃ k : Nat, k ≤ 2702159776422297600 ∧
      u = { x := -100, vx := waveSpeed, height := f64 k, length := 200 } := by
  have hT := chargeTouch_nextWaveHeight_le inp g h1
  have hw : (chargeTouch inp (chargeHold g)).waves = g.waves := by simp
  unfold chargeStep chargeRelease at hu
  by_cases hr : inp.justReleased = true
  · rw [if_pos hr] at hu
    by_cases hh : (chargeTouch inp (chargeHold g)).hold = true
    · rw [if_pos hh] at hu
      rcases List.mem_append.mp hu with h | h
      · left
        rw [← hw]
        exact h
      · right
        exact ⟨_, hT, List.mem_singleton.mp h⟩
    · rw [if_neg hh] at hu
      left
      rw [← hw]
      exact hu
  · rw [if_neg hr] at hu
    left
    rw [← hw]
    exact hu

theorem Update_nextWaveHeight_le (m : MathOps K) (inp : TickInput K) (g : Game K)
    (h1 : g.nextWaveHeight ≤ 2702159776422297600) :
    (Update m inp g).nextWaveHeight ≤ 2702159776422297600 := by
  have key : ∀ md : gameMode, g.mode = md →
      (Update m inp g).nextWaveHeight ≤ 2702159776422297600 := by
    intro md hmode
    cases md with
    | gameModeTitle =>
      simp only [Update, tickInc, hmode, titleTick]
      split_ifs <;> exact h1
    | gameModePlaying =>
      rw [Update_playing m inp g hmode]
      simp only [playingTick_frame]
      exact chargeStep_nextWaveHeight_le inp (tickInc g) h1
    | gameModeGameOver =>
      simp only [Update, tickInc, hmode, gameOverTick]
      split_ifs
      · simp [initGame]
      · exact h1
  exact key g.mode rfl

theorem Reachable_nextWaveHeight_le (m : MathOps K) (g : Game K) (hg : Reachable m g) :
    g.nextWaveHeight ≤ 2702159776422297600 := by
  induction hg with
  | init => simp [initGame]
  | step inp g _ ih => exact Update_nextWaveHeight_le m inp g ih

/-- C10. In every state reachable from `Game.initialize` by any sequence of
`Update` calls, with any touch events and any random draws, the charge height
`nextWaveHeight` lies in the closed interval from 0 to 300. -/
theorem nextWaveHeight_bounds (m : MathOps K) (g : Game K) (hg : Reachable m g) :
    (0 : K) ≤ f64 g.nextWaveHeight ∧ (f64 g.nextWaveHeight : K) ≤ 300 :=
  ⟨f64_nonneg _, f64_le _ (Reachable_nextWaveHeight_le m g hg)⟩

/-- C10 at the session one press after start-up, with the real functions. -/
theorem nextWaveHeight_bounds_witness :
    Reachable realMath (Update realMath pressInput (initGame realMath (newGame : Game ℝ))) ∧
    (0 : ℝ) ≤
      f64 (Update realMath pressInput (initGame realMath (newGame : Game ℝ))).nextWaveHeight ∧
    (f64 (Update realMath pressInput (initGame realMath (newGame : Game ℝ))).nextWaveHeight
      : ℝ) ≤ 300 :=
  ⟨Reachable.step pressInput _ Reachable.init,
    nextWaveHeight_bounds realMath _ (Reachable.step pressInput _ Reachable.init)⟩

end Charge

section Witnesses

variable {K : Type} [LinearOrderedField K]

theorem coinMoveLoop_eq (cs acc : List (coin K)) :
    coinMoveLoop cs acc = acc ++ (cs.map coinAdvance).filter
      (fun c => decide (c.x > -50 ∧ c.x < screenWidth + 50)) := by
  induction cs generalizing acc with
  | nil => simp [coinMoveLoop]
  | cons c cs ih =>
    by_cases h : (coinAdvance c).x > -50 ∧ (coinAdvance c).x < screenWidth + 50
    · simp only [coinMoveLoop, if_pos h, ih]
      simp [List.filter_cons, h]
    · simp only [coinMoveLoop, if_neg h, ih]
      simp [List.filter_cons, h]

theorem coinGame_before (m : MathOps K) :
    (beforeCollisions m quietInput (tickInc (coinGame : Game K))).coins
      = [{ x := 320, y := 320, vx := 1, r := 15 }, { x := 101, y := 100, vx := 1, r := 15 }] ∧
    (beforeCollisions m quietInput (tickInc (coinGame : Game K))).humanHeight = 0 := by
  constructor
  · simp only [beforeCollisions_frame, spawnAndMove, sharkMove_frame, coinMove, coinMoveLoop_eq]
    norm_num [sharkEnter, coinEnter, waveEnter, waveMove, chargeStep, chargeRelease, chargeTouch,
      chargeHold, tickInc, coinGame, emptyGame, newGame, quietInput, coinAdvance, screenWidth]
  · simp only [beforeCollisions, heightAndEffects, splashMove_frame, coinEffectMove_frame,
      splashEnter_frame, humanStep, spawnAndMove_waves, waveMoveLoop_eq]
    norm_num [waveEnter, chargeStep, chargeRelease, chargeTouch,
      chargeHold, tickInc, coinGame, emptyGame, newGame, quietInput, calcSurfaceHeight]

theorem coinGame_humanHeight (m : MathOps K) :
    (Update m quietInput (coinGame : Game K)).humanHeight = 0 := by
  rw [Update_playing m quietInput coinGame rfl]
  simp only [playingTick_frame]
  exact (coinGame_before m).2

/-- C4 on `coinGame`: one coin is collected at player height 0, for 1 point. -/
theorem coin_scoring_witness :
    (coinGame : Game ℝ).mode = gameMode.gameModePlaying ∧
    (Update realMath quietInput (coinGame : Game ℝ)).score = 6 := by
  refine ⟨rfl, ?_⟩
  have h := (coin_scoring realMath quietInput (coinGame : Game ℝ) rfl).2.2.2.1
  rw [coinGame_humanHeight, (coinGame_before realMath).1] at h
  rw [h]
  norm_num [coinPlus, coinGame, List.filter_cons, screenCenterX, screenWidth, surfaceBaseHeight,
    screenHeight, humanR]
  rfl

/-- C5 on `coinGame`: the coin at the player position goes, the other stays. -/
theorem coin_collision_filter_witness :
    (coinGame : Game ℝ).mode = gameMode.gameModePlaying ∧
    (Update realMath quietInput (coinGame : Game ℝ)).coins
      = [{ x := 101, y := 100, vx := 1, r := 15 }] := by
  refine ⟨rfl, ?_⟩
  have h := (coin_collision_filter realMath quietInput (coinGame : Game ℝ) rfl).1
  rw [coinGame_humanHeight, (coinGame_before realMath).1] at h
  rw [h]
  norm_num [List.filter_cons, screenCenterX, screenWidth, surfaceBaseHeight, screenHeight,
    humanR]

theorem biteGame_sharks (m : MathOps K) :
    (sharkMove m (coinMove (waveMove (sharkEnter quietInput (coinEnter quietInput
      (waveEnter (chargeStep quietInput (tickInc (biteGame : Game K))))))))).sharks
      = [{ x := 320, y := 320, vx := 1 / 2, vy := 0, r := 10, attacking := false }] := by
  have h := spawnAndMove_sharks m quietInput (chargeStep quietInput (tickInc (biteGame : Game K)))
  rw [spawnAndMove] at h
  rw [h, sharkMoveLoop_eq,
    sharkEnter_sharks_congr quietInput (chargeStep quietInput (tickInc biteGame))
      (tickInc biteGame) (by simp) (by simp)]
  norm_num [sharkEnter, tickInc, biteGame, emptyGame, newGame, sharkStep, sharkAdvance, sharkAim,
    sharkReset, sharkD2, sharkTrigger, screenCenterX, screenWidth, surfaceBaseHeight,
    screenHeight, sharkSpeed]

theorem biteGame_humanHeight (m : MathOps K) :
    (Update m quietInput (biteGame : Game K)).humanHeight = 0 := by
  rw [Update_playing m quietInput biteGame rfl]
  simp only [playingTick_frame]
  simp only [beforeCollisions, heightAndEffects, splashMove_frame, coinEffectMove_frame,
    splashEnter_frame, humanStep, spawnAndMove_waves, waveMoveLoop_eq]
  norm_num [waveEnter, chargeStep, chargeRelease, chargeTouch,
    chargeHold, tickInc, biteGame, emptyGame, newGame, quietInput, calcSurfaceHeight]

/-- C6 on `biteGame`: the shark reaches the player, the session is over. -/
theorem shark_collision_gameover_witness :
    (biteGame : Game ℝ).mode = gameMode.gameModePlaying ∧
    (Update realMath quietInput (biteGame : Game ℝ)).mode = gameMode.gameModeGameOver ∧
    (Update realMath quietInput (biteGame : Game ℝ)).ticksFromModeStart = 0 := by
  refine ⟨rfl, ?_⟩
  apply (shark_collision_gameover realMath quietInput (biteGame : Game ℝ) rfl).1.mpr
  rw [biteGame_sharks, biteGame_humanHeight]
  refine ⟨_, List.mem_singleton.mpr rfl, ?_⟩
  norm_num [screenCenterX, screenWidth, surfaceBaseHeight, screenHeight, humanR]

/-- A Playing session without sharks stays Playing while the shark timer does
not fire. -/
theorem Update_noSharks (m : MathOps K) (inp : TickInput K) (g : Game K)
    (hg : g.mode = gameMode.gameModePlaying) (hs : g.sharks = [])
    (ht : g.ticksFromModeStart + 1 < 630) :
    (Update m inp g).mode = gameMode.gameModePlaying ∧
    (Update m inp g).sharks = [] ∧
    (Update m inp g).ticksFromModeStart = g.ticksFromModeStart + 1 := by
  have hmod : (g.ticksFromModeStart + 1) % 18446744073709551616 = g.ticksFromModeStart + 1 :=
    Nat.mod_eq_of_lt (by omega)
  have hne : ¬ (g.ticksFromModeStart + 1) % 630 = 0 := by
    rw [Nat.mod_eq_of_lt ht]
    omega
  have hsh : (spawnAndMove m inp (chargeStep inp (tickInc g))).sharks = [] := by
    rw [spawnAndMove_sharks, sharkEnter_sharks_congr inp (chargeStep inp (tickInc g))
      (tickInc g) (by simp) (by simp)]
    simp [sharkEnter, tickInc, hmod, hne, hs, sharkMoveLoop]
  have hU : Update m inp g = coinCollision (beforeCollisions m inp (tickInc g)) := by
    rw [Update_playing m inp g hg, playingTick, sharkCollision]
    have : (coinCollision (beforeCollisions m inp (tickInc g))).sharks = [] := by
      simp [hsh]
    rw [this, sharkCollisionLoop]
  rw [hU]
  refine ⟨by simp [hg], by simp [hsh], ?_⟩
  simp only [coinCollision_frame, beforeCollisions_frame, tickInc]
  exact hmod

theorem playingThroughout_noSharks (m : MathOps K) (inps : List (TickInput K)) (g : Game K)
    (hg : g.mode = gameMode.gameModePlaying) (hs : g.sharks = [])
    (ht : g.ticksFromModeStart + inps.length < 630) : playingThroughout m inps g := by
  induction inps generalizing g with
  | nil => exact hg
  | cons i rest ih =>
    have hlen : (i :: rest).length = rest.length + 1 := rfl
    rw [hlen] at ht
    have hu := Update_noSharks m i g hg hs (by omega)
    exact ⟨hg, ih (Update m i g) hu.1 hu.2.1 (by rw [hu.2.2]; omega)⟩

end Witnesses

section Timers

variable {K : Type} [LinearOrderedField K]

theorem chargeStep_waves_of_quiet (inp : TickInput K) (g : Game K)
    (hr : inp.justReleased = false) : (chargeStep inp g).waves = g.waves := by
  simp [chargeStep, chargeRelease, hr]

/-- C12, as amended. In a Playing tick every live pulse (the pulses of the
session, then the pulse released and the ambient pulse spawned on this tick)
is advanced by its velocity, and an advanced pulse is removed exactly when its
position is at or beyond `screenWidth + length` or at or below `-length`: the
resulting list is the advanced list filtered, in order, by the strict test
`-length < x < screenWidth + length`. -/
theorem wave_move_filter (m : MathOps K) (inp : TickInput K) (g : Game K)
    (hg : g.mode = gameMode.gameModePlaying) :
    (Update m inp g).waves
      = ((waveEnter (chargeStep inp (tickInc g))).waves.map waveAdvance).filter
          (fun w => decide (w.x > -w.length ∧ w.x < screenWidth + w.length)) ∧
    (∀ w : wave K, waveAdvance w
      = { x := w.x + w.vx, vx := w.vx, height := w.height, length := w.length }) ∧
    (∀ w ∈ (waveEnter (chargeStep inp (tickInc g))).waves,
      (waveAdvance w ∉ (Update m inp g).waves ↔
        (w.x + w.vx ≤ -w.length ∨ screenWidth + w.length ≤ w.x + w.vx))) ∧
    (∀ w ∈ g.waves, w ∈ (waveEnter (chargeStep inp (tickInc g))).waves) := by
  have hw : (Update m inp g).waves
      = ((waveEnter (chargeStep inp (tickInc g))).waves.map waveAdvance).filter
          (fun w => decide (w.x > -w.length ∧ w.x < screenWidth + w.length)) := by
    rw [Update_playing m inp g hg]
    simp only [playingTick_frame, spawnAndMove_waves, waveMoveLoop_eq, List.nil_append]
  refine ⟨hw, fun w => rfl, ?_, ?_⟩
  · intro w hmem
    rw [hw, List.mem_filter, decide_eq_true_eq]
    have hin : waveAdvance w ∈ (waveEnter (chargeStep inp (tickInc g))).waves.map waveAdvance :=
      List.mem_map.mpr ⟨w, hmem, rfl⟩
    show ¬ (_ ∧ (w.x + w.vx > -w.length ∧ w.x + w.vx < screenWidth + w.length)) ↔ _
    constructor
    · intro h
      by_contra hn
      rw [not_or, not_le, not_le] at hn
      exact h ⟨hin, hn.1, hn.2⟩
    · rintro (h | h) ⟨-, h1, h2⟩
      · exact absurd h1 (not_lt.mpr h)
      · exact absurd h2 (not_lt.mpr h)
  · intro w hmem
    apply mem_waveEnter_waves
    unfold chargeStep chargeRelease
    dsimp only
    split_ifs <;> simp [hmem]

/-- C12 (amended) on `edgeWaveGame`. -/
theorem wave_move_filter_witness :
    (edgeWaveGame : Game ℝ).mode = gameMode.gameModePlaying ∧
    (Update realMath quietInput (edgeWaveGame : Game ℝ)).waves
      = ((waveEnter (chargeStep quietInput (tickInc (edgeWaveGame : Game ℝ)))).waves.map
          waveAdvance).filter
            (fun w => decide (w.x > -w.length ∧ w.x < screenWidth + w.length)) :=
  ⟨rfl, (wave_move_filter realMath quietInput (edgeWaveGame : Game ℝ) rfl).1⟩

/-- C12 fails as stated: the pulse of `edgeWaveGame` advances to
`x = 840 = screenWidth + length`, which passes the non-strict test of the
claim, and the code removes it. -/
theorem wave_at_bound_removed :
    (Update realMath quietInput (edgeWaveGame : Game ℝ)).waves = [] ∧
    ((waveEnter (chargeStep quietInput (tickInc (edgeWaveGame : Game ℝ)))).waves.map
        waveAdvance).filter
          (fun w => decide (-w.length ≤ w.x ∧ w.x ≤ screenWidth + w.length))
      = [{ x := 840, vx := 2, height := 80, length := 200 }] := by
  have hl : (waveEnter (chargeStep quietInput (tickInc (edgeWaveGame : Game ℝ)))).waves
      = [{ x := 838, vx := 2, height := 80, length := 200 }] := by
    simp [waveEnter, chargeStep, chargeRelease, chargeTouch, chargeHold, tickInc, edgeWaveGame,
      emptyGame, newGame, quietInput]
  constructor
  · rw [Update_playing realMath quietInput edgeWaveGame rfl]
    simp only [playingTick_frame, spawnAndMove_waves, waveMoveLoop_eq, List.nil_append, hl]
    norm_num [waveAdvance, screenWidth]
  · rw [hl]
    norm_num [waveAdvance, screenWidth]

end Timers

section Modes

variable {K : Type} [LinearOrderedField K]

theorem Update_title (m : MathOps K) (inp : TickInput K) (g : Game K)
    (hg : g.mode = gameMode.gameModeTitle) :
    Update m inp g = titleTick inp (tickInc g) := by
  have h : (tickInc g).mode = gameMode.gameModeTitle := by simp [hg]
  simp only [Update, h]

theorem Update_gameOver (m : MathOps K) (inp : TickInput K) (g : Game K)
    (hg : g.mode = gameMode.gameModeGameOver) :
    Update m inp g = gameOverTick m inp (tickInc g) := by
  have h : (tickInc g).mode = gameMode.gameModeGameOver := by simp [hg]
  simp only [Update, h]

/-- C13, as amended. On every Playing tick whose in-mode tick count (after the
increment) is a multiple of 180, exactly one ambient pulse is spawned, after
the pulses of the session and the pulse released on this tick: it enters at
the right edge, `x = screenWidth + 75 = 715`, with velocity `-waveSpeed = -2`
(towards the centre), height 50 and width 150; on other ticks no ambient pulse
is spawned. No pulse is spawned at the left edge. -/
theorem ambient_wave_timer (m : MathOps K) (inp : TickInput K) (g : Game K)
    (hg : g.mode = gameMode.gameModePlaying) :
    (waveEnter (chargeStep inp (tickInc g))).waves
      = (chargeStep inp (tickInc g)).waves ++
        (if (g.ticksFromModeStart + 1) % 2 ^ 64 % 180 = 0 then
          [{ x := screenWidth + 75, vx := -waveSpeed, height := 50, length := 150 }]
        else []) ∧
    ((screenWidth + 75 : K) = 715 ∧ (-waveSpeed : K) = -2) ∧
    (Update m inp g).waves
      = ((waveEnter (chargeStep inp (tickInc g))).waves.map waveAdvance).filter
          (fun w => decide (w.x > -w.length ∧ w.x < screenWidth + w.length)) := by
  refine ⟨?_, ⟨by norm_num [screenWidth], by norm_num [waveSpeed]⟩, ?_⟩
  · have ht : (chargeStep inp (tickInc g)).ticksFromModeStart
        = (g.ticksFromModeStart + 1) % 2 ^ 64 := by
      simp [tickInc]
    unfold waveEnter
    rw [ht]
    split_ifs <;> simp
  · rw [Update_playing m inp g hg]
    simp only [playingTick_frame, spawnAndMove_waves, waveMoveLoop_eq, List.nil_append]

theorem timerGame_waves :
    (waveEnter (chargeStep quietInput (tickInc (timerGame : Game K)))).waves
      = [{ x := 715, vx := -2, height := 50, length := 150 }] := by
  norm_num [waveEnter, chargeStep, chargeRelease, chargeTouch, chargeHold, tickInc, timerGame,
    emptyGame, newGame, quietInput, screenWidth, waveSpeed]

/-- C13 (amended) on `timerGame`, whose next tick is tick 180. -/
theorem ambient_wave_timer_witness :
    (timerGame : Game ℝ).mode = gameMode.gameModePlaying ∧
    (Update realMath quietInput (timerGame : Game ℝ)).waves
      = ((waveEnter (chargeStep quietInput (tickInc (timerGame : Game ℝ)))).waves.map
          waveAdvance).filter
            (fun w => decide (w.x > -w.length ∧ w.x < screenWidth + w.length)) :=
  ⟨rfl, (ambient_wave_timer realMath quietInput (timerGame : Game ℝ) rfl).2.2⟩

/-- C13 fails as stated: on tick 180 of `timerGame` one pulse is spawned, not
two; after the tick the wave list is that pulse alone, moving left from the
right edge. -/
theorem one_ambient_wave :
    (waveEnter (chargeStep quietInput (tickInc (timerGame : Game ℝ)))).waves.length = 1 ∧
    (Update realMath quietInput (timerGame : Game ℝ)).waves
      = [{ x := 713, vx := -2, height := 50, length := 150 }] := by
  constructor
  · rw [timerGame_waves]
    rfl
  · rw [Update_playing realMath quietInput timerGame rfl]
    simp only [playingTick_frame, spawnAndMove_waves, waveMoveLoop_eq, List.nil_append,
      timerGame_waves]
    norm_num [waveAdvance, screenWidth]

/-- C14. In GameOver mode the simulation is frozen: an `Update` that does not
re-initialize (the incremented counter is not above 15, or there is no
activate event) leaves mode, score, waves, coins, sharks, coin effects, splash
effects, player height, charge height and hold flag unchanged; only the tick
counter changes, by the `uint64` increment (plus 1, which is plus 1 on the
naturals below the wrap-around). -/
theorem gameOver_frozen (m : MathOps K) (inp : TickInput K) (g : Game K)
    (hg : g.mode = gameMode.gameModeGameOver)
    (hno : ¬ ((g.ticksFromModeStart + 1) % 2 ^ 64 > 15 ∧ inp.justTouched = true)) :
    Update m inp g
      = { g with ticksFromModeStart := (g.ticksFromModeStart + 1) % 2 ^ 64 } ∧
    ((Update m inp g).mode = g.mode ∧
      (Update m inp g).score = g.score ∧
      (Update m inp g).waves = g.waves ∧
      (Update m inp g).coins = g.coins ∧
      (Update m inp g).sharks = g.sharks ∧
      (Update m inp g).coinEffects = g.coinEffects ∧
      (Update m inp g).splashEffects = g.splashEffects ∧
      (Update m inp g).humanHeight = g.humanHeight ∧
      (Update m inp g).nextWaveHeight = g.nextWaveHeight ∧
      (Update m inp g).hold = g.hold) ∧
    (Update m inp g).ticksFromModeStart = (g.ticksFromModeStart + 1) % 2 ^ 64 ∧
    (g.ticksFromModeStart + 1 < 2 ^ 64 →
      (Update m inp g).ticksFromModeStart = g.ticksFromModeStart + 1) := by
  have hU : Update m inp g
      = { g with ticksFromModeStart := (g.ticksFromModeStart + 1) % 2 ^ 64 } := by
    rw [Update_gameOver m inp g hg, gameOverTick]
    have h2 : ¬ ((tickInc g).ticksFromModeStart > 15 ∧ inp.justTouched = true) := hno
    rw [if_neg h2]
    rfl
  refine ⟨hU, ?_, ?_, ?_⟩
  · rw [hU]
    exact ⟨rfl, rfl, rfl, rfl, rfl, rfl, rfl, rfl, rfl, rfl⟩
  · rw [hU]
  · intro hlt
    rw [hU]
    exact Nat.mod_eq_of_lt hlt

theorem biteGame_over : (Update realMath quietInput (biteGame : Game ℝ)).mode
      = gameMode.gameModeGameOver ∧
    (Update realMath quietInput (biteGame : Game ℝ)).ticksFromModeStart = 0 := by
  have hU : Update realMath quietInput (biteGame : Game ℝ) = sharkCollisionLoop
      (coinCollision (beforeCollisions realMath quietInput (tickInc biteGame))).sharks
      (coinCollision (beforeCollisions realMath quietInput (tickInc biteGame))) := by
    rw [Update_playing realMath quietInput biteGame rfl]
    rfl
  have hh := biteGame_humanHeight realMath
  rw [Update_playing realMath quietInput biteGame rfl] at hh
  simp only [playingTick_frame] at hh
  have hs := biteGame_sharks realMath
  have hsh : (coinCollision (beforeCollisions realMath quietInput (tickInc biteGame))).sharks
      = [{ x := 320, y := 320, vx := 1 / 2, vy := 0, r := 10, attacking := false }] := by
    rw [← hs]
    simp [spawnAndMove]
  rw [hU, sharkCollisionLoop_eq, if_pos]
  · exact ⟨rfl, rfl⟩
  · rw [hsh]
    refine ⟨_, List.mem_singleton.mpr rfl, ?_⟩
    simp only [coinCollision_frame, hh]
    norm_num [sharkHit, screenCenterX, screenWidth, surfaceBaseHeight, screenHeight, humanR]

/-- C14 on the session that `biteGame` becomes when the shark bites: a tick
with an activate event, too early to re-initialize. -/
theorem gameOver_frozen_witness :
    (Update realMath quietInput (biteGame : Game ℝ)).mode = gameMode.gameModeGameOver ∧
    ¬ (((Update realMath quietInput (biteGame : Game ℝ)).ticksFromModeStart + 1) % 2 ^ 64 > 15
        ∧ (pressInput : TickInput ℝ).justTouched = true) ∧
    (Update realMath pressInput (Update realMath quietInput (biteGame : Game ℝ))).sharks
      = (Update realMath quietInput (biteGame : Game ℝ)).sharks :=
  have hno : ¬ (((Update realMath quietInput (biteGame : Game ℝ)).ticksFromModeStart + 1)
      % 2 ^ 64 > 15 ∧ (pressInput : TickInput ℝ).justTouched = true) := by
    rw [biteGame_over.2]
    norm_num
  ⟨biteGame_over.1, hno,
    (gameOver_frozen realMath pressInput _ biteGame_over.1 hno).2.1.2.2.2.2.1⟩

/-- C16. In Title mode an `Update` with an activate event sets the mode to
Playing, the tick counter to 0, the wave set to empty and the player height to
0, and leaves score, coins, sharks, both effect lists, charge height and hold
flag unchanged; an `Update` without an activate event leaves the mode Title
and changes nothing but the tick counter. -/
theorem title_tick (m : MathOps K) (inp : TickInput K) (g : Game K)
    (hg : g.mode = gameMode.gameModeTitle) :
    (inp.justTouched = true →
      Update m inp g =
        { g with
          mode := gameMode.gameModePlaying
          ticksFromModeStart := 0
          waves := []
          humanHeight := 0 } ∧
      (Update m inp g).mode = gameMode.gameModePlaying ∧
      (Update m inp g).ticksFromModeStart = 0 ∧
      (Update m inp g).waves = [] ∧
      (Update m inp g).humanHeight = 0 ∧
      (Update m inp g).score = g.score ∧
      (Update m inp g).coins = g.coins ∧
      (Update m inp g).sharks = g.sharks ∧
      (Update m inp g).coinEffects = g.coinEffects ∧
      (Update m inp g).splashEffects = g.splashEffects ∧
      (Update m inp g).nextWaveHeight = g.nextWaveHeight ∧
      (Update m inp g).hold = g.hold) ∧
    (inp.justTouched = false →
      Update m inp g = { g with ticksFromModeStart := (g.ticksFromModeStart + 1) % 2 ^ 64 } ∧
      (Update m inp g).mode = gameMode.gameModeTitle) := by
  constructor
  · intro ht
    have hU : Update m inp g =
        { g with
          mode := gameMode.gameModePlaying
          ticksFromModeStart := 0
          waves := []
          humanHeight := 0 } := by
      rw [Update_title m inp g hg, titleTick, if_pos ht]
      rfl
    rw [hU]
    exact ⟨rfl, rfl, rfl, rfl, rfl, rfl, rfl, rfl, rfl, rfl, rfl, rfl⟩
  · intro ht
    have hU : Update m inp g
        = { g with ticksFromModeStart := (g.ticksFromModeStart + 1) % 2 ^ 64 } := by
      rw [Update_title m inp g hg, titleTick, if_neg (by simp [ht])]
      rfl
    rw [hU]
    exact ⟨rfl, hg⟩

/-- C16 on the session that `main` starts with: the first touch starts the
game and clears the three title pulses. -/
theorem title_tick_witness :
    (initGame realMath (newGame : Game ℝ)).mode = gameMode.gameModeTitle ∧
    (pressInput : TickInput ℝ).justTouched = true ∧
    (Update realMath pressInput (initGame realMath (newGame : Game ℝ))).mode
      = gameMode.gameModePlaying ∧
    (Update realMath pressInput (initGame realMath (newGame : Game ℝ))).waves = [] :=
  ⟨rfl, rfl,
    ((title_tick realMath pressInput (initGame realMath (newGame : Game ℝ)) rfl).1 rfl).2.1,
    ((title_tick realMath pressInput (initGame realMath (newGame : Game ℝ)) rfl).1 rfl).2.2.2.1⟩

/-- C17. Coin and shark spawns are periodic timers on the in-mode tick count
`n` (after the increment): in a Playing tick exactly one coin is appended to
the coin list if `n` is a multiple of 180 and none otherwise, and exactly one
shark is appended to the shark list if `n` is a multiple of 630 and none
otherwise, whatever the touch events, the waves and the other timer; the new
shark is cruising (not attacking), with vertical velocity 0, at depth
`surfaceBaseHeight + 100`. The move loops of the tick then run on these
lists. -/
theorem spawn_timers (m : MathOps K) (inp : TickInput K) (g : Game K)
    (hg : g.mode = gameMode.gameModePlaying) :
    (coinEnter inp (waveEnter (chargeStep inp (tickInc g)))).coins
      = g.coins ++
        (if (g.ticksFromModeStart + 1) % 2 ^ 64 % 180 = 0 then
          [{ x := if inp.coinRandInt % 2 = 0 then -50 else screenWidth + 50,
             y := (surfaceBaseHeight - 200) * inp.coinRandFloat + 50,
             vx := if inp.coinRandInt % 2 = 0 then coinSpeed else -coinSpeed,
             r := coinR }]
        else []) ∧
    (sharkEnter inp (coinEnter inp (waveEnter (chargeStep inp (tickInc g))))).sharks
      = g.sharks ++
        (if (g.ticksFromModeStart + 1) % 2 ^ 64 % 630 = 0 then
          [{ x := if inp.sharkRandInt % 2 = 0 then -50 else screenWidth + 50,
             y := surfaceBaseHeight + 100,
             vx := if inp.sharkRandInt % 2 = 0 then sharkSpeed else -sharkSpeed,
             vy := 0, r := sharkR, attacking := false }]
        else []) ∧
    (beforeCollisions m inp (tickInc g)).coins
      = coinMoveLoop (coinEnter inp (waveEnter (chargeStep inp (tickInc g)))).coins [] ∧
    (Update m inp g).sharks
      = sharkMoveLoop m
          (sharkEnter inp (coinEnter inp (waveEnter (chargeStep inp (tickInc g))))).sharks [] := by
  refine ⟨?_, ?_, ?_, ?_⟩
  · have ht : (waveEnter (chargeStep inp (tickInc g))).ticksFromModeStart
        = (g.ticksFromModeStart + 1) % 2 ^ 64 := by
      simp [tickInc]
    have hc : (waveEnter (chargeStep inp (tickInc g))).coins = g.coins := by
      simp [tickInc]
    unfold coinEnter
    dsimp only
    rw [ht, hc]
    split_ifs <;> simp
  · have ht : (coinEnter inp (waveEnter (chargeStep inp (tickInc g)))).ticksFromModeStart
        = (g.ticksFromModeStart + 1) % 2 ^ 64 := by
      simp [tickInc]
    have hc : (coinEnter inp (waveEnter (chargeStep inp (tickInc g)))).sharks = g.sharks := by
      simp [tickInc]
    unfold sharkEnter
    dsimp only
    rw [ht, hc]
    split_ifs <;> simp
  · simp [spawnAndMove, coinMove]
  · rw [Update_playing m inp g hg]
    simp only [playingTick_frame]
    simp [spawnAndMove, sharkMove]

/-- C17 on `timerGame`, whose next tick is tick 180: one coin enters from the
left at height 50 (both draws are 0), no shark. -/
theorem spawn_timers_witness :
    (timerGame : Game ℝ).mode = gameMode.gameModePlaying ∧
    (coinEnter quietInput (waveEnter (chargeStep quietInput
        (tickInc (timerGame : Game ℝ))))).coins
      = [{ x := -50, y := 50, vx := 1, r := 15 }] ∧
    (sharkEnter quietInput (coinEnter quietInput (waveEnter (chargeStep quietInput
        (tickInc (timerGame : Game ℝ)))))).sharks = [] := by
  have h := spawn_timers realMath quietInput (timerGame : Game ℝ) rfl
  refine ⟨rfl, ?_, ?_⟩
  · rw [h.1]
    norm_num [timerGame, emptyGame, newGame, quietInput, coinSpeed, coinR, surfaceBaseHeight,
      screenHeight]
  · rw [h.2.1]
    norm_num [timerGame, emptyGame, newGame]

end Modes

section GameOverDelay

variable {K : Type} [LinearOrderedField K]

/-- An `Update` in GameOver mode either re-initializes or only counts. -/
theorem Update_gameOver_cases (m : MathOps K) (inp : TickInput K) (g : Game K)
    (hg : g.mode = gameMode.gameModeGameOver) :
    ((g.ticksFromModeStart + 1) % 2 ^ 64 > 15 ∧ inp.justTouched = true →
      Update m inp g = initGame m (tickInc g)) ∧
    (¬ ((g.ticksFromModeStart + 1) % 2 ^ 64 > 15 ∧ inp.justTouched = true) →
      Update m inp g = tickInc g) := by
  constructor
  · intro h
    have h2 : (tickInc g).ticksFromModeStart > 15 ∧ inp.justTouched = true := h
    rw [Update_gameOver m inp g hg, gameOverTick, if_pos h2]
  · intro h
    have h2 : ¬ ((tickInc g).ticksFromModeStart > 15 ∧ inp.justTouched = true) := h
    rw [Update_gameOver m inp g hg, gameOverTick, if_neg h2]

/-- While the counter stays at or below 15, GameOver persists whatever the
inputs. -/
theorem run_gameOver_early (m : MathOps K) (inps : List (TickInput K)) (g : Game K)
    (hg : g.mode = gameMode.gameModeGameOver)
    (ht : g.ticksFromModeStart + inps.length ≤ 15) :
    (run m inps g).mode = gameMode.gameModeGameOver ∧
    (run m inps g).ticksFromModeStart = g.ticksFromModeStart + inps.length := by
  induction inps generalizing g with
  | nil => exact ⟨hg, rfl⟩
  | cons i rest ih =>
    have hlen : (i :: rest).length = rest.length + 1 := rfl
    rw [hlen] at ht
    have hmod : (g.ticksFromModeStart + 1) % 2 ^ 64 = g.ticksFromModeStart + 1 :=
      Nat.mod_eq_of_lt (by omega)
    have hno : ¬ ((g.ticksFromModeStart + 1) % 2 ^ 64 > 15 ∧ i.justTouched = true) := by
      rw [hmod]
      omega
    have hU := (Update_gameOver_cases m i g hg).2 hno
    have h1 : (Update m i g).mode = gameMode.gameModeGameOver := by
      rw [hU]
      simpa using hg
    have h2 : (Update m i g).ticksFromModeStart = g.ticksFromModeStart + 1 := by
      rw [hU]
      exact hmod
    have := ih (Update m i g) h1 (by rw [h2]; omega)
    refine ⟨this.1, ?_⟩
    rw [run, this.2, h2, hlen]
    omega

/-- Without activate events GameOver persists and the counter counts modulo
`2 ^ 64`. -/
theorem run_gameOver_quiet_mode (m : MathOps K) (inps : List (TickInput K)) (g : Game K)
    (hg : g.mode = gameMode.gameModeGameOver)
    (hq : ∀ i ∈ inps, i.justTouched = false)
    (hlt : g.ticksFromModeStart < 2 ^ 64) :
    (run m inps g).mode = gameMode.gameModeGameOver ∧
    (run m inps g).ticksFromModeStart = (g.ticksFromModeStart + inps.length) % 2 ^ 64 := by
  induction inps generalizing g with
  | nil => exact ⟨hg, (Nat.mod_eq_of_lt hlt).symm⟩
  | cons i rest ih =>
    have hi : i.justTouched = false := hq i (List.mem_cons_self i rest)
    have hno : ¬ ((g.ticksFromModeStart + 1) % 2 ^ 64 > 15 ∧ i.justTouched = true) := by
      simp [hi]
    have hU := (Update_gameOver_cases m i g hg).2 hno
    have h1 : (Update m i g).mode = gameMode.gameModeGameOver := by
      rw [hU]
      simpa using hg
    have h2 : (Update m i g).ticksFromModeStart = (g.ticksFromModeStart + 1) % 2 ^ 64 := by
      rw [hU]
      rfl
    have h3 := ih (Update m i g) h1 (fun j hj => hq j (List.mem_cons_of_mem i hj))
      (by rw [h2]; exact Nat.mod_lt _ (by norm_num))
    refine ⟨h3.1, ?_⟩
    rw [run, h3.2, h2, Nat.mod_add_mod, List.length_cons]
    congr 1
    omega

theorem run_append (m : MathOps K) (xs ys : List (TickInput K)) (g : Game K) :
    run m (xs ++ ys) g = run m ys (run m xs g) := by
  induction xs generalizing g with
  | nil => rfl
  | cons x xs ih => exact ih (Update m x g)

theorem run_snoc (m : MathOps K) (xs : List (TickInput K)) (a : TickInput K) (g : Game K) :
    run m (xs ++ [a]) g = Update m a (run m xs g) := by
  rw [run_append]
  rfl

/-- C15. Let the session have just gone to GameOver (tick counter 0). An
activate event on any of the next 15 `Update` calls does not re-initialize: the
mode stays GameOver, whatever the inputs of these calls. The first activate
event on a later call, the `k`-th with `k >= 16`, re-initializes the session
and sets the mode to Title, whatever the inputs of the first 15 calls were
(activate events among them included); `k` is below `2 ^ 64`, the range of the
`uint64` tick counter. Without an activate event the mode stays GameOver, for
any number of calls. -/
theorem gameOver_delay (m : MathOps K) (g : Game K)
    (hg : g.mode = gameMode.gameModeGameOver) (ht : g.ticksFromModeStart = 0) :
    (∀ inps : List (TickInput K), inps.length ≤ 15 →
      (run m inps g).mode = gameMode.gameModeGameOver) ∧
    (∀ (pre : List (TickInput K)) (a : TickInput K),
      (∀ i ∈ pre.drop 15, i.justTouched = false) → a.justTouched = true →
      15 ≤ pre.length → pre.length + 1 < 2 ^ 64 →
      (run m pre g).mode = gameMode.gameModeGameOver ∧
      run m (pre ++ [a]) g = initGame m (tickInc (run m pre g)) ∧
      (run m (pre ++ [a]) g).mode = gameMode.gameModeTitle) ∧
    (∀ inps : List (TickInput K), (∀ i ∈ inps, i.justTouched = false) →
      (run m inps g).mode = gameMode.gameModeGameOver) := by
  refine ⟨?_, ?_, ?_⟩
  · intro inps hlen
    exact (run_gameOver_early m inps g hg (by rw [ht]; omega)).1
  · intro pre a hq ha h15 hlt
    have hsplit : pre = pre.take 15 ++ pre.drop 15 := (List.take_append_drop 15 pre).symm
    have htake : (pre.take 15).length = 15 := by
      rw [List.length_take]
      omega
    have hdrop : (pre.drop 15).length = pre.length - 15 := List.length_drop 15 pre
    have hearly := run_gameOver_early m (pre.take 15) g hg (by rw [ht, htake])
    rw [ht, htake, Nat.zero_add] at hearly
    have hlate := run_gameOver_quiet_mode m (pre.drop 15) (run m (pre.take 15) g) hearly.1 hq
      (by rw [hearly.2]; norm_num)
    rw [← run_append, ← hsplit, hearly.2, hdrop, Nat.mod_eq_of_lt (by omega)] at hlate
    have hyes : ((run m pre g).ticksFromModeStart + 1) % 2 ^ 64 > 15
        ∧ a.justTouched = true := by
      rw [hlate.2, Nat.mod_eq_of_lt (by omega)]
      exact ⟨by omega, ha⟩
    have hU := (Update_gameOver_cases m a (run m pre g) hlate.1).1 hyes
    rw [run_snoc, hU]
    exact ⟨hlate.1, rfl, rfl⟩
  · intro inps hq
    exact (run_gameOver_quiet_mode m inps g hg hq (by rw [ht]; norm_num)).1

/-- C15 on the session that `biteGame` becomes when the shark bites: an
activate event on the 5th call after the transition is ignored, and the next
one, on the 20th call, re-initializes. -/
theorem gameOver_delay_witness :
    (Update realMath quietInput (biteGame : Game ℝ)).mode = gameMode.gameModeGameOver ∧
    (Update realMath quietInput (biteGame : Game ℝ)).ticksFromModeStart = 0 ∧
    (run realMath (List.replicate 4 quietInput ++ [pressInput])
      (Update realMath quietInput (biteGame : Game ℝ))).mode = gameMode.gameModeGameOver ∧
    (run realMath (List.replicate 4 quietInput ++ [pressInput] ++ List.replicate 14 quietInput)
      (Update realMath quietInput (biteGame : Game ℝ))).mode = gameMode.gameModeGameOver ∧
    (run realMath
      ((List.replicate 4 quietInput ++ [pressInput] ++ List.replicate 14 quietInput)
        ++ [pressInput])
      (Update realMath quietInput (biteGame : Game ℝ))).mode = gameMode.gameModeTitle :=
  have h := gameOver_delay realMath _ biteGame_over.1 biteGame_over.2
  have h2 := h.2.1 (List.replicate 4 quietInput ++ [pressInput] ++ List.replicate 14 quietInput)
    pressInput
    (by
      intro i hi
      have hd : List.drop 15
          (List.replicate 4 (quietInput : TickInput ℝ) ++ [pressInput]
            ++ List.replicate 14 quietInput)
          = List.replicate 4 quietInput := rfl
      rw [hd] at hi
      rw [List.eq_of_mem_replicate hi]
      rfl)
    rfl (by simp) (by simp)
  ⟨biteGame_over.1, biteGame_over.2, h.1 _ (by simp), h2.1, h2.2.2⟩

end GameOverDelay

section Invariants

variable {K : Type} [LinearOrderedField K]

/-! ## Invariants of the reachable states -/

theorem waveContribution_ge (m : MathOps K) (hpi : 0 ≤ m.pi)
    (hsin : ∀ t : K, 0 ≤ t → t ≤ m.pi → 0 ≤ m.sin t) (x h : K) (w : wave K)
    (hw : 0 ≤ w.height) : h ≤ waveContribution m x h w := by
  unfold waveContribution
  split_ifs with hc
  · have hlt := abs_lt.mp hc
    have hL : 0 < w.length := by
      have := lt_of_le_of_lt (abs_nonneg (x - w.x)) hc
      linarith
    have h1 : 0 ≤ x - (w.x - w.length / 2) := by linarith [hlt.1]
    have h2 : x - (w.x - w.length / 2) ≤ w.length := by linarith [hlt.2]
    have h3 : 0 ≤ m.pi * (x - (w.x - w.length / 2)) / w.length :=
      div_nonneg (mul_nonneg hpi h1) (le_of_lt hL)
    have h4 : m.pi * (x - (w.x - w.length / 2)) / w.length ≤ m.pi := by
      rw [div_le_iff₀ hL]
      exact mul_le_mul_of_nonneg_left h2 hpi
    have := mul_nonneg hw (hsin _ h3 h4)
    linarith
  · exact le_refl h

theorem calcSurfaceHeight_nonneg (m : MathOps K) (hpi : 0 ≤ m.pi)
    (hsin : ∀ t : K, 0 ≤ t → t ≤ m.pi → 0 ≤ m.sin t) (ws : List (wave K)) (x : K)
    (hws : ∀ w ∈ ws, 0 ≤ w.height) : 0 ≤ calcSurfaceHeight m ws x := by
  induction ws with
  | nil => exact le_of_eq rfl
  | cons w ws ih =>
    rw [calcSurfaceHeight_cons]
    have h1 := waveContribution_ge m hpi hsin x 0 w (hws w (List.mem_cons_self w ws))
    have h2 := ih (fun v hv => hws v (List.mem_cons_of_mem w hv))
    linarith

theorem Update_playing_humanHeight (m : MathOps K) (inp : TickInput K) (g : Game K)
    (hg : g.mode = gameMode.gameModePlaying) :
    (Update m inp g).humanHeight
      = calcSurfaceHeight m (Update m inp g).waves screenCenterX := by
  rw [Update_playing m inp g hg]
  simp [beforeCollisions, heightAndEffects, humanStep]

theorem Update_playing_waves (m : MathOps K) (inp : TickInput K) (g : Game K)
    (hg : g.mode = gameMode.gameModePlaying) :
    (Update m inp g).waves
      = ((waveEnter (chargeStep inp (tickInc g))).waves.map waveAdvance).filter
          (fun w => decide (w.x > -w.length ∧ w.x < screenWidth + w.length)) := by
  rw [Update_playing m inp g hg]
  simp only [playingTick_frame, spawnAndMove_waves, waveMoveLoop_eq, List.nil_append]

theorem Update_playing_mode (m : MathOps K) (inp : TickInput K) (g : Game K)
    (hg : g.mode = gameMode.gameModePlaying) :
    (Update m inp g).mode
      = if ∃ s ∈ (Update m inp g).sharks, sharkHit (Update m inp g).humanHeight s then
          gameMode.gameModeGameOver
        else gameMode.gameModePlaying := by
  have hU : Update m inp g = sharkCollisionLoop
      (coinCollision (beforeCollisions m inp (tickInc g))).sharks
      (coinCollision (beforeCollisions m inp (tickInc g))) := by
    rw [Update_playing m inp g hg]
    rfl
  have hs : (Update m inp g).sharks
      = (coinCollision (beforeCollisions m inp (tickInc g))).sharks := by
    rw [Update_playing m inp g hg]
    simp [playingTick]
  have hh : (Update m inp g).humanHeight
      = (coinCollision (beforeCollisions m inp (tickInc g))).humanHeight := by
    rw [Update_playing m inp g hg]
    simp [playingTick]
  have hm : (coinCollision (beforeCollisions m inp (tickInc g))).mode
      = gameMode.gameModePlaying := by
    simp [hg]
  rw [hs, hh]
  rw [sharkCollisionLoop_eq] at hU
  rw [hU]
  split_ifs
  · rfl
  · exact hm

/-- The three kinds of pulses that the program creates. -/
theorem Update_waves_kinds (m : MathOps K) (inp : TickInput K) (g : Game K)
    (h1 : g.nextWaveHeight ≤ 2702159776422297600)
    (hw : ∀ w ∈ g.waves, (w.length = 200 ∧ 0 ≤ w.height ∧ w.height ≤ 300) ∨
      (w.length = 150 ∧ w.height = 50) ∨ (w.length = 100 ∧ (w.height = 60 ∨ w.height = 90))) :
    ∀ w ∈ (Update m inp g).waves, (w.length = 200 ∧ 0 ≤ w.height ∧ w.height ≤ 300) ∨
      (w.length = 150 ∧ w.height = 50) ∨ (w.length = 100 ∧ (w.height = 60 ∨ w.height = 90)) := by
  have key : ∀ md : gameMode, g.mode = md →
      ∀ w ∈ (Update m inp g).waves, (w.length = 200 ∧ 0 ≤ w.height ∧ w.height ≤ 300) ∨
      (w.length = 150 ∧ w.height = 50) ∨
      (w.length = 100 ∧ (w.height = 60 ∨ w.height = 90)) := by
    intro md hmode
    cases md with
    | gameModeTitle =>
      rw [Update_title m inp g hmode, titleTick]
      split_ifs
      · intro w hmem
        simp at hmem
      · exact hw
    | gameModePlaying =>
      rw [Update_playing_waves m inp g hmode]
      intro w hmem
      rw [List.mem_filter, List.mem_map] at hmem
      obtain ⟨⟨v, hv, rfl⟩, -⟩ := hmem
      show (v.length = 200 ∧ 0 ≤ v.height ∧ v.height ≤ 300) ∨ _
      have hc : ∀ u ∈ (chargeStep inp (tickInc g)).waves,
          (u.length = 200 ∧ 0 ≤ u.height ∧ u.height ≤ 300) ∨
          (u.length = 150 ∧ u.height = 50) ∨
          (u.length = 100 ∧ (u.height = 60 ∨ u.height = 90)) := by
        intro u hu
        rcases mem_chargeStep_waves inp (tickInc g) u h1 hu with hu | ⟨k, hk, hu⟩
        · exact hw u hu
        · left
          rw [hu]
          exact ⟨rfl, f64_nonneg _, f64_le _ hk⟩
      unfold waveEnter at hv
      split_ifs at hv
      · dsimp only at hv
        rcases List.mem_append.mp hv with hv | hv
        · exact hc v hv
        · right
          left
          rw [List.mem_singleton.mp hv]
          exact ⟨rfl, rfl⟩
      · exact hc v hv
    | gameModeGameOver =>
      rw [Update_gameOver m inp g hmode, gameOverTick]
      split_ifs
      · intro w hmem
        simp only [initGame, titleWaves, List.mem_cons, List.mem_singleton, List.not_mem_nil,
          or_false] at hmem
        rcases hmem with rfl | rfl | rfl <;> simp
      · exact hw
  exact key g.mode rfl

theorem Reachable_waves_kinds (m : MathOps K) (g : Game K) (hg : Reachable m g) :
    ∀ w ∈ g.waves, (w.length = 200 ∧ 0 ≤ w.height ∧ w.height ≤ 300) ∨
      (w.length = 150 ∧ w.height = 50) ∨ (w.length = 100 ∧ (w.height = 60 ∨ w.height = 90)) := by
  induction hg with
  | init =>
    intro w hmem
    simp only [initGame, titleWaves, List.mem_cons, List.mem_singleton, List.not_mem_nil,
      or_false] at hmem
    rcases hmem with rfl | rfl | rfl <;> simp
  | step inp g hr ih =>
    exact Update_waves_kinds m inp g (Reachable_nextWaveHeight_le m g hr) ih

theorem kinds_height_nonneg (w : wave K)
    (h : (w.length = 200 ∧ 0 ≤ w.height ∧ w.height ≤ 300) ∨
      (w.length = 150 ∧ w.height = 50) ∨ (w.length = 100 ∧ (w.height = 60 ∨ w.height = 90))) :
    0 ≤ w.height ∧ 0 < w.length := by
  rcases h with ⟨h1, h2, -⟩ | ⟨h1, h2⟩ | ⟨h1, h2 | h2⟩ <;> rw [h1] <;>
    first
    | exact ⟨h2, by norm_num⟩
    | (rw [h2]; constructor <;> norm_num)

/-- C19. The surface height is non-negative at every `x` whenever every pulse
has amplitude `>= 0` and width `> 0` (given `0 <= pi` and `0 <= sin t` on
`[0, pi]`); every pulse of every reachable state is a player pulse (width 200,
amplitude in `[0, 300]`), an ambient pulse (50 / 150) or a title pulse (60 or
90 / 100), so it has amplitude `>= 0` and width `> 0`; hence the player height
is `>= 0` in every reachable state. -/
theorem surface_nonneg (m : MathOps K) (hpi : 0 ≤ m.pi)
    (hsin : ∀ t : K, 0 ≤ t → t ≤ m.pi → 0 ≤ m.sin t) :
    (∀ (ws : List (wave K)) (x : K), (∀ w ∈ ws, 0 ≤ w.height ∧ 0 < w.length) →
      0 ≤ calcSurfaceHeight m ws x) ∧
    (∀ g : Game K, Reachable m g →
      (∀ w ∈ g.waves, (w.length = 200 ∧ 0 ≤ w.height ∧ w.height ≤ 300) ∨
        (w.length = 150 ∧ w.height = 50) ∨
        (w.length = 100 ∧ (w.height = 60 ∨ w.height = 90))) ∧
      (∀ w ∈ g.waves, 0 ≤ w.height ∧ 0 < w.length) ∧
      0 ≤ g.humanHeight) := by
  refine ⟨fun ws x h => calcSurfaceHeight_nonneg m hpi hsin ws x (fun w hw => (h w hw).1), ?_⟩
  intro g hg
  refine ⟨Reachable_waves_kinds m g hg,
    fun w hw => kinds_height_nonneg w (Reachable_waves_kinds m g hg w hw), ?_⟩
  induction hg with
  | init =>
    show 0 ≤ calcSurfaceHeight m titleWaves screenCenterX
    apply calcSurfaceHeight_nonneg m hpi hsin
    intro w hmem
    simp only [titleWaves, List.mem_cons, List.mem_singleton, List.not_mem_nil,
      or_false] at hmem
    rcases hmem with rfl | rfl | rfl <;> norm_num
  | step inp g hr ih =>
    have key : ∀ md : gameMode, g.mode = md → 0 ≤ (Update m inp g).humanHeight := by
      intro md hmode
      cases md with
      | gameModeTitle =>
        rw [Update_title m inp g hmode, titleTick]
        split_ifs
        · exact le_of_eq rfl
        · exact ih
      | gameModePlaying =>
        rw [Update_playing_humanHeight m inp g hmode]
        apply calcSurfaceHeight_nonneg m hpi hsin
        intro w hw
        exact (kinds_height_nonneg w
          (Reachable_waves_kinds m _ (Reachable.step inp g hr) w hw)).1
      | gameModeGameOver =>
        rw [Update_gameOver m inp g hmode, gameOverTick]
        split_ifs
        · show 0 ≤ calcSurfaceHeight m titleWaves screenCenterX
          apply calcSurfaceHeight_nonneg m hpi hsin
          intro w hmem
          simp only [titleWaves, List.mem_cons, List.mem_singleton, List.not_mem_nil,
            or_false] at hmem
          rcases hmem with rfl | rfl | rfl <;> norm_num
        · exact ih
    exact key g.mode rfl

/-- C19 with the real functions, on the session that `main` starts with. -/
theorem surface_nonneg_witness :
    0 ≤ realMath.pi ∧
    (∀ t : ℝ, 0 ≤ t → t ≤ realMath.pi → 0 ≤ realMath.sin t) ∧
    0 ≤ (initGame realMath (newGame : Game ℝ)).humanHeight :=
  ⟨Real.pi_pos.le, fun _ h0 h1 => Real.sin_nonneg_of_nonneg_of_le_pi h0 h1,
    ((surface_nonneg realMath Real.pi_pos.le
      (fun _ h0 h1 => Real.sin_nonneg_of_nonneg_of_le_pi h0 h1)).2 _ Reachable.init).2.2⟩

end Invariants

section Coins

variable {K : Type} [LinearOrderedField K]

theorem validDraws_quiet : validDraws (quietInput : TickInput K) := by
  refine ⟨⟨le_refl _, ?_⟩, fun _ => ⟨le_refl _, ?_⟩⟩ <;> exact zero_lt_one

theorem validDraws_press : validDraws (pressInput : TickInput K) := validDraws_quiet

theorem startGame_eq (m : MathOps K) :
    (startGame m : Game K).mode = gameMode.gameModePlaying ∧
    (startGame m : Game K).ticksFromModeStart = 0 ∧
    (startGame m : Game K).sharks = [] ∧
    (startGame m : Game K).waves = [] ∧
    (startGame m : Game K).coins = [] ∧
    (startGame m : Game K).hold = false ∧
    (startGame m : Game K).nextWaveHeight = 0 := by
  have h : (startGame m : Game K) = titleTick pressInput (tickInc (initGame m newGame)) :=
    Update_title m pressInput (initGame m newGame) rfl
  rw [h]
  simp [titleTick, pressInput, initGame, tickInc]

theorem Update_coins_inv (m : MathOps K) (inp : TickInput K) (g : Game K)
    (hv : validDraws inp)
    (hc : ∀ c ∈ g.coins, 50 ≤ c.y ∧ c.y < 170 ∧ c.r = 15) :
    (g.mode = gameMode.gameModePlaying →
      ∀ c ∈ (beforeCollisions m inp (tickInc g)).coins, 50 ≤ c.y ∧ c.y < 170 ∧ c.r = 15) ∧
    ∀ c ∈ (Update m inp g).coins, 50 ≤ c.y ∧ c.y < 170 ∧ c.r = 15 := by
  have hbefore : ∀ c ∈ (beforeCollisions m inp (tickInc g)).coins,
      50 ≤ c.y ∧ c.y < 170 ∧ c.r = 15 := by
    intro c hmem
    simp only [beforeCollisions_frame, spawnAndMove, sharkMove_frame, coinMove,
      coinMoveLoop_eq, List.nil_append, waveMove_frame, sharkEnter_frame] at hmem
    rw [List.mem_filter, List.mem_map] at hmem
    obtain ⟨⟨v, hv2, rfl⟩, -⟩ := hmem
    show 50 ≤ v.y ∧ v.y < 170 ∧ v.r = 15
    unfold coinEnter at hv2
    dsimp only at hv2
    have hold : ∀ u ∈ (waveEnter (chargeStep inp (tickInc g))).coins,
        50 ≤ u.y ∧ u.y < 170 ∧ u.r = 15 := by
      intro u hu
      simp only [waveEnter_frame, chargeStep_frame, tickInc_frame] at hu
      exact hc u hu
    by_cases ht : (waveEnter (chargeStep inp (tickInc g))).ticksFromModeStart % 180 = 0
    · rw [if_pos ht] at hv2
      dsimp only at hv2
      rcases List.mem_append.mp hv2 with h | h
      · exact hold v h
      · rw [List.mem_singleton.mp h]
        have h0 := hv.1.1
        have h1 := hv.1.2
        dsimp only
        refine ⟨?_, ?_, ?_⟩
        · norm_num [surfaceBaseHeight, screenHeight]
          linarith
        · norm_num [surfaceBaseHeight, screenHeight]
          linarith
        · norm_num [coinR]
    · rw [if_neg ht] at hv2
      exact hold v hv2
  refine ⟨fun _ => hbefore, ?_⟩
  have key : ∀ md : gameMode, g.mode = md →
      ∀ c ∈ (Update m inp g).coins, 50 ≤ c.y ∧ c.y < 170 ∧ c.r = 15 := by
    intro md hmode
    cases md with
    | gameModeTitle =>
      rw [Update_title m inp g hmode, titleTick]
      split_ifs <;> exact hc
    | gameModePlaying =>
      rw [Update_playing m inp g hmode]
      intro c hmem
      simp only [playingTick, sharkCollision_frame] at hmem
      rw [coinCollision, coinCollisionLoop_eq] at hmem
      simp only [List.nil_append] at hmem
      exact hbefore c (List.mem_filter.mp hmem).1
    | gameModeGameOver =>
      rw [Update_gameOver m inp g hmode, gameOverTick]
      split_ifs
      · intro c hmem
        simp [initGame] at hmem
      · exact hc
  exact key g.mode rfl

theorem ReachableValid_coins (m : MathOps K) (g : Game K) (hg : ReachableValid m g) :
    ∀ c ∈ g.coins, 50 ≤ c.y ∧ c.y < 170 ∧ c.r = 15 := by
  induction hg with
  | init =>
    intro c hmem
    simp [initGame] at hmem
  | step inp g hv _ ih => exact (Update_coins_inv m inp g hv ih).2

theorem hit_height_bounds (h : K) (c : coin K) (hy0 : 50 ≤ c.y) (hy1 : c.y ≤ 170)
    (hr : c.r = 15)
    (hhit : (c.x - screenCenterX) ^ 2 + (c.y - (surfaceBaseHeight - h)) ^ 2
      < (c.r + humanR) ^ 2) : 125 < h ∧ h < 295 := by
  rw [hr] at hhit
  have hb : (surfaceBaseHeight : K) = 320 := by norm_num [surfaceBaseHeight, screenHeight]
  have hR : ((15 : K) + humanR) ^ 2 = 25 ^ 2 := by norm_num [humanR]
  rw [hb, hR] at hhit
  have h1 : (c.y - (320 - h)) ^ 2 < 25 ^ 2 := by
    have := sq_nonneg (c.x - screenCenterX)
    linarith
  have h2 := abs_lt_of_sq_lt_sq h1 (by norm_num)
  rw [abs_lt] at h2
  constructor <;> linarith [h2.1, h2.2]

/-- C18. In a Playing tick from a reachable state, with random draws in
`[0, 1)`, every live coin has `50 <= y <= 170` and radius 15 (it was created by
the coin timer with `y = 120 * u + 50`, and the coin move does not change `y`;
the upper bound is not strict because the `float64` product `120 * u` can
round up to 120), so a coin can be collected only when
`125 < humanHeight < 295`; consequently a collected coin never earns the 4
points of the tier above 300: it adds 1, 2 or 3 to the score. -/
theorem coin_collect_height (m : MathOps K) (inp : TickInput K) (g : Game K)
    (hr : ReachableValid m g) (hv : validDraws inp)
    (hg : g.mode = gameMode.gameModePlaying) :
    (∀ c ∈ (beforeCollisions m inp (tickInc g)).coins, 50 ≤ c.y ∧ c.y ≤ 170 ∧ c.r = 15) ∧
    (∀ c ∈ (beforeCollisions m inp (tickInc g)).coins,
      (c.x - screenCenterX) ^ 2
          + (c.y - (surfaceBaseHeight - (Update m inp g).humanHeight)) ^ 2
        < (c.r + humanR) ^ 2 →
      (125 < (Update m inp g).humanHeight ∧ (Update m inp g).humanHeight < 295) ∧
      coinPlus (Update m inp g).humanHeight ≠ 4 ∧
      (coinPlus (Update m inp g).humanHeight = 1 ∨
        coinPlus (Update m inp g).humanHeight = 2 ∨
        coinPlus (Update m inp g).humanHeight = 3)) := by
  have hinv : ∀ c ∈ (beforeCollisions m inp (tickInc g)).coins,
      50 ≤ c.y ∧ c.y ≤ 170 ∧ c.r = 15 := by
    intro c hc
    have h := (Update_coins_inv m inp g hv (ReachableValid_coins m g hr)).1 hg c hc
    exact ⟨h.1, le_of_lt h.2.1, h.2.2⟩
  refine ⟨hinv, ?_⟩
  intro c hc hhit
  obtain ⟨hy0, hy1, hrad⟩ := hinv c hc
  have hb := hit_height_bounds _ c hy0 hy1 hrad hhit
  have h300 : ¬ (Update m inp g).humanHeight > 300 := by
    intro h
    linarith [hb.2]
  refine ⟨hb, ?_, ?_⟩
  · unfold coinPlus
    rw [if_neg h300]
    split_ifs <;> decide
  · unfold coinPlus
    rw [if_neg h300]
    split_ifs
    · exact Or.inr (Or.inr rfl)
    · exact Or.inr (Or.inl rfl)
    · exact Or.inl rfl

end Coins

section ChargeHold

variable {K : Type} [LinearOrderedField K]

theorem chargeStep_hold_of_charge (inp : TickInput K) (g : Game K)
    (hinv : g.nextWaveHeight ≠ 0 → g.hold = true)
    (hne : (chargeStep inp g).nextWaveHeight ≠ 0) : (chargeStep inp g).hold = true := by
  simp only [chargeStep, chargeRelease, chargeTouch, chargeHold] at hne ⊢
  split_ifs at hne ⊢ <;> simp_all

theorem Update_charge_hold (m : MathOps K) (inp : TickInput K) (g : Game K)
    (hinv : g.nextWaveHeight ≠ 0 →
      g.hold = true ∧ g.mode ≠ gameMode.gameModeTitle)
    (hne : (Update m inp g).nextWaveHeight ≠ 0) :
    (Update m inp g).hold = true ∧ (Update m inp g).mode ≠ gameMode.gameModeTitle := by
  have key : ∀ md : gameMode, g.mode = md →
      (Update m inp g).hold = true ∧ (Update m inp g).mode ≠ gameMode.gameModeTitle := by
    intro md hmode
    cases md with
    | gameModeTitle =>
      have h0 : g.nextWaveHeight = 0 := by
        by_contra h
        exact (hinv h).2 hmode
      exfalso
      apply hne
      rw [Update_title m inp g hmode, titleTick]
      split_ifs <;> simpa using h0
    | gameModePlaying =>
      constructor
      · rw [Update_playing m inp g hmode] at hne ⊢
        simp only [playingTick_frame] at hne ⊢
        apply chargeStep_hold_of_charge inp (tickInc g) _ hne
        intro h
        exact (hinv (by simpa using h)).1
      · rw [Update_playing_mode m inp g hmode]
        split_ifs <;> decide
    | gameModeGameOver =>
      rw [Update_gameOver m inp g hmode, gameOverTick] at hne ⊢
      split_ifs at hne ⊢ with h
      · exfalso
        apply hne
        simp [initGame]
      · have h1 := hinv (by simpa using hne)
        exact ⟨by simpa using h1.1, by simpa using h1.2⟩
  exact key g.mode rfl

/-- C11, as amended. In every state reachable from `Game.initialize` by any
sequence of `Update` calls, if the charge height `nextWaveHeight` is nonzero
then the hold flag is true and the mode is Playing or GameOver: a charge held
when a shark ends the game stays frozen in GameOver until re-initialize. -/
theorem charge_implies_hold (m : MathOps K) (g : Game K) (hg : Reachable m g)
    (hne : g.nextWaveHeight ≠ 0) :
    g.hold = true ∧
    (g.mode = gameMode.gameModePlaying ∨ g.mode = gameMode.gameModeGameOver) := by
  have hinv : g.nextWaveHeight ≠ 0 → g.hold = true ∧ g.mode ≠ gameMode.gameModeTitle := by
    clear hne
    induction hg with
    | init =>
      intro h
      exact absurd rfl h
    | step inp g _ ih => exact Update_charge_hold m inp g ih
  obtain ⟨h1, h2⟩ := hinv hne
  refine ⟨h1, ?_⟩
  cases hm : g.mode with
  | gameModeTitle => exact absurd hm h2
  | gameModePlaying => exact Or.inl rfl
  | gameModeGameOver => exact Or.inr rfl

end ChargeHold

section HeldCharge

/-! ## A charge held until a shark bites -/

theorem screenCenterX_eq {K : Type} [LinearOrderedField K] : (screenCenterX : K) = 320 := by
  norm_num [screenCenterX, screenWidth]

theorem surfaceBaseHeight_eq {K : Type} [LinearOrderedField K] :
    (surfaceBaseHeight : K) = 320 := by
  norm_num [surfaceBaseHeight, screenHeight]

theorem attackLine_bounds (d : ℝ) (hd0 : 0 < d) (hd2 : d ^ 2 = 89729 / 4) :
    149 < d ∧ d < 150 := by
  constructor <;> nlinarith

theorem attackLine_d2 (d mu : ℝ) (hd2 : d ^ 2 = 89729 / 4) (s : shark ℝ)
    (hs : onAttackLine mu s) : sharkD2 s = (mu * d) ^ 2 := by
  obtain ⟨-, -, hx, hy⟩ := hs
  unfold sharkD2
  have h : (mu * d) ^ 2 = mu ^ 2 * (89729 / 4) := by rw [mul_pow, hd2]
  rw [screenCenterX_eq, surfaceBaseHeight_eq, hx, hy, h]
  ring

/-- The heading of an attacking shark on the attack line, with the real
functions. -/
theorem attackLine_heading (d mu : ℝ) (hd0 : 0 < d) (hd2 : d ^ 2 = 89729 / 4)
    (hmu : 0 < mu) :
    realMath.cos (realMath.atan2 (mu * (-100)) (mu * (223 / 2))) = 223 / 2 / d ∧
    realMath.sin (realMath.atan2 (mu * (-100)) (mu * (223 / 2))) = -100 / d := by
  have habs : Complex.abs (⟨mu * (223 / 2), mu * (-100)⟩ : ℂ) = mu * d := by
    rw [Complex.abs_apply, Complex.normSq_mk]
    have h : mu * (223 / 2) * (mu * (223 / 2)) + mu * (-100) * (mu * (-100))
        = (mu * d) ^ 2 := by
      rw [mul_pow, hd2]
      ring
    rw [h]
    exact Real.sqrt_sq (le_of_lt (mul_pos hmu hd0))
  have hne : (⟨mu * (223 / 2), mu * (-100)⟩ : ℂ) ≠ 0 := by
    intro h
    have := congrArg Complex.re h
    simp at this
    linarith
  constructor
  · show Real.cos (Complex.arg ⟨mu * (223 / 2), mu * (-100)⟩) = _
    rw [Complex.cos_arg hne, habs]
    show mu * (223 / 2) / (mu * d) = _
    field_simp
    ring
  · show Real.sin (Complex.arg ⟨mu * (223 / 2), mu * (-100)⟩) = _
    rw [Complex.sin_arg, habs]
    show mu * (-100) / (mu * d) = _
    field_simp
    ring

/-- One tick of a shark on the attack line, at least 10 from its end: it
attacks and comes `1.25` nearer. -/
theorem sharkStep_attackLine (d mu : ℝ) (hd0 : 0 < d) (hd2 : d ^ 2 = 89729 / 4)
    (s : shark ℝ) (hs : onAttackLine mu s) (h10 : 10 ≤ mu * d) (h1 : mu ≤ 1) :
    onAttackLine (mu - 5 / 4 / d) (sharkStep realMath s) := by
  have hmu : 0 < mu := by
    by_contra h
    have : mu * d ≤ 0 := mul_nonpos_of_nonpos_of_nonneg (not_lt.mp h) (le_of_lt hd0)
    linarith
  have hD := attackLine_d2 d mu hd2 s hs
  obtain ⟨hr, hvx, hx, hy⟩ := hs
  have hlt : sharkD2 s < 150 ^ 2 := by
    rw [hD]
    have : mu * d ≤ d := by nlinarith
    have h0 : 0 ≤ mu * d := le_of_lt (mul_pos hmu hd0)
    nlinarith
  have hxc : s.x < screenCenterX := by
    rw [screenCenterX_eq]
    nlinarith
  have htrig : sharkTrigger s = { s with attacking := true } := by
    unfold sharkTrigger
    rw [if_pos hlt, if_pos (Or.inl ⟨hvx, hxc⟩)]
  have hreset : sharkReset (sharkD2 s) { s with attacking := true }
      = { s with attacking := true } := by
    unfold sharkReset
    dsimp only
    rw [if_neg]
    rw [hD, hr]
    have h0 : 0 ≤ mu * d := le_of_lt (mul_pos hmu hd0)
    intro hc
    nlinarith
  have hhead := attackLine_heading d mu hd0 hd2 hmu
  have hstep : sharkStep realMath s
      = { s with
          attacking := true
          vx := sharkSpeed * (5 / 2) * (223 / 2 / d)
          vy := sharkSpeed * (5 / 2) * (-100 / d)
          x := s.x + sharkSpeed * (5 / 2) * (223 / 2 / d)
          y := s.y + sharkSpeed * (5 / 2) * (-100 / d) } := by
    unfold sharkStep
    rw [htrig, hreset]
    unfold sharkAim
    dsimp only
    rw [if_pos rfl, surfaceBaseHeight_eq, screenCenterX_eq, hx, hy, hhead.1, hhead.2]
    rfl
  rw [hstep]
  refine ⟨hr, ?_, ?_, ?_⟩
  · show 0 < sharkSpeed * (5 / 2) * (223 / 2 / d)
    unfold sharkSpeed
    positivity
  · show 320 - (s.x + sharkSpeed * (5 / 2) * (223 / 2 / d)) = _
    unfold sharkSpeed
    linear_combination hx
  · show 320 - (s.y + sharkSpeed * (5 / 2) * (-100 / d)) = _
    unfold sharkSpeed
    linear_combination hy

/-- One tick of a cruising shark at depth 420 that is not yet within 150 of
the baseline point. -/
theorem sharkStep_cruise {K : Type} [LinearOrderedField K] (m : MathOps K) (x : K)
    (hx : 12500 ≤ (320 - x) ^ 2) :
    sharkStep m { x := x, y := 420, vx := 1 / 2, vy := 0, r := 10, attacking := false }
      = { x := x + 1 / 2, y := 420, vx := 1 / 2, vy := 0, r := 10, attacking := false } := by
  have hD : sharkD2 (⟨x, 420, 1 / 2, 0, 10, false⟩ : shark K) = (320 - x) ^ 2 + 10000 := by
    unfold sharkD2
    rw [screenCenterX_eq, surfaceBaseHeight_eq]
    norm_num
  have h1 : ¬ ((320 - x) ^ 2 + 10000 < (150 : K) ^ 2) := by
    intro h
    norm_num at h
    linarith
  have h2 : ¬ ((320 - x) ^ 2 + 10000 < (10 : K) ^ 2) := by
    intro h
    norm_num at h
    linarith
  unfold sharkStep sharkTrigger
  rw [hD, if_neg h1]
  unfold sharkReset
  dsimp only
  rw [if_neg h2]
  simp [sharkAim, sharkAdvance]

theorem Update_playing_sharks {K : Type} [LinearOrderedField K] (m : MathOps K)
    (inp : TickInput K) (g : Game K) (hg : g.mode = gameMode.gameModePlaying) :
    (Update m inp g).sharks = ((sharkEnter inp (tickInc g)).sharks.map (sharkStep m)).filter
      (fun s => decide (s.x > -100 ∧ s.x < screenWidth + 100)) := by
  rw [Update_playing m inp g hg]
  simp only [playingTick_frame, spawnAndMove_sharks, sharkMoveLoop_eq, List.nil_append]
  rw [sharkEnter_sharks_congr inp (chargeStep inp (tickInc g)) (tickInc g) (by simp) (by simp)]

theorem mem_Update_sharks {K : Type} [LinearOrderedField K] (m : MathOps K)
    (inp : TickInput K) (g : Game K) (hg : g.mode = gameMode.gameModePlaying) (s : shark K)
    (hs : s ∈ (sharkEnter inp (tickInc g)).sharks)
    (h1 : -100 < (sharkStep m s).x) (h2 : (sharkStep m s).x < 740) :
    sharkStep m s ∈ (Update m inp g).sharks := by
  rw [Update_playing_sharks m inp g hg, List.mem_filter, decide_eq_true_eq]
  refine ⟨List.mem_map.mpr ⟨s, hs, rfl⟩, h1, ?_⟩
  have : (screenWidth : K) + 100 = 740 := by norm_num [screenWidth]
  rw [this]
  exact h2

theorem mem_sharkEnter {K : Type} [LinearOrderedField K] (inp : TickInput K) (g : Game K)
    (s : shark K) (hs : s ∈ g.sharks) : s ∈ (sharkEnter inp g).sharks := by
  unfold sharkEnter
  dsimp only
  by_cases ht : g.ticksFromModeStart % 630 = 0
  · rw [if_pos ht]
    exact List.mem_append_left _ hs
  · rw [if_neg ht]
    exact hs

theorem new_mem_sharkEnter {K : Type} [LinearOrderedField K] (g : Game K)
    (ht : g.ticksFromModeStart % 630 = 0) :
    (⟨-50, 420, 1 / 2, 0, 10, false⟩ : shark K) ∈ (sharkEnter quietInput g).sharks := by
  unfold sharkEnter
  dsimp only
  rw [if_pos ht]
  apply List.mem_append_right
  rw [List.mem_singleton]
  norm_num [quietInput, surfaceBaseHeight, screenHeight, sharkSpeed, sharkR]

theorem Update_playing_ticks {K : Type} [LinearOrderedField K] (m : MathOps K)
    (inp : TickInput K) (g : Game K) (hg : g.mode = gameMode.gameModePlaying)
    (hm : (Update m inp g).mode = gameMode.gameModePlaying) :
    (Update m inp g).ticksFromModeStart = (g.ticksFromModeStart + 1) % 2 ^ 64 := by
  have hU : Update m inp g = sharkCollisionLoop
      (coinCollision (beforeCollisions m inp (tickInc g))).sharks
      (coinCollision (beforeCollisions m inp (tickInc g))) := by
    rw [Update_playing m inp g hg]
    rfl
  rw [sharkCollisionLoop_eq] at hU
  by_cases h : ∃ s ∈ (coinCollision (beforeCollisions m inp (tickInc g))).sharks,
      sharkHit (coinCollision (beforeCollisions m inp (tickInc g))).humanHeight s
  · rw [if_pos h] at hU
    rw [hU] at hm
    exact absurd hm (by simp)
  · rw [if_neg h] at hU
    rw [hU]
    simp [tickInc]

theorem Update_hold_quiet {K : Type} [LinearOrderedField K] (m : MathOps K) (g : Game K)
    (hg : g.mode = gameMode.gameModePlaying) (hh : g.hold = true) :
    (Update m quietInput g).hold = true ∧ 0 < (Update m quietInput g).nextWaveHeight := by
  rw [Update_playing m quietInput g hg]
  simp only [playingTick_frame]
  have h1 : (tickInc g).hold = true := by simp [hh]
  have h2 := chargeHold_height (tickInc g) h1
  simp only [tickInc_frame] at h2
  constructor
  · simp [chargeStep, chargeRelease, chargeTouch, quietInput, hh]
  · have h3 : (chargeStep quietInput (tickInc g)).nextWaveHeight
        = (chargeHold (tickInc g)).nextWaveHeight := by
      simp [chargeStep, chargeRelease, chargeTouch, quietInput]
    rw [h3, h2]
    exact chargeAdd_pos _

theorem ambientInv_step {K : Type} [LinearOrderedField K] (m : MathOps K) (n : Nat)
    (g : Game K) (hg : g.mode = gameMode.gameModePlaying) (ht : g.ticksFromModeStart = n)
    (hn : n + 1 < 2 ^ 64) (hw : ambientInv n g.waves) :
    ambientInv (n + 1) (Update m quietInput g).waves := by
  intro w hmem
  rw [Update_playing_waves m quietInput g hg, List.mem_filter, List.mem_map] at hmem
  obtain ⟨⟨v, hv, rfl⟩, -⟩ := hmem
  have hticks : (chargeStep quietInput (tickInc g)).ticksFromModeStart = n + 1 := by
    simp only [chargeStep_frame, tickInc, ht]
    exact Nat.mod_eq_of_lt hn
  have hcw : (chargeStep quietInput (tickInc g)).waves = g.waves := by
    rw [chargeStep_waves_of_quiet quietInput (tickInc g) rfl]
    simp
  unfold waveEnter at hv
  rw [hticks] at hv
  have hold : ∀ u ∈ g.waves, (waveAdvance u).vx = -2 ∧ (waveAdvance u).length = 150 ∧
      (waveAdvance u).height = 50 ∧
      ∃ k : Int, (waveAdvance u).x = 713 + 360 * (k : K) - 2 * ((n + 1 : Nat) : K) := by
    intro u hu
    obtain ⟨h1, h2, h3, k, hk⟩ := hw u hu
    refine ⟨h1, h2, h3, k, ?_⟩
    show u.x + u.vx = _
    rw [hk, h1]
    push_cast
    ring
  by_cases h180 : (n + 1) % 180 = 0
  · rw [if_pos h180] at hv
    dsimp only at hv
    rw [hcw] at hv
    rcases List.mem_append.mp hv with hv | hv
    · exact hold v hv
    · rw [List.mem_singleton.mp hv]
      refine ⟨by norm_num [waveAdvance, waveSpeed], rfl, rfl, ((n + 1) / 180 : Nat), ?_⟩
      have hdiv : 180 * ((n + 1) / 180) = n + 1 := Nat.mul_div_cancel' (Nat.dvd_of_mod_eq_zero h180)
      have hcast : (180 : K) * (((n + 1) / 180 : Nat) : K) = ((n + 1 : Nat) : K) := by
        exact_mod_cast congrArg (Nat.cast : Nat → K) hdiv
      show screenWidth + 75 + -waveSpeed = _
      rw [Int.cast_natCast, ← hcast]
      norm_num [screenWidth, waveSpeed]
      ring
  · rw [if_neg h180, hcw] at hv
    exact hold v hv

theorem huntInv_step (d : ℝ) (hd0 : 0 < d) (hd2 : d ^ 2 = 89729 / 4) (n : Nat) (g : Game ℝ)
    (hg : g.mode = gameMode.gameModePlaying) (ht : g.ticksFromModeStart = n)
    (hn : n ≤ 1879) (hs : huntInv d n g.sharks) :
    huntInv d (n + 1) (Update realMath quietInput g).sharks := by
  have hb := attackLine_bounds d hd0 hd2
  have hticks : (tickInc g).ticksFromModeStart = n + 1 := by
    simp only [tickInc, ht]
    exact Nat.mod_eq_of_lt (by omega)
  constructor
  · intro h1 h2
    have hcast : ((n + 1 : Nat) : ℝ) = (n : ℝ) + 1 := by push_cast; ring
    rcases Nat.eq_or_lt_of_le h1 with h | h
    · have hn0 : n = 1259 := by omega
      have hnew := new_mem_sharkEnter (tickInc g) (by rw [hticks]; omega)
      have hstep := sharkStep_cruise realMath (-50 : ℝ) (by norm_num)
      have hmem := mem_Update_sharks realMath quietInput g hg
        ⟨-50, 420, 1 / 2, 0, 10, false⟩ hnew
        (by rw [hstep]; norm_num) (by rw [hstep]; norm_num)
      rw [hstep] at hmem
      have hx : (-50 : ℝ) + ((n + 1 : Nat) - 1259) / 2 = -50 + 1 / 2 := by
        rw [hn0]
        norm_num
      rw [hx]
      exact hmem
    · have hlo : 1260 ≤ n := by omega
      have hhi : n ≤ 1775 := by omega
      have hin := hs.1 hlo (by omega)
      have hnr : (1260 : ℝ) ≤ n := by exact_mod_cast hlo
      have hnr2 : (n : ℝ) ≤ 1775 := by exact_mod_cast hhi
      have h112 : (112 : ℝ) ≤ 320 - (-50 + ((n : ℝ) - 1259) / 2) := by linarith
      have hsq : (12500 : ℝ) ≤ (320 - (-50 + ((n : ℝ) - 1259) / 2)) ^ 2 := by
        have := pow_le_pow_left₀ (by norm_num : (0 : ℝ) ≤ 112) h112 2
        linarith
      have hstep := sharkStep_cruise realMath (-50 + ((n : ℝ) - 1259) / 2) hsq
      have hmem := mem_Update_sharks realMath quietInput g hg
        ⟨-50 + ((n : ℝ) - 1259) / 2, 420, 1 / 2, 0, 10, false⟩
        (mem_sharkEnter quietInput (tickInc g) _ hin)
        (by rw [hstep]; show -100 < -50 + ((n : ℝ) - 1259) / 2 + 1 / 2; linarith)
        (by rw [hstep]; show -50 + ((n : ℝ) - 1259) / 2 + 1 / 2 < 740; linarith)
      rw [hstep] at hmem
      have hx : (-50 : ℝ) + ((n + 1 : Nat) - 1259) / 2 = -50 + ((n : ℝ) - 1259) / 2 + 1 / 2 := by
        rw [hcast]
        ring
      rw [hx]
      exact hmem
  · intro h1 h2
    have hlo : 1776 ≤ n := by omega
    have hnr : (1776 : ℝ) ≤ n := by exact_mod_cast hlo
    have hnr2 : (n : ℝ) ≤ 1879 := by exact_mod_cast hn
    have hline : ∃ s ∈ g.sharks, onAttackLine (1 - 5 / 4 * ((n : ℝ) - 1776) / d) s := by
      rcases Nat.eq_or_lt_of_le hlo with h | h
      · have hin := hs.1 (by omega) (by omega)
        refine ⟨_, hin, rfl, by norm_num, ?_, ?_⟩
        · show (320 : ℝ) - (-50 + ((n : ℝ) - 1259) / 2) = _
          rw [← h]
          norm_num
        · show (320 : ℝ) - 420 = _
          rw [← h]
          norm_num
      · exact hs.2 (by omega) (by omega)
    obtain ⟨s, hin, hline⟩ := hline
    have hmud : (1 - 5 / 4 * ((n : ℝ) - 1776) / d) * d = d - 5 / 4 * ((n : ℝ) - 1776) := by
      field_simp
      ring
    have hmu1 : 1 - 5 / 4 * ((n : ℝ) - 1776) / d ≤ 1 := by
      have : 0 ≤ 5 / 4 * ((n : ℝ) - 1776) / d := by
        apply div_nonneg _ (le_of_lt hd0)
        linarith
      linarith
    have hnext := sharkStep_attackLine d _ hd0 hd2 s hline
      (by rw [hmud]; linarith [hb.1]) hmu1
    have hmu : 1 - 5 / 4 * ((n : ℝ) - 1776) / d - 5 / 4 / d
        = 1 - 5 / 4 * (((n + 1 : Nat) : ℝ) - 1776) / d := by
      push_cast
      field_simp
      ring
    rw [hmu] at hnext
    have hmud2 : (1 - 5 / 4 * (((n + 1 : Nat) : ℝ) - 1776) / d) * d
        = d - 5 / 4 * ((n : ℝ) + 1 - 1776) := by
      push_cast
      field_simp
      ring
    have hpos : 0 < 1 - 5 / 4 * (((n + 1 : Nat) : ℝ) - 1776) / d := by
      have : 0 < (1 - 5 / 4 * (((n + 1 : Nat) : ℝ) - 1776) / d) * d := by
        rw [hmud2]
        linarith [hb.1]
      exact (mul_pos_iff_of_pos_right hd0).mp this
    have hle : 1 - 5 / 4 * (((n + 1 : Nat) : ℝ) - 1776) / d ≤ 1 := by
      have : 0 ≤ 5 / 4 * (((n + 1 : Nat) : ℝ) - 1776) / d := by
        apply div_nonneg _ (le_of_lt hd0)
        push_cast
        linarith
      linarith
    have hx := hnext.2.2.1
    refine ⟨sharkStep realMath s, ?_, hnext⟩
    apply mem_Update_sharks realMath quietInput g hg s
      (mem_sharkEnter quietInput (tickInc g) s hin)
    · have := mul_pos hpos (by norm_num : (0 : ℝ) < 223 / 2)
      linarith
    · have := mul_le_mul_of_nonneg_right hle (by norm_num : (0 : ℝ) ≤ 223 / 2)
      linarith

theorem Update_gameOver_quiet {K : Type} [LinearOrderedField K] (m : MathOps K) (g : Game K)
    (hg : g.mode = gameMode.gameModeGameOver) :
    (Update m quietInput g).mode = gameMode.gameModeGameOver ∧
    (Update m quietInput g).nextWaveHeight = g.nextWaveHeight := by
  have hno : ¬ ((g.ticksFromModeStart + 1) % 2 ^ 64 > 15
      ∧ (quietInput : TickInput K).justTouched = true) := by
    simp [quietInput]
  rw [(Update_gameOver_cases m quietInput g hg).2 hno]
  exact ⟨by simpa using hg, by simp⟩

theorem holdInv_step (d : ℝ) (hd0 : 0 < d) (hd2 : d ^ 2 = 89729 / 4) (n : Nat) (g : Game ℝ)
    (hn : n + 1 ≤ 1879) (h : holdInv d n g) :
    holdInv d (n + 1) (Update realMath quietInput g) := by
  rcases h with ⟨hm, hc⟩ | ⟨hm, ht, hh, h0, -, hw, hs⟩
  · left
    have := Update_gameOver_quiet realMath g hm
    exact ⟨this.1, by rw [this.2]; exact hc⟩
  · have hq := Update_hold_quiet realMath g hm hh
    have hmode := Update_playing_mode realMath quietInput g hm
    by_cases hit : ∃ s ∈ (Update realMath quietInput g).sharks,
        sharkHit (Update realMath quietInput g).humanHeight s
    · left
      rw [if_pos hit] at hmode
      exact ⟨hmode, hq.2⟩
    · right
      rw [if_neg hit] at hmode
      have hticks := Update_playing_ticks realMath quietInput g hm hmode
      rw [ht, Nat.mod_eq_of_lt (by omega)] at hticks
      exact ⟨hmode, hticks, hq.1, le_of_lt hq.2, fun _ => hq.2,
        ambientInv_step realMath n g hm ht (by omega) hw,
        huntInv_step d hd0 hd2 n g hm ht (by omega) hs⟩

theorem holdInv_final (d : ℝ) (hd0 : 0 < d) (hd2 : d ^ 2 = 89729 / 4) (g : Game ℝ)
    (h : holdInv d 1879 g) :
    (Update realMath quietInput g).mode = gameMode.gameModeGameOver ∧
    0 < (Update realMath quietInput g).nextWaveHeight := by
  have hb := attackLine_bounds d hd0 hd2
  rcases h with ⟨hm, hc⟩ | ⟨hm, ht, hh, h0, -, hw, hs⟩
  · have := Update_gameOver_quiet realMath g hm
    exact ⟨this.1, by rw [this.2]; exact hc⟩
  · have hq := Update_hold_quiet realMath g hm hh
    refine ⟨?_, hq.2⟩
    have hw2 := ambientInv_step realMath 1879 g hm ht (by norm_num) hw
    have hs2 := (huntInv_step d hd0 hd2 1879 g hm ht (le_refl _) hs).2 (by norm_num)
      (by norm_num)
    have hheight : (Update realMath quietInput g).humanHeight = 0 := by
      rw [Update_playing_humanHeight realMath quietInput g hm]
      apply calcSurfaceHeight_outside
      intro w hmem
      obtain ⟨-, hlen, -, k, hk⟩ := hw2 w hmem
      rw [hlen, screenCenterX_eq, hk]
      push_cast
      rcases le_or_lt k 9 with h9 | h9
      · have : (k : ℝ) ≤ 9 := by exact_mod_cast h9
        refine le_trans ?_ (le_abs_self _)
        linarith
      · have : (10 : ℝ) ≤ k := by exact_mod_cast h9
        refine le_trans ?_ (neg_le_abs _)
        linarith
    obtain ⟨s, hin, hline⟩ := hs2
    have hD := attackLine_d2 d _ hd2 s hline
    have hmud : (1 - 5 / 4 * (((1879 + 1 : Nat) : ℝ) - 1776) / d) * d = d - 130 := by
      push_cast
      field_simp
      ring
    rw [hmud] at hD
    have hhit : sharkHit (Update realMath quietInput g).humanHeight s := by
      rw [hheight]
      unfold sharkHit
      unfold sharkD2 at hD
      have h1 : (s.x - screenCenterX) ^ 2 + (s.y - (surfaceBaseHeight - 0)) ^ 2
          = (d - 130) ^ 2 := by
        rw [← hD]
        ring
      rw [h1, hline.1]
      have : (10 + humanR : ℝ) ^ 2 = 400 := by norm_num [humanR]
      rw [this]
      nlinarith [hb.1, hb.2]
    rw [Update_playing_mode realMath quietInput g hm, if_pos ⟨s, hin, hhit⟩]

theorem holdInv_run (d : ℝ) (hd0 : 0 < d) (hd2 : d ^ 2 = 89729 / 4) (k n : Nat) (g : Game ℝ)
    (hn : n + k ≤ 1879) (h : holdInv d n g) :
    holdInv d (n + k) (run realMath (List.replicate k quietInput) g) := by
  induction k generalizing n g with
  | zero => exact h
  | succ k ih =>
    have h1 := holdInv_step d hd0 hd2 n g (by omega) h
    have h2 := ih (n + 1) (Update realMath quietInput g) (by omega) h1
    have e : n + (k + 1) = n + 1 + k := by omega
    rw [e]
    exact h2

theorem Reachable_run {K : Type} [LinearOrderedField K] (m : MathOps K)
    (inps : List (TickInput K)) (g : Game K) (hg : Reachable m g) :
    Reachable m (run m inps g) := by
  induction inps generalizing g with
  | nil => exact hg
  | cons i rest ih => exact ih (Update m i g) (Reachable.step i g hg)

theorem holdInv_start (d : ℝ) : holdInv d 1 (Update realMath pressInput (startGame realMath)) := by
  have hs := startGame_eq realMath
  have hu := Update_noSharks realMath pressInput (startGame realMath) hs.1 hs.2.2.1
    (by rw [hs.2.1]; norm_num)
  have hp := Update_press realMath pressInput (startGame realMath) hs.1 ⟨rfl, rfl⟩
  have hcw : (chargeStep pressInput (tickInc (startGame realMath))).waves = [] := by
    rw [chargeStep_waves_of_quiet pressInput _ rfl]
    simpa using hs.2.2.2.1
  have hwe : (waveEnter (chargeStep pressInput (tickInc (startGame realMath)))).waves
      = [] := by
    have ht : (chargeStep pressInput (tickInc (startGame realMath))).ticksFromModeStart
        = 1 := by
      simp [tickInc, hs.2.1]
    unfold waveEnter
    rw [ht, if_neg (by norm_num)]
    exact hcw
  have hw : (Update realMath pressInput (startGame realMath)).waves = [] := by
    rw [Update_playing_waves realMath pressInput (startGame realMath) hs.1, hwe]
    rfl
  right
  refine ⟨hu.1, by rw [hu.2.2, hs.2.1], hp.1, by rw [hp.2], fun h => absurd h (by norm_num),
    ?_, ?_⟩
  · rw [hw]
    intro w hmem
    simp at hmem
  · constructor
    · intro h
      omega
    · intro h
      omega

theorem run_cons_cons {K : Type} [LinearOrderedField K] (m : MathOps K)
    (a b : TickInput K) (rest : List (TickInput K)) (g : Game K) :
    run m (a :: b :: rest) g = run m rest (Update m b (Update m a g)) := rfl

theorem startGame_reachable {K : Type} [LinearOrderedField K] (m : MathOps K) :
    Reachable m (startGame m) :=
  Reachable.step pressInput _ Reachable.init

theorem heldGame_charge :
    0 < (Update realMath quietInput
      (Update realMath pressInput (startGame realMath))).nextWaveHeight := by
  have hs := startGame_eq realMath
  have hu := Update_noSharks realMath pressInput (startGame realMath) hs.1 hs.2.2.1
    (by rw [hs.2.1]; norm_num)
  have hp := Update_press realMath pressInput (startGame realMath) hs.1 ⟨rfl, rfl⟩
  exact (Update_hold_quiet realMath _ hu.1 hp.1).2

/-- C11 (amended) on the session two ticks after a press in Playing mode: the
charge is positive, the hold flag is set. -/
theorem charge_implies_hold_witness :
    Reachable realMath
      (Update realMath quietInput (Update realMath pressInput (startGame realMath))) ∧
    (Update realMath quietInput
      (Update realMath pressInput (startGame realMath))).nextWaveHeight ≠ 0 ∧
    (Update realMath quietInput
      (Update realMath pressInput (startGame realMath))).hold = true :=
  ⟨Reachable.step _ _ (Reachable.step _ _ (startGame_reachable realMath)),
    ne_of_gt heldGame_charge,
    (charge_implies_hold realMath _
      (Reachable.step _ _ (Reachable.step _ _ (startGame_reachable realMath)))
      (ne_of_gt heldGame_charge)).1⟩

/-- C11 fails as stated: start the game, press on the first Playing tick and
hold; with no other input the shark spawned on tick 1260 attacks from tick 1777
and is within reach of the player, who is at height 0, on tick 1880 at the
latest. The session is then in GameOver with the charge still positive. -/
theorem held_charge_in_gameOver :
    Reachable realMath
      (run realMath (pressInput :: pressInput :: List.replicate 1879 quietInput)
        (initGame realMath (newGame : Game ℝ))) ∧
    (run realMath (pressInput :: pressInput :: List.replicate 1879 quietInput)
        (initGame realMath (newGame : Game ℝ))).mode = gameMode.gameModeGameOver ∧
    (run realMath (pressInput :: pressInput :: List.replicate 1879 quietInput)
        (initGame realMath (newGame : Game ℝ))).nextWaveHeight ≠ 0 := by
  have hd0 : 0 < Real.sqrt (89729 / 4) := Real.sqrt_pos.mpr (by norm_num)
  have hd2 : Real.sqrt (89729 / 4) ^ 2 = 89729 / 4 := Real.sq_sqrt (by norm_num)
  have h1 := holdInv_start (Real.sqrt (89729 / 4))
  have h2 := holdInv_run _ hd0 hd2 1878 1 _ (by norm_num) h1
  have h3 := holdInv_final _ hd0 hd2 _ h2
  have hrep : List.replicate 1879 (quietInput : TickInput ℝ)
      = List.replicate 1878 quietInput ++ [quietInput] := (List.replicate_succ' 1878 _)
  have hrun : run realMath (pressInput :: pressInput :: List.replicate 1879 quietInput)
      (initGame realMath (newGame : Game ℝ))
      = Update realMath quietInput (run realMath (List.replicate 1878 quietInput)
          (Update realMath pressInput (startGame realMath))) := by
    rw [hrep, run_cons_cons, run_snoc, startGame]
  refine ⟨Reachable_run realMath _ _ Reachable.init, ?_, ?_⟩
  · rw [hrun]
    exact h3.1
  · rw [hrun]
    exact ne_of_gt h3.2

end HeldCharge

section ChargeRun

theorem startGame_playingThroughout {K : Type} [LinearOrderedField K] (m : MathOps K)
    (inps : List (TickInput K)) (hlen : inps.length < 630) :
    playingThroughout m inps (startGame m) := by
  have hs := startGame_eq m
  exact playingThroughout_noSharks m inps (startGame m) hs.1 hs.2.2.1 (by rw [hs.2.1]; omega)

/-- C9 end to end, with the real functions, from the session right after
start-up: a press, 99 ticks without touch events and the release on the 100th
give a pulse of amplitude `5629499534213109 / 2 ^ 46`. -/
theorem charge_release_witness :
    (List.replicate 99 (quietInput : TickInput ℝ)).length + 1 = 100 ∧
    playingThroughout realMath (pressInput :: List.replicate 99 quietInput)
      (startGame realMath) ∧
    (chargeStep releaseInput (tickInc (run realMath
        (pressInput :: List.replicate 99 quietInput) (startGame realMath)))).waves
      = (run realMath (pressInput :: List.replicate 99 quietInput) (startGame realMath)).waves
        ++ [{ x := -100, vx := 2, height := 5629499534213109 / 2 ^ 46, length := 200 }] := by
  have hlen : (List.replicate 99 (quietInput : TickInput ℝ)).length + 1 = 100 := by
    rw [List.length_replicate]
  have hplay : playingThroughout realMath (pressInput :: List.replicate 99 quietInput)
      (startGame realMath) :=
    startGame_playingThroughout realMath _
      (by rw [List.length_cons, List.length_replicate]; norm_num)
  have h := charge_release realMath 100 (startGame realMath) pressInput releaseInput
    (List.replicate 99 quietInput) hlen ⟨rfl, rfl⟩
    (fun i hi => by rw [List.eq_of_mem_replicate hi]; exact ⟨rfl, rfl⟩) ⟨rfl, rfl⟩ hplay
  refine ⟨hlen, hplay, ?_⟩
  rw [h.1, (h.2.2.2.2.2.1 rfl).1]
  rfl

/-- The amplitude 80 of C9 is not the one the program gives: from the session
right after start-up, a press, 99 ticks without touch events and the release on
the 100th tick append the pulse of amplitude `5629499534213109 / 2 ^ 46`, which
is `11 / 2 ^ 46` below 80 and below `min (0.8 * 100) 300`. -/
theorem release_amplitude_not_80 :
    playingThroughout realMath (pressInput :: List.replicate 99 quietInput)
      (startGame realMath) ∧
    (chargeStep releaseInput (tickInc (run realMath
        (pressInput :: List.replicate 99 quietInput) (startGame realMath)))).waves
      = (run realMath (pressInput :: List.replicate 99 quietInput) (startGame realMath)).waves
        ++ [{ x := -100, vx := 2, height := 5629499534213109 / 2 ^ 46, length := 200 }] ∧
    (5629499534213109 / 2 ^ 46 : ℝ) < 80 ∧
    (5629499534213109 / 2 ^ 46 : ℝ) ≠ min (8 / 10 * ((100 : Nat) : ℝ)) 300 := by
  have hplay : playingThroughout realMath (pressInput :: List.replicate 99 quietInput)
      (startGame realMath) :=
    startGame_playingThroughout realMath _
      (by rw [List.length_cons, List.length_replicate]; norm_num)
  have h := release_after_press realMath (startGame realMath) pressInput releaseInput
    (List.replicate 99 quietInput) ⟨rfl, rfl⟩
    (fun i hi => by rw [List.eq_of_mem_replicate hi]; exact ⟨rfl, rfl⟩) ⟨rfl, rfl⟩ hplay
  have hv : (f64 (heldCharge 100) : ℝ) = 5629499534213109 / 2 ^ 46 := by
    rw [heldCharge_100]
    unfold f64
    norm_num
  rw [List.length_replicate] at h
  refine ⟨hplay, ?_, by norm_num, ?_⟩
  · rw [h.2.1, hv]
    rfl
  · have h80 : min (8 / 10 * ((100 : Nat) : ℝ)) 300 = 80 := by norm_num
    rw [h80]
    norm_num

end ChargeRun

section Scripts

variable {K : Type} [LinearOrderedField K]

theorem runScript_succ (m : MathOps K) (script : Nat → TickInput K) (n : Nat) :
    runScript m script (n + 1) = Update m (script (n + 1)) (runScript m script n) := rfl

theorem runScript_reachable (m : MathOps K) (script : Nat → TickInput K) (n : Nat) :
    Reachable m (runScript m script n) := by
  induction n with
  | zero => exact startGame_reachable m
  | succ n ih => exact Reachable.step _ _ ih

/-- The player height is not negative after a Playing tick from a reachable
state, with the real functions. -/
theorem Update_humanHeight_nonneg (inp : TickInput ℝ) (g : Game ℝ)
    (hr : Reachable realMath g) (hg : g.mode = gameMode.gameModePlaying) :
    0 ≤ (Update realMath inp g).humanHeight := by
  rw [Update_playing_humanHeight realMath inp g hg]
  apply calcSurfaceHeight_nonneg realMath Real.pi_pos.le
    (fun _ h0 h1 => Real.sin_nonneg_of_nonneg_of_le_pi h0 h1)
  intro w hw
  exact (kinds_height_nonneg w
    (Reachable_waves_kinds realMath _ (Reachable.step inp g hr) w hw)).1

/-- A shark at depth 420 does not reach a player whose height is not
negative. -/
theorem deep_shark_no_hit (h : K) (hh : 0 ≤ h) (s : shark K) (hy : s.y = 420)
    (hr : s.r = 10) : ¬ sharkHit h s := by
  unfold sharkHit
  rw [hy, hr, surfaceBaseHeight_eq]
  have h1 : ((10 : K) + humanR) ^ 2 = 400 := by norm_num [humanR]
  rw [h1]
  intro hc
  nlinarith [sq_nonneg (s.x - screenCenterX)]

theorem mem_chargeStep_waves_of_mem (inp : TickInput K) (g : Game K) (w : wave K)
    (hw : w ∈ g.waves) : w ∈ (chargeStep inp g).waves := by
  have hT : (chargeTouch inp (chargeHold g)).waves = g.waves := by simp
  unfold chargeStep chargeRelease
  by_cases hr : inp.justReleased = true
  · rw [if_pos hr]
    by_cases hh : (chargeTouch inp (chargeHold g)).hold = true
    · rw [if_pos hh]
      exact List.mem_append_left _ (by rw [hT]; exact hw)
    · rw [if_neg hh]
      show w ∈ (chargeTouch inp (chargeHold g)).waves
      rw [hT]
      exact hw
  · rw [if_neg hr, hT]
    exact hw

/-- A pulse that is live in the charge block of a Playing tick and within the
bounds after its move is live after the tick, advanced once. -/
theorem mem_Update_waves (m : MathOps K) (inp : TickInput K) (g : Game K)
    (hg : g.mode = gameMode.gameModePlaying) (w : wave K)
    (hw : w ∈ (chargeStep inp (tickInc g)).waves)
    (h1 : -(waveAdvance w).length < (waveAdvance w).x)
    (h2 : (waveAdvance w).x < screenWidth + (waveAdvance w).length) :
    waveAdvance w ∈ (Update m inp g).waves := by
  rw [Update_playing_waves m inp g hg, List.mem_filter, decide_eq_true_eq]
  exact ⟨List.mem_map.mpr ⟨w, mem_waveEnter_waves _ w hw, rfl⟩, h1, h2⟩

end Scripts

section Lure

theorem lureScript_rand {K : Type} [LinearOrderedField K] (n : Nat) :
    (lureScript n : TickInput K).sharkRandInt % 2 = 0 := by
  unfold lureScript
  split_ifs <;> rfl

theorem sharkEnter_sharks_left {K : Type} [LinearOrderedField K] (inp : TickInput K)
    (g : Game K) (hrand : inp.sharkRandInt % 2 = 0) :
    (sharkEnter inp g).sharks
      = if g.ticksFromModeStart % 630 = 0 then
          g.sharks ++ [(⟨-50, 420, 1 / 2, 0, 10, false⟩ : shark K)]
        else g.sharks := by
  unfold sharkEnter
  dsimp only
  by_cases ht : g.ticksFromModeStart % 630 = 0
  · rw [if_pos ht, if_pos ht, if_pos hrand]
    norm_num [surfaceBaseHeight, screenHeight, sharkSpeed, sharkR]
  · rw [if_neg ht, if_neg ht]

/-- One tick of the cruise of the shark of tick 630: the mode stays Playing and
the shark list is known. -/
theorem cruise_step (inp : TickInput ℝ) (hrand : inp.sharkRandInt % 2 = 0) (n : Nat)
    (g : Game ℝ) (hr : Reachable realMath g) (hg : g.mode = gameMode.gameModePlaying)
    (ht : g.ticksFromModeStart = n) (hn : n + 1 ≤ 1146)
    (hs0 : n < 630 → g.sharks = []) (hs1 : 630 ≤ n → g.sharks = [cruiseShark n]) :
    (Update realMath inp g).mode = gameMode.gameModePlaying ∧
    (Update realMath inp g).ticksFromModeStart = n + 1 ∧
    (n + 1 < 630 → (Update realMath inp g).sharks = []) ∧
    (630 ≤ n + 1 → (Update realMath inp g).sharks = [cruiseShark (n + 1)]) := by
  have hticks : (tickInc g).ticksFromModeStart = n + 1 := by
    simp only [tickInc, ht]
    exact Nat.mod_eq_of_lt (by omega)
  have hT : (tickInc g).sharks = g.sharks := by simp
  have hW : (screenWidth : ℝ) + 100 = 740 := by norm_num [screenWidth]
  have hsharks : (n + 1 < 630 → (Update realMath inp g).sharks = []) ∧
      (630 ≤ n + 1 → (Update realMath inp g).sharks = [cruiseShark (n + 1)]) := by
    rw [Update_playing_sharks realMath inp g hg, sharkEnter_sharks_left inp _ hrand, hticks, hT]
    rcases Nat.lt_trichotomy (n + 1) 630 with hlt | heq | hgt
    · have hne : ¬ (n + 1) % 630 = 0 := by omega
      rw [if_neg hne, hs0 (by omega)]
      exact ⟨fun _ => rfl, fun h => absurd h (by omega)⟩
    · have h0 : (n + 1) % 630 = 0 := by omega
      rw [if_pos h0, hs0 (by omega)]
      refine ⟨fun h => absurd h (by omega), fun _ => ?_⟩
      rw [List.nil_append, List.map_singleton,
        sharkStep_cruise realMath (-50) (by norm_num)]
      have hc : cruiseShark (n + 1) = (⟨-50 + 1 / 2, 420, 1 / 2, 0, 10, false⟩ : shark ℝ) := by
        unfold cruiseShark
        have h630 : ((n + 1 : Nat) : ℝ) = 630 := by exact_mod_cast heq
        rw [h630]
        norm_num
      rw [hc, List.filter_cons, if_pos]
      · rfl
      · rw [decide_eq_true_eq, hW]
        constructor <;> norm_num
    · have hne : ¬ (n + 1) % 630 = 0 := by omega
      rw [if_neg hne, hs1 (by omega)]
      refine ⟨fun h => absurd h (by omega), fun _ => ?_⟩
      have hn1 : (630 : ℝ) ≤ (n : ℝ) := by
        have : 630 ≤ n := by omega
        exact_mod_cast this
      have hn2 : (n : ℝ) ≤ 1145 := by
        have : n ≤ 1145 := by omega
        exact_mod_cast this
      have hx : (112 : ℝ) ≤ 320 - (-50 + ((n : ℝ) - 629) / 2) := by linarith
      have hx2 : (12500 : ℝ) ≤ (320 - (-50 + ((n : ℝ) - 629) / 2)) ^ 2 :=
        le_trans (by norm_num) (pow_le_pow_left₀ (by norm_num : (0 : ℝ) ≤ 112) hx 2)
      rw [List.map_singleton]
      unfold cruiseShark
      rw [sharkStep_cruise realMath (-50 + ((n : ℝ) - 629) / 2) hx2]
      rw [List.filter_cons, if_pos]
      · simp only [List.filter_nil]
        congr 2
        push_cast
        ring
      · rw [decide_eq_true_eq, hW]
        constructor <;> dsimp only <;> linarith
  have hh := Update_humanHeight_nonneg inp g hr hg
  have hmode : (Update realMath inp g).mode = gameMode.gameModePlaying := by
    rw [Update_playing_mode realMath inp g hg, if_neg]
    rintro ⟨s, hs, hhit⟩
    rcases Nat.lt_or_ge (n + 1) 630 with hlt | hge
    · rw [hsharks.1 hlt] at hs
      exact absurd hs (List.not_mem_nil s)
    · rw [hsharks.2 hge, List.mem_singleton] at hs
      rw [hs] at hhit
      exact deep_shark_no_hit _ hh _ rfl rfl hhit
  refine ⟨hmode, ?_, hsharks⟩
  rw [Update_playing_ticks realMath inp g hg hmode, ht]
  exact Nat.mod_eq_of_lt (by omega)

end Lure

section LureRun

theorem lureInv_start : lureInv realMath 0 (startGame realMath) := by
  have hs := startGame_eq realMath
  refine ⟨startGame_reachable realMath, hs.1, hs.2.1, fun _ => hs.2.2.1,
    fun h => absurd h (by norm_num), fun h => absurd h (by norm_num),
    fun h => absurd h (by norm_num)⟩

theorem waveAdvance_lurePulse (n : Nat) :
    waveAdvance (lurePulse n : wave ℝ) = lurePulse (n + 1) := by
  unfold waveAdvance lurePulse
  simp only [Nat.cast_add, Nat.cast_one]
  congr 1
  ring

theorem lureInv_step (n : Nat) (g : Game ℝ) (hn : n + 1 ≤ 1146)
    (h : lureInv realMath n g) :
    lureInv realMath (n + 1) (Update realMath (lureScript (n + 1)) g) := by
  obtain ⟨hr, hg, ht, hs0, hs1, hp, hw⟩ := h
  have hc := cruise_step (lureScript (n + 1)) (lureScript_rand (n + 1)) n g hr hg ht hn hs0 hs1
  refine ⟨Reachable.step _ g hr, hc.1, hc.2.1, hc.2.2.1, hc.2.2.2, ?_, ?_⟩
  · intro h936
    have hi : (lureScript (n + 1) : TickInput ℝ) = pressInput := by
      unfold lureScript
      rw [if_pos h936]
    rw [hi]
    exact Update_press realMath pressInput g hg ⟨rfl, rfl⟩
  · intro h937
    have hW : (screenWidth : ℝ) = 640 := by norm_num [screenWidth]
    rcases Nat.eq_or_lt_of_le h937 with heq | hlt
    · have hi : (lureScript (n + 1) : TickInput ℝ) = releaseInput := by
        unfold lureScript
        rw [if_neg (by omega), if_pos heq.symm]
      have h936 := hp (by omega)
      have hrel := chargeStep_release (releaseInput : TickInput ℝ) g 0 ⟨rfl, rfl⟩ h936.1
        (by rw [h936.2]; rfl)
      have hmem : (⟨-100, waveSpeed, f64 (heldCharge (0 + 1)), 200⟩ : wave ℝ)
          ∈ (chargeStep releaseInput (tickInc g)).waves := by
        rw [hrel.1]
        exact List.mem_append_right _ (List.mem_singleton.mpr rfl)
      have hadv : waveAdvance (⟨-100, waveSpeed, f64 (heldCharge (0 + 1)), 200⟩ : wave ℝ)
          = lurePulse (n + 1) := by
        unfold waveAdvance lurePulse
        rw [← heq]
        norm_num [waveSpeed]
      rw [hi, ← hadv]
      apply mem_Update_waves realMath releaseInput g hg _ hmem
      · norm_num [waveAdvance, waveSpeed]
      · rw [hW]
        norm_num [waveAdvance, waveSpeed]
    · have hmem := mem_chargeStep_waves_of_mem (lureScript (n + 1)) (tickInc g) (lurePulse n)
        (by simpa using hw (by omega))
      have hn1 : (937 : ℝ) ≤ (n : ℝ) := by
        have : 937 ≤ n := by omega
        exact_mod_cast this
      have hn2 : (n : ℝ) ≤ 1145 := by
        have : n ≤ 1145 := by omega
        exact_mod_cast this
      rw [← waveAdvance_lurePulse]
      apply mem_Update_waves realMath _ g hg _ hmem
      · rw [waveAdvance_lurePulse]
        unfold lurePulse
        push_cast
        linarith
      · rw [waveAdvance_lurePulse, hW]
        unfold lurePulse
        push_cast
        linarith

theorem lureInv_run (n : Nat) (hn : n ≤ 1146) :
    lureInv realMath n (runScript realMath lureScript n) := by
  induction n with
  | zero => exact lureInv_start
  | succ n ih => exact lureInv_step n _ hn (ih (by omega))

/-- A pulse of positive amplitude over `x` lifts the surface there, when no
pulse has a negative amplitude. -/
theorem calcSurfaceHeight_pos_of_mem (ws : List (wave ℝ)) (x : ℝ)
    (hws : ∀ w ∈ ws, 0 ≤ w.height) (w : wave ℝ) (hw : w ∈ ws)
    (hc : |x - w.x| < w.length / 2)
    (hpos : 0 < w.height * Real.sin (Real.pi * (x - (w.x - w.length / 2)) / w.length)) :
    0 < calcSurfaceHeight realMath ws x := by
  induction ws with
  | nil => exact absurd hw (List.not_mem_nil w)
  | cons v vs ih =>
    rw [calcSurfaceHeight_cons]
    have hvs : ∀ u ∈ vs, 0 ≤ u.height := fun u hu => hws u (List.mem_cons_of_mem v hu)
    rcases List.mem_cons.mp hw with heq | hmem
    · have h1 : waveContribution realMath x 0 v
          = 0 + w.height * Real.sin (Real.pi * (x - (w.x - w.length / 2)) / w.length) := by
        rw [← heq]
        unfold waveContribution
        rw [if_pos hc]
        rfl
      have h2 := calcSurfaceHeight_nonneg realMath Real.pi_pos.le
        (fun _ h0 h1 => Real.sin_nonneg_of_nonneg_of_le_pi h0 h1) vs x hvs
      rw [h1]
      linarith
    · have h1 := waveContribution_ge realMath Real.pi_pos.le
        (fun _ h0 h1 => Real.sin_nonneg_of_nonneg_of_le_pi h0 h1) x 0 v
        (hws v (List.mem_cons_self v vs))
      have h2 := ih hvs hmem
      linarith

theorem heldCharge_one : heldCharge 1 = 7205759403792794 := by decide!

theorem f64_heldCharge_one_pos : (0 : ℝ) < f64 (heldCharge 1) := by
  rw [heldCharge_one]
  unfold f64
  norm_num

/-- After tick 1146 of the `lureScript` session the player is lifted by the
pulse, whose crest is at the centre. -/
theorem lureGame_humanHeight_pos : 0 < (runScript realMath lureScript 1146).humanHeight := by
  have hprev := lureInv_run 1145 (by norm_num)
  have hcur := lureInv_run 1146 (by norm_num)
  have hG : runScript realMath lureScript 1146
      = Update realMath (lureScript 1146) (runScript realMath lureScript 1145) :=
    runScript_succ realMath lureScript 1145
  have hh : (runScript realMath lureScript 1146).humanHeight
      = calcSurfaceHeight realMath (runScript realMath lureScript 1146).waves screenCenterX := by
    rw [hG]
    exact Update_playing_humanHeight realMath _ _ hprev.2.1
  rw [hh]
  apply calcSurfaceHeight_pos_of_mem _ _ _ (lurePulse 1146) (hcur.2.2.2.2.2.2 (by norm_num))
  · rw [screenCenterX_eq]
    norm_num [lurePulse]
  · rw [screenCenterX_eq]
    have harg : Real.pi * (320 - ((lurePulse 1146 : wave ℝ).x - (lurePulse 1146 : wave ℝ).length / 2))
        / (lurePulse 1146 : wave ℝ).length = Real.pi / 2 := by
      norm_num [lurePulse]
      ring
    rw [harg, Real.sin_pi_div_two, mul_one]
    exact f64_heldCharge_one_pos
  · intro w hw
    exact (kinds_height_nonneg w (Reachable_waves_kinds realMath _ hcur.1 w hw)).1

end LureRun

section SharkHeading

/-- The velocity and the move of a shark that is attacking when its velocity is
computed. -/
theorem sharkStep_attacking {K : Type} [LinearOrderedField K] (m : MathOps K) (s : shark K)
    (hatt : (sharkReset (sharkD2 s) (sharkTrigger s)).attacking = true) :
    (sharkStep m s).vx
      = 5 / 4 * m.cos (m.atan2 (surfaceBaseHeight - s.y) (screenCenterX - s.x)) ∧
    (sharkStep m s).vy
      = 5 / 4 * m.sin (m.atan2 (surfaceBaseHeight - s.y) (screenCenterX - s.x)) ∧
    (sharkStep m s).x = s.x + (sharkStep m s).vx ∧
    (sharkStep m s).y = s.y + (sharkStep m s).vy := by
  have hx := (sharkReset_pos (sharkD2 s) (sharkTrigger s)).1
  have hy := (sharkReset_pos (sharkD2 s) (sharkTrigger s)).2
  rw [(sharkTrigger_pos s).1] at hx
  rw [(sharkTrigger_pos s).2] at hy
  have hk : (sharkSpeed : K) * (5 / 2) = 5 / 4 := by norm_num [sharkSpeed]
  refine ⟨?_, ?_, ?_, ?_⟩
  · simp [sharkStep, sharkAdvance, sharkAim, hatt, hx, hy, hk]
  · simp [sharkStep, sharkAdvance, sharkAim, hatt, hx, hy, hk]
  · simp [sharkStep, sharkAdvance, sharkAim, hatt, hx, hy, hk]
  · simp [sharkStep, sharkAdvance, sharkAim, hatt, hx, hy, hk]

/-- C8, as amended. In a Playing tick the sharks after `Update` are the sharks
of the session and the shark spawned on this tick, each moved by the loop body
`sharkStep`, those within the bounds kept. Every one of them that is attacking
when its velocity is computed (after the trigger block and not reset to
cruising) moves in that tick with velocity `1.25 * (cos t, sin t)`,
`1.25 = 2.5 * sharkSpeed`, where `t` is the angle from the shark to the fixed
baseline point `(screenCenterX, surfaceBaseHeight)`; the player height is not
read: two sessions that differ only in player height have the same sharks
after `Update`. -/
theorem shark_attack_velocity {K : Type} [LinearOrderedField K] (m : MathOps K)
    (inp : TickInput K) (g : Game K) (hg : g.mode = gameMode.gameModePlaying) :
    (Update m inp g).sharks = ((sharkEnter inp (tickInc g)).sharks.map (sharkStep m)).filter
      (fun s => decide (s.x > -100 ∧ s.x < screenWidth + 100)) ∧
    (∀ s ∈ (sharkEnter inp (tickInc g)).sharks,
      (sharkReset (sharkD2 s) (sharkTrigger s)).attacking = true →
      (sharkStep m s).attacking = true ∧
      (sharkStep m s).vx
        = 5 / 4 * m.cos (m.atan2 (surfaceBaseHeight - s.y) (screenCenterX - s.x)) ∧
      (sharkStep m s).vy
        = 5 / 4 * m.sin (m.atan2 (surfaceBaseHeight - s.y) (screenCenterX - s.x)) ∧
      (sharkStep m s).x = s.x + (sharkStep m s).vx ∧
      (sharkStep m s).y = s.y + (sharkStep m s).vy) ∧
    (5 / 2 * sharkSpeed : K) = 5 / 4 ∧
    (∀ h : K, (Update m inp { g with humanHeight := h }).sharks = (Update m inp g).sharks) := by
  refine ⟨Update_playing_sharks m inp g hg, ?_, by norm_num [sharkSpeed],
    Update_sharks_humanHeight m inp g⟩
  intro s _ hatt
  refine ⟨?_, sharkStep_attacking m s hatt⟩
  simp [sharkStep, sharkAdvance, sharkAim, hatt]

theorem attackStart_attacking :
    (sharkReset (sharkD2 (⟨417 / 2, 420, 1 / 2, 0, 10, false⟩ : shark ℝ))
      (sharkTrigger ⟨417 / 2, 420, 1 / 2, 0, 10, false⟩)).attacking = true := by
  norm_num [sharkReset, sharkD2, sharkTrigger, screenCenterX, screenWidth,
    surfaceBaseHeight, screenHeight]

theorem cruiseShark_1146 :
    (cruiseShark 1146 : shark ℝ) = ⟨417 / 2, 420, 1 / 2, 0, 10, false⟩ := by
  unfold cruiseShark
  norm_num

theorem lureScript_1147 {K : Type} [LinearOrderedField K] :
    (lureScript 1147 : TickInput K) = quietInput := by
  unfold lureScript
  rw [if_neg (by norm_num), if_neg (by norm_num)]

theorem lureGame_pre_sharks :
    (sharkEnter quietInput (tickInc (runScript realMath lureScript 1146))).sharks
      = [(⟨417 / 2, 420, 1 / 2, 0, 10, false⟩ : shark ℝ)] := by
  have hcur := lureInv_run 1146 (by norm_num)
  have hticks : (tickInc (runScript realMath lureScript 1146)).ticksFromModeStart = 1147 := by
    simp only [tickInc, hcur.2.2.1]
    norm_num
  have hT : (tickInc (runScript realMath lureScript 1146)).sharks
      = (runScript realMath lureScript 1146).sharks := by simp
  rw [sharkEnter_sharks_left quietInput _ rfl, hticks, if_neg (by norm_num), hT,
    hcur.2.2.2.2.1 (by norm_num), cruiseShark_1146]

/-- The first tick of the attack of the shark of tick 630, with the real
functions: it heads for the baseline point `(320, 320)`. -/
theorem sharkStep_attack_start (d : ℝ) (hd0 : 0 < d) (hd2 : d ^ 2 = 89729 / 4) :
    sharkStep realMath (⟨417 / 2, 420, 1 / 2, 0, 10, false⟩ : shark ℝ)
      = ⟨417 / 2 + 5 / 4 * (223 / 2 / d), 420 + 5 / 4 * (-100 / d),
          5 / 4 * (223 / 2 / d), 5 / 4 * (-100 / d), 10, true⟩ := by
  have hhead := attackLine_heading d 1 hd0 hd2 one_pos
  rw [one_mul, one_mul] at hhead
  have hs := sharkStep_attacking realMath (⟨417 / 2, 420, 1 / 2, 0, 10, false⟩ : shark ℝ)
    attackStart_attacking
  have e1 : (surfaceBaseHeight : ℝ) - 420 = -100 := by rw [surfaceBaseHeight_eq]; norm_num
  have e2 : (screenCenterX : ℝ) - 417 / 2 = 223 / 2 := by rw [screenCenterX_eq]; norm_num
  dsimp only at hs
  rw [e1, e2, hhead.1, hhead.2] at hs
  have hr : (sharkStep realMath (⟨417 / 2, 420, 1 / 2, 0, 10, false⟩ : shark ℝ)).r = 10 := by
    norm_num [sharkStep, sharkAdvance, sharkAim, sharkReset, sharkD2, sharkTrigger,
      screenCenterX, screenWidth, surfaceBaseHeight, screenHeight]
  have ha : (sharkStep realMath (⟨417 / 2, 420, 1 / 2, 0, 10, false⟩ : shark ℝ)).attacking
      = true := by
    norm_num [sharkStep, sharkAdvance, sharkAim, sharkReset, sharkD2, sharkTrigger,
      screenCenterX, screenWidth, surfaceBaseHeight, screenHeight]
  obtain ⟨h1, h2, h3, h4⟩ := hs
  rw [h1] at h3
  rw [h2] at h4
  cases hstep : sharkStep realMath (⟨417 / 2, 420, 1 / 2, 0, 10, false⟩ : shark ℝ) with
  | mk x y vx vy r att =>
    rw [hstep] at h1 h2 h3 h4 hr ha
    dsimp only at h1 h2 h3 h4 hr ha
    rw [h1, h2, h3, h4, hr, ha]

/-- The heading towards the live position of a lifted player is not the one
the shark takes. -/
theorem live_heading_differs (d : ℝ) (hd0 : 0 < d) (hd2 : d ^ 2 = 89729 / 4) (h : ℝ)
    (hh : 0 < h) :
    5 / 4 * (-100 / d) ≠ 5 / 4 * realMath.sin
      (realMath.atan2 ((surfaceBaseHeight - h) - 420) (screenCenterX - 417 / 2)) := by
  rw [surfaceBaseHeight_eq, screenCenterX_eq]
  show 5 / 4 * (-100 / d)
    ≠ 5 / 4 * Real.sin (Complex.arg ⟨320 - 417 / 2, 320 - h - 420⟩)
  rw [Complex.sin_arg]
  have hD2 : Complex.abs ⟨320 - 417 / 2, 320 - h - 420⟩ ^ 2 = (223 / 2) ^ 2 + (100 + h) ^ 2 := by
    rw [Complex.sq_abs, Complex.normSq_mk]
    ring
  have hDpos : 0 < Complex.abs ⟨320 - 417 / 2, 320 - h - 420⟩ := by
    apply Complex.abs.pos
    intro hz
    have := congrArg Complex.re hz
    norm_num at this
  intro heq
  have e : -100 / d = (320 - h - 420) / Complex.abs ⟨320 - 417 / 2, 320 - h - 420⟩ := by
    have h54 : (5 / 4 : ℝ) ≠ 0 := by norm_num
    exact mul_left_cancel₀ h54 heq
  rw [div_eq_div_iff (ne_of_gt hd0) (ne_of_gt hDpos)] at e
  have e1 : 100 * Complex.abs ⟨320 - 417 / 2, 320 - h - 420⟩ = (100 + h) * d := by linarith
  have e2 : (100 * Complex.abs ⟨320 - 417 / 2, 320 - h - 420⟩) ^ 2 = ((100 + h) * d) ^ 2 := by
    rw [e1]
  rw [mul_pow, mul_pow, hD2, hd2] at e2
  nlinarith [mul_pos hh hh]

end SharkHeading

section SharkHeadingRun

theorem lureGame_next :
    runScript realMath lureScript 1147
      = Update realMath quietInput (runScript realMath lureScript 1146) := by
  have h : runScript realMath lureScript 1147
      = Update realMath (lureScript 1147) (runScript realMath lureScript 1146) :=
    runScript_succ realMath lureScript 1146
  rw [h, lureScript_1147]

theorem lureGame_next_sharks (d : ℝ) (hd0 : 0 < d) (hd2 : d ^ 2 = 89729 / 4) :
    (runScript realMath lureScript 1147).sharks
      = [⟨417 / 2 + 5 / 4 * (223 / 2 / d), 420 + 5 / 4 * (-100 / d),
          5 / 4 * (223 / 2 / d), 5 / 4 * (-100 / d), 10, true⟩] := by
  have hcur := lureInv_run 1146 (by norm_num)
  have hb := attackLine_bounds d hd0 hd2
  have hq0 : 0 < 223 / 2 / d := div_pos (by norm_num) hd0
  have hq1 : 223 / 2 / d < 1 := by
    rw [div_lt_one hd0]
    linarith [hb.1]
  have hW : (screenWidth : ℝ) + 100 = 740 := by norm_num [screenWidth]
  rw [lureGame_next, Update_playing_sharks realMath quietInput _ hcur.2.1, lureGame_pre_sharks,
    List.map_singleton, sharkStep_attack_start d hd0 hd2, List.filter_cons, if_pos]
  · rfl
  · rw [decide_eq_true_eq, hW]
    constructor <;> dsimp only <;> linarith

theorem lureGame_next_humanHeight_pos :
    0 < (runScript realMath lureScript 1147).humanHeight := by
  have hcur := lureInv_run 1146 (by norm_num)
  have hW : (screenWidth : ℝ) = 640 := by norm_num [screenWidth]
  have hmem := mem_chargeStep_waves_of_mem (quietInput : TickInput ℝ)
    (tickInc (runScript realMath lureScript 1146)) (lurePulse 1146)
    (by simpa using hcur.2.2.2.2.2.2 (by norm_num))
  have hnext : lurePulse (1146 + 1) ∈ (runScript realMath lureScript 1147).waves := by
    rw [lureGame_next, ← waveAdvance_lurePulse]
    apply mem_Update_waves realMath quietInput _ hcur.2.1 _ hmem
    · rw [waveAdvance_lurePulse]
      norm_num [lurePulse]
    · rw [waveAdvance_lurePulse, hW]
      norm_num [lurePulse]
  have hh : (runScript realMath lureScript 1147).humanHeight
      = calcSurfaceHeight realMath (runScript realMath lureScript 1147).waves screenCenterX := by
    rw [lureGame_next]
    exact Update_playing_humanHeight realMath _ _ hcur.2.1
  rw [hh]
  apply calcSurfaceHeight_pos_of_mem _ _ _ (lurePulse (1146 + 1)) hnext
  · rw [screenCenterX_eq]
    norm_num [lurePulse]
  · rw [screenCenterX_eq]
    apply mul_pos f64_heldCharge_one_pos
    apply Real.sin_pos_of_pos_of_lt_pi
    · norm_num [lurePulse]
      exact Real.pi_pos
    · have harg : Real.pi * (320 - ((lurePulse (1146 + 1) : wave ℝ).x
          - (lurePulse (1146 + 1) : wave ℝ).length / 2)) / (lurePulse (1146 + 1) : wave ℝ).length
          = Real.pi * (49 / 100) := by
        norm_num [lurePulse]
        ring
      rw [harg]
      nlinarith [Real.pi_pos]
  · intro w hw
    exact (kinds_height_nonneg w
      (Reachable_waves_kinds realMath _ (runScript_reachable realMath lureScript 1147) w hw)).1

/-- C8 (amended) with the real functions, on the session of `lureScript`
after tick 1146: the shark of tick 630 starts its attack on the next tick and
heads for the baseline point. -/
theorem shark_attack_velocity_witness :
    (runScript realMath lureScript 1146).mode = gameMode.gameModePlaying ∧
    (⟨417 / 2, 420, 1 / 2, 0, 10, false⟩ : shark ℝ)
      ∈ (sharkEnter quietInput (tickInc (runScript realMath lureScript 1146))).sharks ∧
    (sharkReset (sharkD2 (⟨417 / 2, 420, 1 / 2, 0, 10, false⟩ : shark ℝ))
      (sharkTrigger ⟨417 / 2, 420, 1 / 2, 0, 10, false⟩)).attacking = true ∧
    (sharkStep realMath (⟨417 / 2, 420, 1 / 2, 0, 10, false⟩ : shark ℝ)).vx
      = 5 / 4 * realMath.cos (realMath.atan2 (surfaceBaseHeight - 420)
          (screenCenterX - 417 / 2)) ∧
    (sharkStep realMath (⟨417 / 2, 420, 1 / 2, 0, 10, false⟩ : shark ℝ)).vy
      = 5 / 4 * realMath.sin (realMath.atan2 (surfaceBaseHeight - 420)
          (screenCenterX - 417 / 2)) :=
  have hmode := (lureInv_run 1146 (by norm_num)).2.1
  have hmem : (⟨417 / 2, 420, 1 / 2, 0, 10, false⟩ : shark ℝ)
      ∈ (sharkEnter quietInput (tickInc (runScript realMath lureScript 1146))).sharks := by
    rw [lureGame_pre_sharks]
    exact List.mem_singleton.mpr rfl
  have h := (shark_attack_velocity realMath quietInput
    (runScript realMath lureScript 1146) hmode).2.1 _ hmem attackStart_attacking
  ⟨hmode, hmem, attackStart_attacking, h.2.1, h.2.2.1⟩

/-- C8 fails as stated. In the session of `lureScript` (a tap on ticks 936 and
937, the shark of tick 630 entering from the left), after tick 1146 the player
is lifted by the pulse of the tap and the shark, cruising at `(208.5, 420)`,
is about to attack. On tick 1147 it takes the velocity
`1.25 * (111.5, -100) / d`, `d = sqrt (89729 / 4)`, towards the baseline point
`(320, 320)`; its vertical part is not the `1.25 * sin t` of the angle `t`
towards the live player position `(320, 320 - humanHeight)`, neither for the
player height before the tick nor for the one after it. -/
theorem shark_heading_ignores_player :
    Reachable realMath (runScript realMath lureScript 1146) ∧
    (runScript realMath lureScript 1146).mode = gameMode.gameModePlaying ∧
    (runScript realMath lureScript 1146).sharks = [⟨417 / 2, 420, 1 / 2, 0, 10, false⟩] ∧
    0 < (runScript realMath lureScript 1146).humanHeight ∧
    0 < (runScript realMath lureScript 1147).humanHeight ∧
    (runScript realMath lureScript 1147).sharks
      = [⟨417 / 2 + 5 / 4 * (223 / 2 / Real.sqrt (89729 / 4)),
          420 + 5 / 4 * (-100 / Real.sqrt (89729 / 4)),
          5 / 4 * (223 / 2 / Real.sqrt (89729 / 4)),
          5 / 4 * (-100 / Real.sqrt (89729 / 4)), 10, true⟩] ∧
    5 / 4 * (-100 / Real.sqrt (89729 / 4)) ≠ 5 / 4 * realMath.sin
      (realMath.atan2 ((surfaceBaseHeight - (runScript realMath lureScript 1146).humanHeight)
        - 420) (screenCenterX - 417 / 2)) ∧
    5 / 4 * (-100 / Real.sqrt (89729 / 4)) ≠ 5 / 4 * realMath.sin
      (realMath.atan2 ((surfaceBaseHeight - (runScript realMath lureScript 1147).humanHeight)
        - 420) (screenCenterX - 417 / 2)) := by
  have hcur := lureInv_run 1146 (by norm_num)
  have hd0 : (0 : ℝ) < Real.sqrt (89729 / 4) := Real.sqrt_pos.mpr (by norm_num)
  have hd2 : Real.sqrt (89729 / 4) ^ 2 = 89729 / 4 := Real.sq_sqrt (by norm_num)
  refine ⟨hcur.1, hcur.2.1, ?_, lureGame_humanHeight_pos, lureGame_next_humanHeight_pos,
    lureGame_next_sharks _ hd0 hd2,
    live_heading_differs _ hd0 hd2 _ lureGame_humanHeight_pos,
    live_heading_differs _ hd0 hd2 _ lureGame_next_humanHeight_pos⟩
  rw [hcur.2.2.2.2.1 (by norm_num), cruiseShark_1146]

end SharkHeadingRun

section Surf

variable {K : Type} [LinearOrderedField K]

theorem waveEnter_waves_eq (g : Game K) :
    (waveEnter g).waves
      = g.waves ++ (if g.ticksFromModeStart % 180 = 0 then
          [(⟨715, -2, 50, 150⟩ : wave K)] else []) := by
  unfold waveEnter
  by_cases h : g.ticksFromModeStart % 180 = 0
  · rw [if_pos h, if_pos h]
    norm_num [screenWidth, waveSpeed]
  · rw [if_neg h, if_neg h, List.append_nil]

/-- When every advanced pulse is within the bounds, the wave move keeps them
all. -/
theorem Update_waves_all_kept (m : MathOps K) (inp : TickInput K) (g : Game K)
    (hg : g.mode = gameMode.gameModePlaying) (L : List (wave K))
    (hL : (waveEnter (chargeStep inp (tickInc g))).waves = L)
    (hb : ∀ w ∈ L, -w.length < w.x + w.vx ∧ w.x + w.vx < 640 + w.length) :
    (Update m inp g).waves = L.map waveAdvance := by
  rw [Update_playing_waves m inp g hg, hL, List.filter_eq_self]
  intro w hw
  obtain ⟨v, hv, rfl⟩ := List.mem_map.mp hw
  have hW : (screenWidth : K) = 640 := by norm_num [screenWidth]
  rw [decide_eq_true_eq, hW]
  exact hb v hv

theorem surfScript_cases (n : Nat) :
    (n = 1 ∧ (surfScript n : TickInput K) = pressInput) ∨
    (n = 180 ∧ (surfScript n : TickInput K) = coinInput) ∨
    (n = 316 ∧ (surfScript n : TickInput K) = releaseInput) ∨
    (n ≠ 1 ∧ n ≠ 180 ∧ n ≠ 316 ∧ (surfScript n : TickInput K) = quietInput) := by
  unfold surfScript
  by_cases h1 : n = 1
  · left
    exact ⟨h1, by rw [if_pos h1]⟩
  · by_cases h2 : n = 180
    · right; left
      exact ⟨h2, by rw [if_neg h1, if_pos h2]⟩
    · by_cases h3 : n = 316
      · right; right; left
        exact ⟨h3, by rw [if_neg h1, if_neg h2, if_pos h3]⟩
      · right; right; right
        exact ⟨h1, h2, h3, by rw [if_neg h1, if_neg h2, if_neg h3]⟩

theorem surfScript_released (n : Nat) (h : n ≠ 316) :
    (surfScript n : TickInput K).justReleased = false := by
  rcases surfScript_cases (K := K) n with ⟨-, h1⟩ | ⟨-, h1⟩ | ⟨h0, -⟩ | ⟨-, -, -, h1⟩
  · rw [h1]; rfl
  · rw [h1]; rfl
  · exact absurd h0 h
  · rw [h1]; rfl

theorem surfScript_touched (n : Nat) (h : n ≠ 1) :
    (surfScript n : TickInput K).justTouched = false := by
  rcases surfScript_cases (K := K) n with ⟨h0, -⟩ | ⟨-, h1⟩ | ⟨-, h1⟩ | ⟨-, -, -, h1⟩
  · exact absurd h0 h
  · rw [h1]; rfl
  · rw [h1]; rfl
  · rw [h1]; rfl

theorem surfScript_valid (n : Nat) : validDraws (surfScript n : TickInput K) := by
  have hc : validDraws (coinInput : TickInput K) := by
    refine ⟨⟨?_, ?_⟩, fun _ => ⟨le_refl _, zero_lt_one⟩⟩
    · show (0 : K) ≤ 3 / 32
      norm_num
    · show (3 / 32 : K) < 1
      norm_num
  rcases surfScript_cases (K := K) n with ⟨-, h1⟩ | ⟨-, h1⟩ | ⟨-, h1⟩ | ⟨-, -, -, h1⟩ <;> rw [h1]
  · exact validDraws_press
  · exact hc
  · exact validDraws_quiet
  · exact validDraws_quiet

/-- The pulses before the wave move of tick `n + 1` of the `surfScript`
session. -/
theorem surf_pre_waves (n : Nat) (g : Game K) (hn : n + 1 ≤ 525)
    (ht : g.ticksFromModeStart = n) (hw : g.waves = surfWaves n)
    (hc : 1 ≤ n → n ≤ 315 → g.hold = true ∧ g.nextWaveHeight = heldCharge (n - 1)) :
    (waveEnter (chargeStep (surfScript (n + 1)) (tickInc g))).waves
      = surfWaves n
        ++ (if n + 1 = 316 then [(⟨-100, 2, f64 (heldCharge 315), 200⟩ : wave K)] else [])
        ++ (if (n + 1) % 180 = 0 then [(⟨715, -2, 50, 150⟩ : wave K)] else []) := by
  have hticks : (chargeStep (surfScript (n + 1)) (tickInc g)).ticksFromModeStart = n + 1 := by
    simp only [chargeStep_frame, tickInc, ht]
    exact Nat.mod_eq_of_lt (by omega)
  rw [waveEnter_waves_eq, hticks]
  congr 1
  by_cases h316 : n + 1 = 316
  · rw [if_pos h316]
    have hi : (surfScript (n + 1) : TickInput K) = releaseInput := by
      rcases surfScript_cases (K := K) (n + 1) with ⟨h0, -⟩ | ⟨h0, -⟩ | ⟨-, h1⟩ | ⟨-, -, h0, -⟩
      · omega
      · omega
      · exact h1
      · exact absurd h316 h0
    have hcc := hc (by omega) (by omega)
    have hn1 : n - 1 = 314 := by omega
    rw [hn1] at hcc
    have hrel := chargeStep_release (releaseInput : TickInput K) g 314 ⟨rfl, rfl⟩ hcc.1 hcc.2
    rw [hi, hrel.1, hw]
    norm_num [waveSpeed]
  · rw [if_neg h316, List.append_nil,
      chargeStep_waves_of_quiet _ _ (surfScript_released (n + 1) h316)]
    simpa using hw

end Surf

section SurfWaves

variable {K : Type} [LinearOrderedField K]

theorem surfWaves_lt180 (n : Nat) (h : n < 180) : (surfWaves n : List (wave K)) = [] := by
  unfold surfWaves
  rw [if_neg (by omega), if_neg (by omega), if_neg (by omega)]
  rfl

theorem surfWaves_lt316 (n : Nat) (h1 : 180 ≤ n) (h2 : n < 316) :
    (surfWaves n : List (wave K)) = [⟨713 - 2 * ((n : K) - 180), -2, 50, 150⟩] := by
  unfold surfWaves
  rw [if_pos h1, if_neg (by omega), if_neg (by omega)]
  rfl

theorem surfWaves_lt360 (n : Nat) (h1 : 316 ≤ n) (h2 : n < 360) :
    (surfWaves n : List (wave K))
      = [⟨713 - 2 * ((n : K) - 180), -2, 50, 150⟩,
          ⟨-98 + 2 * ((n : K) - 316), 2, f64 (heldCharge 315), 200⟩] := by
  unfold surfWaves
  rw [if_pos (by omega), if_pos h1, if_neg (by omega)]
  rfl

theorem surfWaves_ge360 (n : Nat) (h1 : 360 ≤ n) :
    (surfWaves n : List (wave K))
      = [⟨713 - 2 * ((n : K) - 180), -2, 50, 150⟩,
          ⟨-98 + 2 * ((n : K) - 316), 2, f64 (heldCharge 315), 200⟩,
          ⟨713 - 2 * ((n : K) - 360), -2, 50, 150⟩] := by
  unfold surfWaves
  rw [if_pos (by omega), if_pos (by omega), if_pos h1]
  rfl

/-- The pulses of the `surfScript` session after tick `n + 1`. -/
theorem surf_waves_step (m : MathOps K) (n : Nat) (g : Game K)
    (hg : g.mode = gameMode.gameModePlaying) (hn : n + 1 ≤ 525)
    (ht : g.ticksFromModeStart = n) (hw : g.waves = surfWaves n)
    (hc : 1 ≤ n → n ≤ 315 → g.hold = true ∧ g.nextWaveHeight = heldCharge (n - 1)) :
    (Update m (surfScript (n + 1)) g).waves = surfWaves (n + 1) := by
  have hpre := surf_pre_waves n g hn ht hw hc
  have hn0 : (0 : K) ≤ (n : K) := Nat.cast_nonneg n
  have hn524 : (n : K) ≤ 524 := by
    have : n ≤ 524 := by omega
    exact_mod_cast this
  have hcases : n + 1 < 180 ∨ n + 1 = 180 ∨ (180 < n + 1 ∧ n + 1 < 316) ∨ n + 1 = 316 ∨
      (316 < n + 1 ∧ n + 1 < 360) ∨ n + 1 = 360 ∨ 360 < n + 1 := by omega
  rcases hcases with h | h | h | h | h | h | h
  · rw [surfWaves_lt180 n (by omega), if_neg (by omega), if_neg (by omega)] at hpre
    rw [Update_waves_all_kept m _ g hg _ hpre, surfWaves_lt180 (n + 1) h]
    · rfl
    · intro w hw
      simp at hw
  · rw [surfWaves_lt180 n (by omega), if_neg (by omega), if_pos (by omega)] at hpre
    rw [Update_waves_all_kept m _ g hg _ hpre, surfWaves_lt316 (n + 1) (by omega) (by omega)]
    · have hk : ((n + 1 : Nat) : K) = 180 := by exact_mod_cast h
      rw [hk]
      norm_num [waveAdvance]
    · intro w hw
      simp at hw
      rw [hw]
      norm_num
  · have hn180 : (180 : K) ≤ (n : K) := by
      have : 180 ≤ n := by omega
      exact_mod_cast this
    rw [surfWaves_lt316 n (by omega) (by omega), if_neg (by omega), if_neg (by omega)] at hpre
    rw [Update_waves_all_kept m _ g hg _ hpre, surfWaves_lt316 (n + 1) (by omega) (by omega)]
    · simp only [List.append_nil, List.map_cons, List.map_nil, waveAdvance]
      push_cast
      simp only [List.cons.injEq, wave.mk.injEq, and_true, true_and]
      ring
    · intro w hw
      simp at hw
      rw [hw]
      constructor <;> dsimp only <;> linarith
  · have hk : (n : K) = 315 := by
      have : n = 315 := by omega
      exact_mod_cast this
    rw [surfWaves_lt316 n (by omega) (by omega), if_pos h, if_neg (by omega)] at hpre
    rw [Update_waves_all_kept m _ g hg _ hpre, surfWaves_lt360 (n + 1) (by omega) (by omega)]
    · simp only [List.append_nil, List.map_cons, List.map_nil, waveAdvance, List.cons_append,
        List.nil_append]
      push_cast
      rw [hk]
      norm_num
    · intro w hw
      simp at hw
      rcases hw with hw | hw <;> rw [hw] <;> constructor <;> dsimp only <;> linarith
  · have hn316 : (316 : K) ≤ (n : K) := by
      have : 316 ≤ n := by omega
      exact_mod_cast this
    rw [surfWaves_lt360 n (by omega) (by omega), if_neg (by omega), if_neg (by omega)] at hpre
    rw [Update_waves_all_kept m _ g hg _ hpre, surfWaves_lt360 (n + 1) (by omega) (by omega)]
    · simp only [List.append_nil, List.map_cons, List.map_nil, waveAdvance]
      push_cast
      simp only [List.cons.injEq, wave.mk.injEq, and_true, true_and]
      constructor <;> ring
    · intro w hw
      simp at hw
      rcases hw with hw | hw <;> rw [hw] <;> constructor <;> dsimp only <;> linarith
  · have hk : (n : K) = 359 := by
      have : n = 359 := by omega
      exact_mod_cast this
    rw [surfWaves_lt360 n (by omega) (by omega), if_neg (by omega), if_pos (by omega)] at hpre
    rw [Update_waves_all_kept m _ g hg _ hpre, surfWaves_ge360 (n + 1) (by omega)]
    · simp only [List.append_nil, List.map_cons, List.map_nil, waveAdvance, List.cons_append,
        List.nil_append]
      push_cast
      rw [hk]
      norm_num
    · intro w hw
      simp at hw
      rcases hw with hw | hw | hw <;> rw [hw] <;> constructor <;> dsimp only <;> linarith
  · have hn360 : (360 : K) ≤ (n : K) := by
      have : 360 ≤ n := by omega
      exact_mod_cast this
    rw [surfWaves_ge360 n (by omega), if_neg (by omega), if_neg (by omega)] at hpre
    rw [Update_waves_all_kept m _ g hg _ hpre, surfWaves_ge360 (n + 1) (by omega)]
    · simp only [List.append_nil, List.map_cons, List.map_nil, waveAdvance]
      push_cast
      simp only [List.cons.injEq, wave.mk.injEq, and_true, true_and]
      refine ⟨?_, ?_, ?_⟩ <;> ring
    · intro w hw
      simp at hw
      rcases hw with hw | hw | hw <;> rw [hw] <;> constructor <;> dsimp only <;> linarith

end SurfWaves

section SurfCoins

variable {K : Type} [LinearOrderedField K]

theorem before_coins_eq (m : MathOps K) (inp : TickInput K) (g : Game K) :
    (beforeCollisions m inp (tickInc g)).coins
      = ((coinEnter inp (waveEnter (chargeStep inp (tickInc g)))).coins.map coinAdvance).filter
          (fun c => decide (c.x > -50 ∧ c.x < screenWidth + 50)) := by
  simp only [beforeCollisions_frame, spawnAndMove, sharkMove_frame, coinMove,
    coinMoveLoop_eq, List.nil_append, waveMove_frame, sharkEnter_frame]

theorem Update_playing_coins (m : MathOps K) (inp : TickInput K) (g : Game K)
    (hg : g.mode = gameMode.gameModePlaying) :
    (Update m inp g).coins = (beforeCollisions m inp (tickInc g)).coins.filter
      (fun c => decide (¬ coinHit (Update m inp g).humanHeight c)) := by
  rw [Update_playing m inp g hg]
  simp only [playingTick_frame]
  simp only [playingTick, sharkCollision_frame]
  rw [coinCollision, coinCollisionLoop_eq]
  simp

theorem coinEnter_coins_left (inp : TickInput K) (g : Game K)
    (hrand : inp.coinRandInt % 2 = 0) :
    (coinEnter inp g).coins
      = g.coins ++ (if g.ticksFromModeStart % 180 = 0 then
          [(⟨-50, 120 * inp.coinRandFloat + 50, 1, 15⟩ : coin K)] else []) := by
  unfold coinEnter
  dsimp only
  by_cases ht : g.ticksFromModeStart % 180 = 0
  · rw [if_pos ht, if_pos ht, if_pos hrand]
    norm_num [surfaceBaseHeight, screenHeight, coinSpeed, coinR]
  · rw [if_neg ht, if_neg ht, List.append_nil]

/-- A coin that is live before the coin move of a Playing tick, within the
bounds after its move and then at least 25 to the side of the centre, is live
after the tick, advanced once. -/
theorem coin_mem_step (m : MathOps K) (inp : TickInput K) (g : Game K)
    (hg : g.mode = gameMode.gameModePlaying) (c : coin K)
    (hc : c ∈ (coinEnter inp (waveEnter (chargeStep inp (tickInc g)))).coins)
    (h1 : -50 < c.x + c.vx) (h2 : c.x + c.vx < 690)
    (hfar : 625 ≤ (c.x + c.vx - 320) ^ 2) (hr : c.r = 15) :
    coinAdvance c ∈ (beforeCollisions m inp (tickInc g)).coins ∧
    coinAdvance c ∈ (Update m inp g).coins := by
  have hW : (screenWidth : K) + 50 = 690 := by norm_num [screenWidth]
  have hb : coinAdvance c ∈ (beforeCollisions m inp (tickInc g)).coins := by
    rw [before_coins_eq, List.mem_filter, decide_eq_true_eq, hW]
    exact ⟨List.mem_map.mpr ⟨c, hc, rfl⟩, h1, h2⟩
  refine ⟨hb, ?_⟩
  rw [Update_playing_coins m inp g hg, List.mem_filter, decide_eq_true_eq]
  refine ⟨hb, ?_⟩
  unfold coinHit
  have hR : ((coinAdvance c).r + humanR) ^ 2 = (625 : K) := by
    show (c.r + humanR) ^ 2 = (625 : K)
    rw [hr]
    norm_num [humanR]
  rw [hR, screenCenterX_eq]
  intro hlt
  have hx : (coinAdvance c).x = c.x + c.vx := rfl
  rw [hx] at hlt
  nlinarith [sq_nonneg ((coinAdvance c).y - (surfaceBaseHeight - (Update m inp g).humanHeight))]

theorem surfScript_coinRand (n : Nat) : (surfScript n : TickInput K).coinRandInt % 2 = 0 := by
  rcases surfScript_cases (K := K) n with ⟨-, h1⟩ | ⟨-, h1⟩ | ⟨-, h1⟩ | ⟨-, -, -, h1⟩ <;>
    rw [h1] <;> rfl

theorem surfInv_start (m : MathOps K) : surfInv m 0 (startGame m) := by
  have hs := startGame_eq m
  refine ⟨ReachableValid.step pressInput _ validDraws_press ReachableValid.init, hs.1, hs.2.1,
    hs.2.2.1, ?_, fun h => absurd h (by norm_num), fun h => absurd h (by norm_num)⟩
  rw [hs.2.2.2.1, surfWaves_lt180 0 (by norm_num)]

theorem surfInv_step (m : MathOps K) (n : Nat) (g : Game K) (hn : n + 1 ≤ 524)
    (h : surfInv m n g) : surfInv m (n + 1) (Update m (surfScript (n + 1)) g) := by
  obtain ⟨hr, hg, ht, hs, hw, hc, hcoin⟩ := h
  have hu := Update_noSharks m (surfScript (n + 1)) g hg hs (by rw [ht]; omega)
  rw [ht] at hu
  refine ⟨ReachableValid.step _ g (surfScript_valid (n + 1)) hr, hu.1, hu.2.2, hu.2.1,
    surf_waves_step m n g hg (by omega) ht hw hc, ?_, ?_⟩
  · intro h1 h315
    rcases Nat.eq_or_lt_of_le h1 with heq | hlt
    · have hi : (surfScript (n + 1) : TickInput K) = pressInput := by
        unfold surfScript
        rw [if_pos heq.symm]
      have hn0 : n + 1 - 1 = 0 := by omega
      rw [hi, hn0]
      exact Update_press m pressInput g hg ⟨rfl, rfl⟩
    · have hcc := hc (by omega) (by omega)
      have hq := Update_quiet m (surfScript (n + 1)) g (n - 1) hg
        ⟨surfScript_touched (n + 1) (by omega), surfScript_released (n + 1) (by omega)⟩
        hcc.1 hcc.2
      have hn1 : n - 1 + 1 = n + 1 - 1 := by omega
      rw [hn1] at hq
      exact hq
  · intro h180
    have hticks : (waveEnter (chargeStep (surfScript (n + 1)) (tickInc g))).ticksFromModeStart
        = n + 1 := by
      simp only [waveEnter_frame, chargeStep_frame, tickInc, ht]
      exact Nat.mod_eq_of_lt (by omega)
    have hcoins : (waveEnter (chargeStep (surfScript (n + 1)) (tickInc g))).coins = g.coins := by
      simp
    have hpre := coinEnter_coins_left (surfScript (n + 1))
      (waveEnter (chargeStep (surfScript (n + 1)) (tickInc g))) (surfScript_coinRand (n + 1))
    rw [hticks, hcoins] at hpre
    rcases Nat.eq_or_lt_of_le h180 with heq | hlt
    · have hi : (surfScript (n + 1) : TickInput K) = coinInput := by
        unfold surfScript
        rw [if_neg (by omega), if_pos heq.symm]
      have hk : ((n + 1 : Nat) : K) = 180 := by exact_mod_cast heq.symm
      have hmem : (⟨-50, 120 * (3 / 32) + 50, 1, 15⟩ : coin K)
          ∈ (coinEnter (surfScript (n + 1))
              (waveEnter (chargeStep (surfScript (n + 1)) (tickInc g)))).coins := by
        rw [hpre, if_pos (by omega), hi]
        exact List.mem_append_right _ (List.mem_singleton.mpr rfl)
      have hadv : coinAdvance (⟨-50, 120 * (3 / 32) + 50, 1, 15⟩ : coin K)
          = surfCoin (n + 1) := by
        unfold coinAdvance surfCoin
        rw [hk]
        norm_num
      rw [← hadv]
      exact (coin_mem_step m _ g hg _ hmem (by norm_num) (by norm_num) (by norm_num) rfl).2
    · have hn1 : (180 : K) ≤ (n : K) := by
        have : 180 ≤ n := by omega
        exact_mod_cast this
      have hn2 : (n : K) ≤ 523 := by
        have : n ≤ 523 := by omega
        exact_mod_cast this
      have hmem : surfCoin n
          ∈ (coinEnter (surfScript (n + 1))
              (waveEnter (chargeStep (surfScript (n + 1)) (tickInc g)))).coins := by
        rw [hpre]
        exact List.mem_append_left _ (hcoin (by omega))
      have hadv : coinAdvance (surfCoin n : coin K) = surfCoin (n + 1) := by
        unfold coinAdvance surfCoin
        push_cast
        simp only [coin.mk.injEq, and_true]
        ring
      have hx : (25 : K) ≤ 320 - ((surfCoin n : coin K).x + (surfCoin n : coin K).vx) := by
        show (25 : K) ≤ 320 - (-50 + ((n : K) - 179) + 1)
        linarith
      have hfar : (625 : K)
          ≤ ((surfCoin n : coin K).x + (surfCoin n : coin K).vx - 320) ^ 2 := by
        have h25 := pow_le_pow_left₀ (by norm_num : (0 : K) ≤ 25) hx 2
        have hsq : ((surfCoin n : coin K).x + (surfCoin n : coin K).vx - 320) ^ 2
            = (320 - ((surfCoin n : coin K).x + (surfCoin n : coin K).vx)) ^ 2 := by ring
        rw [hsq]
        exact le_trans (by norm_num) h25
      rw [← hadv]
      refine (coin_mem_step m _ g hg _ hmem ?_ ?_ hfar rfl).2
      · show (-50 : K) < -50 + ((n : K) - 179) + 1
        linarith
      · show -50 + ((n : K) - 179) + 1 < (690 : K)
        linarith

theorem surfInv_run (m : MathOps K) (n : Nat) (hn : n ≤ 524) :
    surfInv m n (runScript m surfScript n) := by
  induction n with
  | zero => exact surfInv_start m
  | succ n ih => exact surfInv_step m n _ hn (ih (by omega))

end SurfCoins

section SurfCollect

theorem heldCharge_315 : heldCharge 315 = 2269814212194742784 := by decide!

theorem f64_heldCharge_315 :
    (252 : ℝ) ≤ f64 (heldCharge 315) ∧ (f64 (heldCharge 315) : ℝ) ≤ 252 + 1 / 1000 := by
  rw [heldCharge_315]
  unfold f64
  constructor <;> norm_num

theorem surfScript_525 {K : Type} [LinearOrderedField K] :
    (surfScript 525 : TickInput K) = quietInput := by
  unfold surfScript
  rw [if_neg (by norm_num), if_neg (by norm_num), if_neg (by norm_num)]

/-- The player height after tick 525 of the `surfScript` session: the crest of
the released pulse plus the edge of the second ambient pulse. -/
theorem surfGame_humanHeight :
    (Update realMath quietInput (runScript realMath surfScript 524)).humanHeight
      = f64 (heldCharge 315) + 50 * Real.sin (Real.pi * (2 / 25)) := by
  have hinv := surfInv_run realMath 524 (by norm_num)
  obtain ⟨-, hg, ht, -, hw, hc, -⟩ := hinv
  have hwaves := surf_waves_step realMath 524 _ hg (by norm_num) ht hw hc
  rw [surfScript_525] at hwaves
  rw [Update_playing_humanHeight realMath quietInput _ hg, hwaves,
    surfWaves_ge360 (524 + 1) (by norm_num), screenCenterX_eq,
    calcSurfaceHeight_cons, calcSurfaceHeight_cons, calcSurfaceHeight_cons]
  have h1 : waveContribution realMath 320 0
      (⟨713 - 2 * (((524 + 1 : Nat) : ℝ) - 180), -2, 50, 150⟩ : wave ℝ) = 0 := by
    unfold waveContribution
    rw [if_neg]
    push_cast
    norm_num
  have h2 : waveContribution realMath 320 0
      (⟨-98 + 2 * (((524 + 1 : Nat) : ℝ) - 316), 2, f64 (heldCharge 315), 200⟩ : wave ℝ)
      = f64 (heldCharge 315) := by
    unfold waveContribution
    have harg : realMath.pi * (320 - (-98 + 2 * (((524 + 1 : Nat) : ℝ) - 316) - 200 / 2)) / 200
        = Real.pi / 2 := by
      show Real.pi * (320 - (-98 + 2 * (((524 + 1 : Nat) : ℝ) - 316) - 200 / 2)) / 200
        = Real.pi / 2
      push_cast
      ring
    rw [if_pos]
    · dsimp only
      rw [harg]
      show 0 + f64 (heldCharge 315) * Real.sin (Real.pi / 2) = _
      rw [Real.sin_pi_div_two]
      ring
    · push_cast
      norm_num
  have h3 : waveContribution realMath 320 0
      (⟨713 - 2 * (((524 + 1 : Nat) : ℝ) - 360), -2, 50, 150⟩ : wave ℝ)
      = 50 * Real.sin (Real.pi * (2 / 25)) := by
    unfold waveContribution
    have harg : realMath.pi * (320 - (713 - 2 * (((524 + 1 : Nat) : ℝ) - 360) - 150 / 2)) / 150
        = Real.pi * (2 / 25) := by
      show Real.pi * (320 - (713 - 2 * (((524 + 1 : Nat) : ℝ) - 360) - 150 / 2)) / 150
        = Real.pi * (2 / 25)
      push_cast
      ring
    rw [if_pos]
    · dsimp only
      rw [harg]
      show 0 + 50 * Real.sin (Real.pi * (2 / 25)) = _
      ring
    · push_cast
      norm_num
  rw [h1, h2, h3, calcSurfaceHeight_nil]
  ring

theorem surfGame_humanHeight_bounds :
    252 ≤ (Update realMath quietInput (runScript realMath surfScript 524)).humanHeight ∧
    (Update realMath quietInput (runScript realMath surfScript 524)).humanHeight ≤ 2647 / 10 := by
  rw [surfGame_humanHeight]
  have hA := f64_heldCharge_315
  have hpi := Real.pi_pos
  have hpi2 : Real.pi < 315 / 100 := by
    have h := Real.pi_lt_d2
    norm_num at h
    linarith
  have h0 : 0 ≤ Real.sin (Real.pi * (2 / 25)) :=
    Real.sin_nonneg_of_nonneg_of_le_pi (by positivity) (by nlinarith)
  have h1 : Real.sin (Real.pi * (2 / 25)) ≤ Real.pi * (2 / 25) :=
    Real.sin_le (by positivity)
  constructor <;> linarith [hA.1, hA.2]

theorem surfGame_coin :
    (⟨296, 245 / 4, 1, 15⟩ : coin ℝ)
      ∈ (beforeCollisions realMath quietInput
          (tickInc (runScript realMath surfScript 524))).coins := by
  have hinv := surfInv_run realMath 524 (by norm_num)
  obtain ⟨-, hg, ht, -, -, -, hcoin⟩ := hinv
  have hticks : (waveEnter (chargeStep (quietInput : TickInput ℝ)
      (tickInc (runScript realMath surfScript 524)))).ticksFromModeStart = 525 := by
    simp only [waveEnter_frame, chargeStep_frame, tickInc, ht]
    norm_num
  have hcoins : (waveEnter (chargeStep (quietInput : TickInput ℝ)
      (tickInc (runScript realMath surfScript 524)))).coins
      = (runScript realMath surfScript 524).coins := by simp
  have hpre := coinEnter_coins_left (quietInput : TickInput ℝ)
    (waveEnter (chargeStep quietInput (tickInc (runScript realMath surfScript 524)))) rfl
  rw [hticks, hcoins, if_neg (by norm_num), List.append_nil] at hpre
  have hmem : (surfCoin 524 : coin ℝ)
      ∈ (coinEnter quietInput (waveEnter (chargeStep quietInput
          (tickInc (runScript realMath surfScript 524))))).coins := by
    rw [hpre]
    exact hcoin (by norm_num)
  have hadv : coinAdvance (surfCoin 524 : coin ℝ) = ⟨296, 245 / 4, 1, 15⟩ := by
    unfold coinAdvance surfCoin
    norm_num
  have hW : (screenWidth : ℝ) + 50 = 690 := by norm_num [screenWidth]
  rw [before_coins_eq, List.mem_filter, decide_eq_true_eq, hW, ← hadv]
  refine ⟨List.mem_map.mpr ⟨_, hmem, rfl⟩, ?_, ?_⟩
  · rw [hadv]
    norm_num
  · rw [hadv]
    norm_num

theorem surfGame_hit :
    ((296 : ℝ) - screenCenterX) ^ 2
      + (245 / 4 - (surfaceBaseHeight
          - (Update realMath quietInput (runScript realMath surfScript 524)).humanHeight)) ^ 2
      < (15 + humanR) ^ 2 := by
  have hb := surfGame_humanHeight_bounds
  rw [screenCenterX_eq, surfaceBaseHeight_eq]
  have hR : ((15 : ℝ) + humanR) ^ 2 = 625 := by norm_num [humanR]
  rw [hR]
  have hsq := sq_le_sq' (a := (245 / 4 - (320
      - (Update realMath quietInput (runScript realMath surfScript 524)).humanHeight)))
    (b := 27 / 4) (by linarith [hb.1]) (by linarith [hb.2])
  norm_num at hsq ⊢
  linarith

end SurfCollect

section SurfWitness

/-- C18 with the real functions, on tick 525 of the `surfScript` session: the
coin of tick 180, at `(296, 61.25)`, is collected by a player lifted to a
height between 252 and 264.7 by the pulse of a charge held for 315 ticks; the
coin earns 3 points. -/
theorem coin_collect_height_witness :
    ReachableValid realMath (runScript realMath surfScript 524) ∧
    validDraws (quietInput : TickInput ℝ) ∧
    (runScript realMath surfScript 524).mode = gameMode.gameModePlaying ∧
    (⟨296, 245 / 4, 1, 15⟩ : coin ℝ)
      ∈ (beforeCollisions realMath quietInput
          (tickInc (runScript realMath surfScript 524))).coins ∧
    ((296 : ℝ) - screenCenterX) ^ 2
      + (245 / 4 - (surfaceBaseHeight
          - (Update realMath quietInput (runScript realMath surfScript 524)).humanHeight)) ^ 2
      < (15 + humanR) ^ 2 ∧
    (125 < (Update realMath quietInput (runScript realMath surfScript 524)).humanHeight ∧
      (Update realMath quietInput (runScript realMath surfScript 524)).humanHeight < 295) ∧
    coinPlus (Update realMath quietInput (runScript realMath surfScript 524)).humanHeight
      = 3 := by
  have hinv := surfInv_run realMath 524 (by norm_num)
  have h := (coin_collect_height realMath quietInput (runScript realMath surfScript 524)
    hinv.1 validDraws_quiet hinv.2.1).2 _ surfGame_coin surfGame_hit
  have hb := surfGame_humanHeight_bounds
  refine ⟨hinv.1, validDraws_quiet, hinv.2.1, surfGame_coin, surfGame_hit, h.1, ?_⟩
  unfold coinPlus
  rw [if_neg (by linarith [hb.2]), if_pos (by linarith [hb.1])]

end SurfWitness

end WaveInterference
